import Mathlib

/-!
# ctkModelTester: a verification development

Shallow embedding of `Libs/Core/ctkModelTester.cpp` (CTK).

The tester observes a `QAbstractItemModel`.  The Qt classes are not part of the
repository, so the model under test is a parameter: a record of the answers the
model and its indexes give at the time a handler runs.  Nothing is assumed about
these answers (a model under test may be arbitrarily broken).

Effects of the C++ code are made explicit:

* `throw errorString` is the outcome `Outcome.raised errorString`;
* dereferencing the null `d->Model` and `QStack::pop` on an empty stack are
  the outcome `Outcome.undefined`;
* the recursion through `testParent` / `persistentModelIndexes` is bounded by
  a fuel argument, running out of which is the outcome `Outcome.outOfFuel`;
* every run carries a trace of events: the lines written to `qDebug()`, and, as
  ghost history that never influences control flow, each evaluation of
  `test(...)`, each call made through `d->Model`, and each entry into one of
  the validation methods.

C++ `int` is embedded as `Int`: no overflow is modelled.
-/

namespace ctk

/-! ## Outcomes, traces and the two monads -/

/-- How a call ends. -/
inductive Outcome (α : Type) where
  /-- normal return -/
  | done (a : α)
  /-- `throw errorString` left the call -/
  | raised (errorString : String)
  /-- an undefined step was reached (null `d->Model`, `pop` on an empty stack) -/
  | undefined
  /-- the recursion bound of the embedding was hit -/
  | outOfFuel
  deriving DecidableEq, Repr

/-- Result of a `const` method: the events it produced and how it ended. -/
structure Run (ε α : Type) where
  trace : List ε
  out : Outcome α
  deriving DecidableEq, Repr

/-- Result of a non-`const` method: events, outcome, and the private state when the call ended. -/
structure Result (ε σ α : Type) where
  trace : List ε
  out : Outcome α
  state : σ
  deriving DecidableEq, Repr

/-- Computations of `const` methods: they read `σ` and cannot change it. -/
def CM (ε σ α : Type) : Type := σ → Run ε α

/-- Computations of non-`const` methods (the slots). -/
def TM (ε σ α : Type) : Type := σ → Result ε σ α

section monads
variable {ε σ α β : Type}

/-- The run `r`, preceded by the events `t`. -/
def Run.prepend (t : List ε) (r : Run ε α) : Run ε α := ⟨t ++ r.trace, r.out⟩

/-- The result `r`, preceded by the events `t`. -/
def Result.prepend (t : List ε) (r : Result ε σ α) : Result ε σ α :=
  ⟨t ++ r.trace, r.out, r.state⟩

/-- Sequencing of runs: the second part runs only after a normal return of the first. -/
def Run.andThen (x : Run ε α) (f : α → Run ε β) : Run ε β :=
  match x.out with
  | .done a => (f a).prepend x.trace
  | .raised m => ⟨x.trace, .raised m⟩
  | .undefined => ⟨x.trace, .undefined⟩
  | .outOfFuel => ⟨x.trace, .outOfFuel⟩

/-- Sequencing of results: the second part runs, from the state the first part
ended in, only after a normal return of the first. -/
def Result.andThen (x : Result ε σ α) (f : α → σ → Result ε σ β) : Result ε σ β :=
  match x.out with
  | .done a => (f a x.state).prepend x.trace
  | .raised m => ⟨x.trace, .raised m, x.state⟩
  | .undefined => ⟨x.trace, .undefined, x.state⟩
  | .outOfFuel => ⟨x.trace, .outOfFuel, x.state⟩

def CM.pure (a : α) : CM ε σ α := fun _ => ⟨[], .done a⟩

def CM.bind (x : CM ε σ α) (f : α → CM ε σ β) : CM ε σ β :=
  fun d => (x d).andThen (fun a => f a d)

instance : Monad (CM ε σ) where
  pure := CM.pure
  bind := CM.bind

def TM.pure (a : α) : TM ε σ α := fun s => ⟨[], .done a, s⟩

def TM.bind (x : TM ε σ α) (f : α → TM ε σ β) : TM ε σ β :=
  fun s => (x s).andThen f

instance : Monad (TM ε σ) where
  pure := TM.pure
  bind := TM.bind

/-- Read what the computation may read of the private state (`CTK_D`). -/
def CM.read : CM ε σ σ := fun d => ⟨[], .done d⟩

/-- Record an event. -/
def CM.emit (e : ε) : CM ε σ Unit := fun _ => ⟨[e], .done ()⟩

/-- End the computation with the given outcome. -/
def CM.stop (o : Outcome α) : CM ε σ α := fun _ => ⟨[], o⟩

def TM.read : TM ε σ σ := fun s => ⟨[], .done s, s⟩

def TM.modify (f : σ → σ) : TM ε σ Unit := fun s => ⟨[], .done (), f s⟩

def TM.stop (o : Outcome α) : TM ε σ α := fun s => ⟨[], o, s⟩

/-- `foreach (x, xs) body(x)`. -/
def forEach (xs : List α) (body : α → CM ε σ Unit) : CM ε σ Unit :=
  match xs with
  | [] => pure ()
  | x :: rest => do
    body x
    forEach rest body

/-- Iterations of a counting loop after the first evaluation of its condition:
`k` iterations remain; after each body the bound is evaluated again. -/
def forLoop.go (bound : CM ε σ Int) (body : Int → β → CM ε σ β) : Nat → Int → β → CM ε σ β
  | 0, _, acc => pure acc
  | k + 1, i, acc => do
    let acc ← body i acc
    let _ ← bound
    forLoop.go bound body k (i + 1) acc

/-- `for (int i = lo; i < bound(); ++i) body(i)`, where `acc` stands for the
local variables the body updates.  The bound expression is evaluated before
every iteration, as in C++; the model does not change while a handler runs, so
every evaluation returns the value of the first one. -/
def forLoop (lo : Int) (bound : CM ε σ Int) (init : β) (body : Int → β → CM ε σ β) : CM ε σ β := do
  let n ← bound
  forLoop.go bound body (n - lo).toNat lo init

/-- The computation never ends by a `throw`. -/
def CM.neverRaises (x : CM ε σ α) : Prop := ∀ c msg, (x c).out ≠ .raised msg

end monads

/-! ## The model under test -/

/-- `Qt::Orientation`. -/
inductive Orientation where
  | Horizontal
  | Vertical
  deriving DecidableEq, Repr

/-- What a `QAbstractItemModel` and its indexes answer at one moment.
`Idx` is `QModelIndex`, `PIdx` is `QPersistentModelIndex`; a model pointer is a
number and `none` is the null pointer. -/
structure QAbstractItemModel (Idx PIdx : Type) where
  /-- `QModelIndex()` -/
  nullIndex : Idx
  /-- `index.isValid()` -/
  isValid : Idx → Bool
  /-- `index.row()` -/
  row : Idx → Int
  /-- `index.column()` -/
  column : Idx → Int
  /-- `index.parent()` -/
  parent : Idx → Idx
  /-- `index.sibling(row, column)` -/
  sibling : Idx → Int → Int → Idx
  /-- `index.child(row, column)` -/
  child : Idx → Int → Int → Idx
  /-- `index.model()` -/
  model : Idx → Option Nat
  /-- `index.data(Qt::DisplayRole).isValid()` -/
  dataIsValid : Idx → Bool
  /-- `index.data(Qt::DisplayRole).toString()` -/
  dataToString : Idx → String
  /-- `long(index.internalPointer())` -/
  internalPointer : Idx → Int
  /-- `model->rowCount(parent)` -/
  rowCount : Idx → Int
  /-- `model->columnCount(parent)` -/
  columnCount : Idx → Int
  /-- `model->index(row, column, parent)` -/
  index : Int → Int → Idx → Idx
  /-- `model->hasIndex(row, column, parent)` -/
  hasIndex : Int → Int → Idx → Bool
  /-- `model->hasChildren(parent)` -/
  hasChildren : Idx → Bool
  /-- `model->canFetchMore(parent)` -/
  canFetchMore : Idx → Bool
  /-- construction of a `QPersistentModelIndex` from a `QModelIndex` -/
  persist : Idx → PIdx
  /-- the `QModelIndex` a `QPersistentModelIndex` currently stands for -/
  deref : PIdx → Idx

/-- The signals of `QAbstractItemModel` named in `setModel`, and `headerDataChanged`. -/
inductive Signal where
  | columnsAboutToBeInserted | columnsAboutToBeRemoved | columnsInserted | columnsRemoved
  | dataChanged | headerDataChanged | layoutAboutToBeChanged | layoutChanged
  | modelAboutToBeReset | modelReset
  | rowsAboutToBeInserted | rowsAboutToBeRemoved | rowsInserted | rowsRemoved
  deriving DecidableEq, Repr

/-- The slots of `ctkModelTester`. -/
inductive SlotName where
  | onColumnsAboutToBeInserted | onColumnsAboutToBeRemoved | onColumnsInserted | onColumnsRemoved
  | onDataChanged | onHeaderDataChanged | onLayoutAboutToBeChanged | onLayoutChanged
  | onModelAboutToBeReset | onModelReset
  | onRowsAboutToBeInserted | onRowsAboutToBeRemoved | onRowsInserted | onRowsRemoved
  deriving DecidableEq, Repr

/-- Events of a run. -/
inductive Event (Idx PIdx : Type) where
  /-- ghost: `model->disconnect(this)` was called on the model with this pointer -/
  | disconnect (model : Nat)
  /-- ghost: `connect(model, SIGNAL(signal), this, SLOT(slot))` was called -/
  | connect (model : Nat) (signal : Signal) (slot : SlotName)
  /-- `qDebug() << errorString` -/
  | qDebug (errorString : String)
  /-- ghost: `test(result, errorString)` was evaluated -/
  | test (result : Bool) (errorString : String)
  /-- ghost: `d->Model->rowCount(parent)` was called -/
  | rowCount (parent : Idx)
  /-- ghost: `d->Model->columnCount(parent)` was called -/
  | columnCount (parent : Idx)
  /-- ghost: `d->Model->index(row, column, parent)` was called -/
  | index (row column : Int) (parent : Idx)
  /-- ghost: `d->Model->hasIndex(row, column, parent)` was called -/
  | hasIndex (row column : Int) (parent : Idx)
  /-- ghost: `d->Model->hasChildren(parent)` was called -/
  | hasChildren (parent : Idx)
  /-- ghost: `d->Model->canFetchMore(parent)` was called -/
  | canFetchMore (parent : Idx)
  /-- ghost: `testModelIndex(index)` was entered -/
  | testModelIndex (index : Idx)
  /-- ghost: `testData(index)` was entered -/
  | testData (index : Idx)
  /-- ghost: `testParent(vparent)` was entered -/
  | testParent (vparent : Idx)
  /-- ghost: `testPersistentModelIndex(index)` was entered -/
  | testPersistentModelIndex (index : PIdx)
  /-- ghost: `testModel()` was entered -/
  | testModel
  /-- ghost: `persistentModelIndexes(index)` was entered -/
  | persistentModelIndexes (index : Idx)
  deriving DecidableEq, Repr

/-- The lines written to `qDebug()` during a run, in order. -/
def logged {Idx PIdx : Type} : List (Event Idx PIdx) → List String
  | [] => []
  | .qDebug s :: rest => s :: logged rest
  | _ :: rest => logged rest

/-! ## Private state of the tester -/

/-- `ctkModelTesterPrivate::Change`. -/
structure Change (Idx PIdx : Type) where
  Parent : Idx
  Orientation : Orientation
  Start : Int
  End : Int
  Count : Int
  Items : List PIdx
  deriving DecidableEq, Repr

/-- `ctkModelTesterPrivate`.  The stacks are lists whose head is the top. -/
structure ctkModelTesterPrivate (Idx PIdx : Type) where
  Model : Option Nat
  ThrowOnError : Bool
  NestedInserts : Bool
  AboutToBeInserted : List (Change Idx PIdx)
  AboutToBeRemoved : List (Change Idx PIdx)
  LayoutAboutToBeChanged : List PIdx
  deriving DecidableEq, Repr

/-- `ctkModelTesterPrivate::ctkModelTesterPrivate()`; the stacks and the list start empty. -/
def ctkModelTesterPrivate.init {Idx PIdx : Type} : ctkModelTesterPrivate Idx PIdx :=
  { Model := none, ThrowOnError := true, NestedInserts := false,
    AboutToBeInserted := [], AboutToBeRemoved := [], LayoutAboutToBeChanged := [] }

/-- The two fields of `ctkModelTesterPrivate` that the `const` methods of
`ctkModelTester` read: `d->Model` and `throwOnError()`. -/
structure Config where
  Model : Option Nat
  ThrowOnError : Bool
  deriving DecidableEq, Repr

/-- The part of the private state the `const` methods read. -/
def ctkModelTesterPrivate.config {Idx PIdx : Type} (d : ctkModelTesterPrivate Idx PIdx) : Config :=
  { Model := d.Model, ThrowOnError := d.ThrowOnError }

section tester
variable {Idx PIdx : Type} [DecidableEq Idx]

/-- Computations of the `const` methods of `ctkModelTester`. -/
abbrev Check (Idx PIdx : Type) : Type → Type :=
  CM (Event Idx PIdx) Config

/-- Computations of the slots of `ctkModelTester`. -/
abbrev Slot (Idx PIdx : Type) : Type → Type :=
  TM (Event Idx PIdx) (ctkModelTesterPrivate Idx PIdx)

/-- A `const` method called from a slot: same events and outcome, private state untouched. -/
def Slot.ofCheck {α : Type} (x : Check Idx PIdx α) : Slot Idx PIdx α :=
  fun s => ⟨(x s.config).trace, (x s.config).out, s⟩

instance : MonadLift (Check Idx PIdx) (Slot Idx PIdx) where
  monadLift := Slot.ofCheck

/-- A call through `d->Model`: undefined when the pointer is null, else the
model's answer `a`, with the call recorded. -/
def viaModel {α : Type} (e : Event Idx PIdx) (a : α) : Check Idx PIdx α :=
  fun d =>
    match d.Model with
    | none => ⟨[], .undefined⟩
    | some _ => ⟨[e], .done a⟩

namespace dModel
variable (M : QAbstractItemModel Idx PIdx)

/-- `d->Model->rowCount(parent)` -/
def rowCount (parent : Idx) : Check Idx PIdx Int := viaModel (.rowCount parent) (M.rowCount parent)

/-- `d->Model->columnCount(parent)` -/
def columnCount (parent : Idx) : Check Idx PIdx Int :=
  viaModel (.columnCount parent) (M.columnCount parent)

/-- `d->Model->index(row, column, parent)` -/
def index (row column : Int) (parent : Idx) : Check Idx PIdx Idx :=
  viaModel (.index row column parent) (M.index row column parent)

/-- `d->Model->hasIndex(row, column, parent)` -/
def hasIndex (row column : Int) (parent : Idx) : Check Idx PIdx Bool :=
  viaModel (.hasIndex row column parent) (M.hasIndex row column parent)

/-- `d->Model->hasChildren(parent)` -/
def hasChildren (parent : Idx) : Check Idx PIdx Bool :=
  viaModel (.hasChildren parent) (M.hasChildren parent)

/-- `d->Model->canFetchMore(parent)` -/
def canFetchMore (parent : Idx) : Check Idx PIdx Bool :=
  viaModel (.canFetchMore parent) (M.canFetchMore parent)

end dModel

/-! ## The `const` methods -/

/-- `ctkModelTester::test`. -/
def test (result : Bool) (errorString : String) : Check Idx PIdx Unit :=
  fun d =>
    if result then
      ⟨[.test result errorString], .done ()⟩
    else if d.ThrowOnError then
      ⟨[.test result errorString, .qDebug errorString], .raised errorString⟩
    else
      ⟨[.test result errorString, .qDebug errorString], .done ()⟩

variable (M : QAbstractItemModel Idx PIdx)

/-- `ctkModelTester::testData`. -/
def testData (index : Idx) : Check Idx PIdx Unit := do
  CM.emit (.testData index)
  if !M.isValid index then
    test (!M.dataIsValid index)
      ("An invalid index can't have valid data: " ++ M.dataToString index)
  else
    test (M.dataIsValid index)
      ("A valid index can't have invalid data: " ++ toString (M.row index) ++ ", "
        ++ toString (M.column index) ++ ", " ++ toString (M.internalPointer index))

/-- Body of `ctkModelTester::testModelIndex`, with the call to `testParent` it
ends with passed as `testParent`. -/
def testModelIndexWith (testParent : Idx → Check Idx PIdx Unit) (index : Idx) :
    Check Idx PIdx Unit := do
  CM.emit (.testModelIndex index)
  let d ← CM.read
  if !M.isValid index then
    test (M.model index == none) "An invalid index can't have a valid model."
    test (M.model index != d.Model) "An invalid index can't have a valid model."
    test (M.column index == -1) "An invalid index can't have a valid column."
    test (M.row index == -1) "An invalid index can't have a valid row."
    test (M.isValid (M.parent index) == false) "An invalid index can't have a valid row."
    test (M.row index == -1) "An invalid index can't have a valid row."
    forLoop 0 (pure 100) () fun i _ =>
      test (M.isValid (M.sibling index (i % 10) (i / 10)) == false)
        "An invalid index can't have valid sibling."
  else
    test (M.model index == d.Model) "A valid index must have a valid model."
    test (decide (M.column index ≥ 0)) "An valid index can't have an invalid column."
    test (decide (M.row index ≥ 0)) "An valid index can't have an invalid row."
    test (index == M.sibling index (M.row index) (M.column index))
      "Index's row and/or column is wrong."
  testData M index
  testParent index

/-- `ctkModelTester::testParent`; `fuel` bounds the depth of the recursion
through `testModelIndex`. -/
def testParent : Nat → Idx → Check Idx PIdx Unit
  | 0, _ => CM.stop .outOfFuel
  | fuel + 1, vparent => do
    CM.emit (.testParent vparent)
    if !(← dModel.hasChildren M vparent) then
      test (decide ((← dModel.rowCount M vparent) ≤ 0))
        "A parent with no children can't have a rowCount > 0."
    else
      test (decide ((← dModel.columnCount M vparent) > 0))
        "A parent with children can't have a columnCount <= 0."
      let rows ← dModel.rowCount M vparent
      -- `||` evaluates `canFetchMore` only when `rowCount(vparent) > 0` is false
      let ok ← if rows > 0 then pure true else dModel.canFetchMore M vparent
      test ok "A parent with children can't have a rowCount <= 0. or if it does, canFetchMore should return true"
    if !M.isValid vparent then
      pure ()
    else
      forLoop 0 (dModel.rowCount M vparent) () fun i _ =>
        forLoop 0 (dModel.columnCount M vparent) () fun j _ => do
          test (← dModel.hasIndex M i j vparent)
            "hasIndex should return true for int range {0->rowCount(), 0->columnCount()}"
          let child := M.child vparent i j
          test (M.parent child == vparent) "A child's parent can't be different from its parent"
          testModelIndexWith M (testParent fuel) child

/-- `ctkModelTester::testModelIndex`. -/
def testModelIndex (fuel : Nat) (index : Idx) : Check Idx PIdx Unit :=
  testModelIndexWith M (testParent M fuel) index

/-- `ctkModelTester::testPersistentModelIndex`. -/
def testPersistentModelIndex (index : PIdx) : Check Idx PIdx Unit := do
  CM.emit (.testPersistentModelIndex index)
  test (M.isValid (M.deref index)) "Persistent model index can't be invalid"
  let modelIndex ← dModel.index M (M.row (M.deref index)) (M.column (M.deref index))
    (M.parent (M.deref index))
  test (modelIndex == M.deref index)
    ("Persistent index (" ++ toString (M.row (M.deref index)) ++ ", "
      ++ toString (M.column (M.deref index)) ++ ") can't be invalid")

/-- `ctkModelTester::testModel`. -/
def testModel (fuel : Nat) : Check Idx PIdx Unit := do
  CM.emit .testModel
  let d ← CM.read
  if d.Model == none then
    pure ()
  else
    forLoop 0 (dModel.rowCount M M.nullIndex) () fun i _ =>
      forLoop 0 (dModel.columnCount M M.nullIndex) () fun j _ => do
        test (← dModel.hasIndex M i j M.nullIndex)
          "hasIndex should return true for int range {0->rowCount(), 0->columnCount()}"
        let child ← dModel.index M i j M.nullIndex
        test (!M.isValid (M.parent child)) "A child's parent can't be different from its parent"
        testModelIndex M fuel child

/-- `ctkModelTester::persistentModelIndexes`; `fuel` bounds the depth of the recursion. -/
def persistentModelIndexes : Nat → Idx → Check Idx PIdx (List PIdx)
  | 0, _ => CM.stop .outOfFuel
  | fuel + 1, index => do
    CM.emit (.persistentModelIndexes index)
    forLoop 0 (dModel.rowCount M index) [] fun i list =>
      forLoop 0 (dModel.columnCount M index) list fun j list => do
        let child := M.persist (← dModel.index M i j index)
        let list := list ++ [child]
        pure (list ++ (← persistentModelIndexes fuel (M.deref child)))

/-! ## The slots -/

/-- Count of `vparent` along the axis:
`orientation == Qt::Vertical ? d->Model->rowCount(vparent) : d->Model->columnCount(vparent)`. -/
def axisCount (orientation : Orientation) (vparent : Idx) : Check Idx PIdx Int :=
  if orientation = .Vertical then dModel.rowCount M vparent else dModel.columnCount M vparent

/-- `d->AboutToBeInserted.pop()`; undefined on an empty stack. -/
def popAboutToBeInserted : Slot Idx PIdx (Change Idx PIdx) :=
  fun d =>
    match d.AboutToBeInserted with
    | [] => ⟨[], .undefined, d⟩
    | change :: rest => ⟨[], .done change, { d with AboutToBeInserted := rest }⟩

/-- `d->AboutToBeRemoved.pop()`; undefined on an empty stack. -/
def popAboutToBeRemoved : Slot Idx PIdx (Change Idx PIdx) :=
  fun d =>
    match d.AboutToBeRemoved with
    | [] => ⟨[], .undefined, d⟩
    | change :: rest => ⟨[], .done change, { d with AboutToBeRemoved := rest }⟩

/-- The thirteen `connect` calls of `setModel`, in source order. -/
def connections : List (Signal × SlotName) :=
  [ (.columnsAboutToBeInserted, .onColumnsAboutToBeInserted),
    (.columnsAboutToBeRemoved, .onColumnsAboutToBeRemoved),
    (.columnsInserted, .onColumnsInserted),
    (.columnsRemoved, .onColumnsRemoved),
    (.dataChanged, .onDataChanged),
    (.layoutAboutToBeChanged, .onLayoutAboutToBeChanged),
    (.layoutChanged, .onLayoutChanged),
    (.modelAboutToBeReset, .onModelAboutToBeReset),
    (.modelReset, .onModelReset),
    (.rowsAboutToBeInserted, .onRowsAboutToBeInserted),
    (.rowsAboutToBeRemoved, .onRowsAboutToBeRemoved),
    (.rowsInserted, .onRowsInserted),
    (.rowsRemoved, .onRowsRemoved) ]

/-- `ctkModelTester::setModel`.  `M` is the model `_model` points to. -/
def setModel (fuel : Nat) (_model : Option Nat) : Slot Idx PIdx Unit := do
  let d ← TM.read
  match d.Model with
  | some old =>
    (CM.emit (.disconnect old) : Check Idx PIdx Unit)
    TM.modify fun d =>
      { d with AboutToBeInserted := [], AboutToBeRemoved := [], LayoutAboutToBeChanged := [] }
  | none => pure ()
  match _model with
  | some new =>
    (forEach connections fun c => CM.emit (.connect new c.1 c.2) : Check Idx PIdx Unit)
  | none => pure ()
  TM.modify fun d => { d with Model := _model }
  testModel M fuel

/-- `ctkModelTester::onDataChanged`.  The row loop runs while
`i <= bottomRight.row()`, the column loop while `j < bottomRight.column()`. -/
def onDataChanged (fuel : Nat) (topLeft bottomRight : Idx) : Slot Idx PIdx Unit := do
  (test (M.parent topLeft == M.parent bottomRight)
    "DataChanged support items with the same parent only" : Check Idx PIdx Unit)
  (test (decide (M.row topLeft ≥ M.row bottomRight))
    "topLeft can't have a row lower than bottomRight" : Check Idx PIdx Unit)
  (test (decide (M.column bottomRight ≥ M.column topLeft))
    "topLeft can't have a column lower than bottomRight" : Check Idx PIdx Unit)
  (forLoop (M.row topLeft) (pure (M.row bottomRight + 1)) () fun i _ =>
    forLoop (M.column topLeft) (pure (M.column bottomRight)) () fun j _ => do
      test (M.isValid (M.sibling topLeft i j)) "Changed data must be valid"
      testModelIndex M fuel (M.sibling topLeft i j) : Check Idx PIdx Unit)
  testModel M fuel

/-- `ctkModelTester::onHeaderDataChanged`.  The `default:` case of the switch
is not reachable with the two enumerators of `Qt::Orientation`. -/
def onHeaderDataChanged (fuel : Nat) (orientation : Orientation) (first last : Int) :
    Slot Idx PIdx Unit := do
  (test (decide (first ≤ last)) "Changed headers have wrong indexes" : Check Idx PIdx Unit)
  match orientation with
  | .Horizontal =>
    (test (decide ((← dModel.columnCount M M.nullIndex) > last))
      "There is no more horizontal headers than columns." : Check Idx PIdx Unit)
  | .Vertical =>
    (test (decide ((← dModel.rowCount M M.nullIndex) > last))
      "There is no more vertical headers than rows." : Check Idx PIdx Unit)
  testModel M fuel

/-- `ctkModelTester::onLayoutAboutToBeChanged`. -/
def onLayoutAboutToBeChanged (fuel : Nat) : Slot Idx PIdx Unit := do
  let list ← persistentModelIndexes M fuel M.nullIndex
  TM.modify fun d => { d with LayoutAboutToBeChanged := list }
  testModel M fuel

/-- `ctkModelTester::onLayoutChanged`. -/
def onLayoutChanged (fuel : Nat) : Slot Idx PIdx Unit := do
  let d ← TM.read
  (forEach d.LayoutAboutToBeChanged (testPersistentModelIndex M) : Check Idx PIdx Unit)
  TM.modify fun d => { d with LayoutAboutToBeChanged := [] }
  testModel M fuel

/-- `ctkModelTester::onModelAboutToBeReset`. -/
def onModelAboutToBeReset (fuel : Nat) : Slot Idx PIdx Unit := do
  testModel M fuel

/-- `ctkModelTester::onModelReset`. -/
def onModelReset (fuel : Nat) : Slot Idx PIdx Unit := do
  testModel M fuel

/-- `ctkModelTester::onItemsAboutToBeInserted`. -/
def onItemsAboutToBeInserted (fuel : Nat) (vparent : Idx) (orientation : Orientation)
    (start end_ : Int) : Slot Idx PIdx Unit := do
  (test (decide (start ≤ end_)) "Start can't be higher than end" : Check Idx PIdx Unit)
  if !(← TM.read).NestedInserts then
    (test ((← TM.read).AboutToBeInserted.length == 0)
      "While inserting items, you can't insert other items." : Check Idx PIdx Unit)
  (test ((← TM.read).AboutToBeRemoved.length == 0)
    "While removing items, you can't insert other items." : Check Idx PIdx Unit)
  let count ← axisCount M orientation vparent
  let items ← persistentModelIndexes M fuel vparent
  let change : Change Idx PIdx :=
    { Parent := vparent, Orientation := orientation, Start := start, End := end_,
      Count := count, Items := items }
  TM.modify fun d => { d with AboutToBeInserted := change :: d.AboutToBeInserted }
  testModel M fuel

/-- `ctkModelTester::onItemsAboutToBeRemoved`. -/
def onItemsAboutToBeRemoved (fuel : Nat) (vparent : Idx) (orientation : Orientation)
    (start end_ : Int) : Slot Idx PIdx Unit := do
  (test (decide (start ≤ end_)) "Start can't be higher than end" : Check Idx PIdx Unit)
  (test ((← TM.read).AboutToBeInserted.length == 0)
    "While inserting items, you can't remove other items." : Check Idx PIdx Unit)
  (test ((← TM.read).AboutToBeRemoved.length == 0)
    "While removing items, you can't remove other items." : Check Idx PIdx Unit)
  let count ← axisCount M orientation vparent
  (test (decide (start < count)) "Item to remove can't be invalid" : Check Idx PIdx Unit)
  (test (decide (end_ < count)) "Item to remove can't be invalid" : Check Idx PIdx Unit)
  let items ← (forLoop 0 (pure count) [] fun i items => do
    let index := M.persist
      (← if orientation = .Vertical then dModel.index M i 0 vparent else dModel.index M 0 i vparent)
    test (M.isValid (M.deref index)) "Index invalid"
    let items :=
      if orientation = .Vertical ∧ (M.row (M.deref index) < start ∨ M.row (M.deref index) > end_)
      then items ++ [index] else items
    let items :=
      if orientation = .Horizontal
        ∧ (M.column (M.deref index) < start ∨ M.column (M.deref index) > end_)
      then items ++ [index] else items
    pure items : Check Idx PIdx (List PIdx))
  let change : Change Idx PIdx :=
    { Parent := vparent, Orientation := orientation, Start := start, End := end_,
      Count := count, Items := items }
  TM.modify fun d => { d with AboutToBeRemoved := change :: d.AboutToBeRemoved }
  testModel M fuel

/-- `ctkModelTester::onItemsInserted`. -/
def onItemsInserted (fuel : Nat) (vparent : Idx) (orientation : Orientation)
    (start end_ : Int) : Slot Idx PIdx Unit := do
  (test (decide (start ≤ end_)) "Start can't be higher end" : Check Idx PIdx Unit)
  (test ((← TM.read).AboutToBeInserted.length != 0)
    "rowsInserted() has been emitted, but not rowsAboutToBeInserted." : Check Idx PIdx Unit)
  (test ((← TM.read).AboutToBeRemoved.length == 0)
    "While removing items, you can't insert other items." : Check Idx PIdx Unit)
  let change ← popAboutToBeInserted
  (test (change.Parent == vparent) "Parent can't be different" : Check Idx PIdx Unit)
  (test (change.Orientation == .Vertical) "Orientation can't be different" : Check Idx PIdx Unit)
  (test (change.Start == start) "Start can't be different" : Check Idx PIdx Unit)
  (test (change.End == end_) "End can't be different" : Check Idx PIdx Unit)
  let count ← axisCount M orientation vparent
  (test (decide (change.Count < count)) "The new count number can't be lower" : Check Idx PIdx Unit)
  (test (count - change.Count == (end_ - start + 1)) "The new count number can't be lower" : Check Idx PIdx Unit)
  (forEach change.Items (testPersistentModelIndex M) : Check Idx PIdx Unit)
  testModel M fuel

/-- `ctkModelTester::onItemsRemoved`. -/
def onItemsRemoved (fuel : Nat) (vparent : Idx) (orientation : Orientation)
    (start end_ : Int) : Slot Idx PIdx Unit := do
  (test (decide (start ≤ end_)) "Start can't be higher end" : Check Idx PIdx Unit)
  (test ((← TM.read).AboutToBeRemoved.length != 0)
    "rowsRemoved() has been emitted, but not rowsAboutToBeRemoved." : Check Idx PIdx Unit)
  (test ((← TM.read).AboutToBeInserted.length == 0)
    "While inserted items, you can't remove other items." : Check Idx PIdx Unit)
  let change ← popAboutToBeRemoved
  (test (change.Parent == vparent) "Parent can't be different" : Check Idx PIdx Unit)
  (test (change.Orientation == .Vertical) "Orientation can't be different" : Check Idx PIdx Unit)
  (test (change.Start == start) "Start can't be different" : Check Idx PIdx Unit)
  (test (change.End == end_) "End can't be different" : Check Idx PIdx Unit)
  let count ← axisCount M orientation vparent
  (test (decide (change.Count > count)) "The new count number can't be higher" : Check Idx PIdx Unit)
  (test (change.Count - count == (end_ - start + 1)) "The new count number can't be higher" : Check Idx PIdx Unit)
  (forEach change.Items (testPersistentModelIndex M) : Check Idx PIdx Unit)
  testModel M fuel

/-- `ctkModelTester::onColumnsAboutToBeInserted`. -/
def onColumnsAboutToBeInserted (fuel : Nat) (vparent : Idx) (start end_ : Int) :
    Slot Idx PIdx Unit :=
  onItemsAboutToBeInserted M fuel vparent .Horizontal start end_

/-- `ctkModelTester::onColumnsAboutToBeRemoved`. -/
def onColumnsAboutToBeRemoved (fuel : Nat) (vparent : Idx) (start end_ : Int) :
    Slot Idx PIdx Unit :=
  onItemsAboutToBeRemoved M fuel vparent .Horizontal start end_

/-- `ctkModelTester::onColumnsInserted`. -/
def onColumnsInserted (fuel : Nat) (vparent : Idx) (start end_ : Int) : Slot Idx PIdx Unit :=
  onItemsInserted M fuel vparent .Horizontal start end_

/-- `ctkModelTester::onColumnsRemoved`. -/
def onColumnsRemoved (fuel : Nat) (vparent : Idx) (start end_ : Int) : Slot Idx PIdx Unit :=
  onItemsRemoved M fuel vparent .Horizontal start end_

/-- `ctkModelTester::onRowsAboutToBeInserted`. -/
def onRowsAboutToBeInserted (fuel : Nat) (vparent : Idx) (start end_ : Int) :
    Slot Idx PIdx Unit :=
  onItemsAboutToBeInserted M fuel vparent .Vertical start end_

/-- `ctkModelTester::onRowsAboutToBeRemoved`. -/
def onRowsAboutToBeRemoved (fuel : Nat) (vparent : Idx) (start end_ : Int) :
    Slot Idx PIdx Unit :=
  onItemsAboutToBeRemoved M fuel vparent .Vertical start end_

/-- `ctkModelTester::onRowsInserted`. -/
def onRowsInserted (fuel : Nat) (vparent : Idx) (start end_ : Int) : Slot Idx PIdx Unit :=
  onItemsInserted M fuel vparent .Vertical start end_

/-- `ctkModelTester::onRowsRemoved`. -/
def onRowsRemoved (fuel : Nat) (vparent : Idx) (start end_ : Int) : Slot Idx PIdx Unit :=
  onItemsRemoved M fuel vparent .Vertical start end_

/-- `ctkModelTester::setThrowOnError`. -/
def setThrowOnError (throwException : Bool) : Slot Idx PIdx Unit :=
  TM.modify fun d => { d with ThrowOnError := throwException }

/-- `ctkModelTester::setNestedInserts`. -/
def setNestedInserts (nestedInsertsValue : Bool) : Slot Idx PIdx Unit :=
  TM.modify fun d => { d with NestedInserts := nestedInsertsValue }

/-! ## Histories of calls with `throwOnError` left untouched -/

/-- The calls of a history: attaching a model, choosing `nestedInserts`, and
the four insertion/removal notifications (for rows with `Qt::Vertical`, for
columns with `Qt::Horizontal`). -/
inductive Call (Idx : Type) where
  | setModel (_model : Option Nat)
  | setNestedInserts (nestedInsertsValue : Bool)
  | onItemsAboutToBeInserted (vparent : Idx) (orientation : Orientation) (start end_ : Int)
  | onItemsInserted (vparent : Idx) (orientation : Orientation) (start end_ : Int)
  | onItemsAboutToBeRemoved (vparent : Idx) (orientation : Orientation) (start end_ : Int)
  | onItemsRemoved (vparent : Idx) (orientation : Orientation) (start end_ : Int)

/-- The method a call stands for; `M` is what the model answers during the call. -/
def Call.run (fuel : Nat) : Call Idx → Slot Idx PIdx Unit
  | .setModel _model => ctk.setModel M fuel _model
  | .setNestedInserts nestedInsertsValue => ctk.setNestedInserts nestedInsertsValue
  | .onItemsAboutToBeInserted vparent orientation start end_ =>
    ctk.onItemsAboutToBeInserted M fuel vparent orientation start end_
  | .onItemsInserted vparent orientation start end_ =>
    ctk.onItemsInserted M fuel vparent orientation start end_
  | .onItemsAboutToBeRemoved vparent orientation start end_ =>
    ctk.onItemsAboutToBeRemoved M fuel vparent orientation start end_
  | .onItemsRemoved vparent orientation start end_ =>
    ctk.onItemsRemoved M fuel vparent orientation start end_

/-- States of a tester after a finite history of calls, starting from a freshly
constructed one.  Each call either returns or raises; the model may answer
differently from one call to the next. -/
inductive Reachable : ctkModelTesterPrivate Idx PIdx → Prop where
  | fresh : Reachable ctkModelTesterPrivate.init
  | call {d : ctkModelTesterPrivate Idx PIdx} (h : Reachable d)
      (M : QAbstractItemModel Idx PIdx) (fuel : Nat) (c : Call Idx)
      (hout : (c.run M fuel d).out = .done () ∨ ∃ msg, (c.run M fuel d).out = .raised msg) :
      Reachable (c.run M fuel d).state

/-- Invariant of the histories that leave `throwOnError` untouched: it is still
set, and one of the two stacks is empty. -/
def StacksExclusive (d : ctkModelTesterPrivate Idx PIdx) : Prop :=
  d.ThrowOnError = true ∧ (d.AboutToBeInserted = [] ∨ d.AboutToBeRemoved = [])

/-- The non-recursive part of `ctkModelTester::testParent` (source lines 216-226). -/
def testParentChecks (vparent : Idx) : Check Idx PIdx Unit := do
  if !(← dModel.hasChildren M vparent) then
    test (decide ((← dModel.rowCount M vparent) ≤ 0))
      "A parent with no children can't have a rowCount > 0."
  else
    test (decide ((← dModel.columnCount M vparent) > 0))
      "A parent with children can't have a columnCount <= 0."
    let rows ← dModel.rowCount M vparent
    -- `||` evaluates `canFetchMore` only when `rowCount(vparent) > 0` is false
    let ok ← if rows > 0 then pure true else dModel.canFetchMore M vparent
    test ok "A parent with children can't have a rowCount <= 0. or if it does, canFetchMore should return true"

/-- The loop of `ctkModelTester::testParent` over the children (source lines 233-242). -/
def testParentChildren (fuel : Nat) (vparent : Idx) : Check Idx PIdx Unit :=
  forLoop 0 (dModel.rowCount M vparent) () fun i _ =>
    forLoop 0 (dModel.columnCount M vparent) () fun j _ => do
      test (← dModel.hasIndex M i j vparent)
        "hasIndex should return true for int range {0->rowCount(), 0->columnCount()}"
      let child := M.child vparent i j
      test (M.parent child == vparent) "A child's parent can't be different from its parent"
      testModelIndex M fuel child

/-- Every public operation of the tester. -/
inductive Operation (Idx : Type) where
  | setModel (_model : Option Nat)
  | setThrowOnError (throwException : Bool)
  | setNestedInserts (nestedInsertsValue : Bool)
  | testModel
  | onDataChanged (topLeft bottomRight : Idx)
  | onHeaderDataChanged (orientation : Orientation) (first last : Int)
  | onLayoutAboutToBeChanged
  | onLayoutChanged
  | onModelAboutToBeReset
  | onModelReset
  | onItemsAboutToBeInserted (vparent : Idx) (orientation : Orientation) (start end_ : Int)
  | onItemsInserted (vparent : Idx) (orientation : Orientation) (start end_ : Int)
  | onItemsAboutToBeRemoved (vparent : Idx) (orientation : Orientation) (start end_ : Int)
  | onItemsRemoved (vparent : Idx) (orientation : Orientation) (start end_ : Int)

/-- The method an operation stands for; `M` is what the model answers during the call. -/
def Operation.run (fuel : Nat) : Operation Idx → Slot Idx PIdx Unit
  | .setModel _model => ctk.setModel M fuel _model
  | .setThrowOnError throwException => ctk.setThrowOnError throwException
  | .setNestedInserts nestedInsertsValue => ctk.setNestedInserts nestedInsertsValue
  | .testModel => Slot.ofCheck (ctk.testModel M fuel)
  | .onDataChanged topLeft bottomRight => ctk.onDataChanged M fuel topLeft bottomRight
  | .onHeaderDataChanged orientation first last =>
    ctk.onHeaderDataChanged M fuel orientation first last
  | .onLayoutAboutToBeChanged => ctk.onLayoutAboutToBeChanged M fuel
  | .onLayoutChanged => ctk.onLayoutChanged M fuel
  | .onModelAboutToBeReset => ctk.onModelAboutToBeReset M fuel
  | .onModelReset => ctk.onModelReset M fuel
  | .onItemsAboutToBeInserted vparent orientation start end_ =>
    ctk.onItemsAboutToBeInserted M fuel vparent orientation start end_
  | .onItemsInserted vparent orientation start end_ =>
    ctk.onItemsInserted M fuel vparent orientation start end_
  | .onItemsAboutToBeRemoved vparent orientation start end_ =>
    ctk.onItemsAboutToBeRemoved M fuel vparent orientation start end_
  | .onItemsRemoved vparent orientation start end_ =>
    ctk.onItemsRemoved M fuel vparent orientation start end_

/-- States of a tester after a finite history of public operations, starting
from a freshly constructed one.  Each operation either returns or raises. -/
inductive Attainable : ctkModelTesterPrivate Idx PIdx → Prop where
  | fresh : Attainable ctkModelTesterPrivate.init
  | step {d : ctkModelTesterPrivate Idx PIdx} (h : Attainable d)
      (M : QAbstractItemModel Idx PIdx) (fuel : Nat) (op : Operation Idx)
      (hout : (op.run M fuel d).out = .done () ∨ ∃ msg, (op.run M fuel d).out = .raised msg) :
      Attainable (op.run M fuel d).state

/-- Without a bound model nothing is pending. -/
def UnboundClean (d : ctkModelTesterPrivate Idx PIdx) : Prop :=
  d.Model = none →
    d.AboutToBeInserted = [] ∧ d.AboutToBeRemoved = [] ∧ d.LayoutAboutToBeChanged = []

/-- The address the removal snapshot looks at for position `i` along the axis:
`index(i, 0, parent)` for rows, `index(0, i, parent)` for columns. -/
def axisIndex (orientation : Orientation) (vparent : Idx) (i : Int) : Idx :=
  if orientation = .Vertical then M.index i 0 vparent else M.index 0 i vparent

/-- Position of an address along the axis: its row for `Vertical`, its column for `Horizontal`. -/
def axisPosition (orientation : Orientation) (index : Idx) : Int :=
  if orientation = .Vertical then M.row index else M.column index

/-- The surviving addresses, following the claim's words: one persistent
address per position `i` of `[0, count)` whose address reports a position
outside `[start, end]`, in increasing `i`. -/
def survivors (orientation : Orientation) (vparent : Idx) (start end_ count : Int) : List PIdx :=
  (List.range count.toNat).flatMap fun t =>
    if axisPosition M orientation (M.deref (M.persist (axisIndex M orientation vparent t))) < start
        ∨ axisPosition M orientation (M.deref (M.persist (axisIndex M orientation vparent t))) > end_
    then [M.persist (axisIndex M orientation vparent t)] else []

/-- What lets `onItemsAboutToBeRemoved` reach its push: nothing, without
`throwOnError`; with it, each of its checks has to pass. -/
def removalAnnounced (d : ctkModelTesterPrivate Idx PIdx) (orientation : Orientation)
    (vparent : Idx) (start end_ count : Int) : Prop :=
  d.ThrowOnError = true →
    start ≤ end_ ∧ d.AboutToBeInserted = [] ∧ d.AboutToBeRemoved = []
      ∧ start < count ∧ end_ < count
      ∧ ∀ i : Int, 0 ≤ i → i < count →
          M.isValid (M.deref (M.persist (axisIndex M orientation vparent i))) = true

/-- The run returned `a` and logged nothing: no violation was reported. -/
def Run.quiet {Idx PIdx α : Type} (r : Run (Event Idx PIdx) α) (a : α) : Prop :=
  r.out = .done a ∧ logged r.trace = []

/-- The addresses reachable from the root through in-range (row, column) steps,
following the claim's words: `index(i, j)` of the model at the top level,
`p.child(i, j)` below a reached address `p`. -/
inductive Walked (M : QAbstractItemModel Idx PIdx) : Idx → Prop where
  | top (i j : Int) (hi : 0 ≤ i) (hi' : i < M.rowCount M.nullIndex)
      (hj : 0 ≤ j) (hj' : j < M.columnCount M.nullIndex) : Walked M (M.index i j M.nullIndex)
  | step {p : Idx} (h : Walked M p) (i j : Int)
      (hi : 0 ≤ i) (hi' : i < M.rowCount p) (hj : 0 ≤ j) (hj' : j < M.columnCount p) :
      Walked M (M.child p i j)

/-- The (row, column) pairs of the sibling loop of `testModelIndex`:
`(i % 10, i / 10)` for `i = 0 .. 99`, in the order of the loop. -/
def siblingSamples : List (Int × Int) :=
  (List.range 100).map fun i : Nat => ((i : Int) % 10, (i : Int) / 10)

/-- The error string of the sibling check. -/
def siblingMessage : String := "An invalid index can't have valid sibling."

/-- Results of the sibling checks evaluated during a run, in order. -/
def siblingTests {Idx PIdx : Type} : List (Event Idx PIdx) → List Bool
  | [] => []
  | .test result errorString :: rest =>
    if errorString = siblingMessage then result :: siblingTests rest else siblingTests rest
  | _ :: rest => siblingTests rest

/-- The five conditions `testModelIndex` checks on an invalid index before its
sibling loop (the row condition is checked twice). -/
def invalidChecks (index : Idx) (model : Option Nat) : Bool :=
  (M.model index == none) && (M.model index != model) && (M.column index == -1)
    && (M.row index == -1) && (M.isValid (M.parent index) == false)

/-- The events of `test(result, errorString)`: the evaluation, and the line
written to `qDebug()` when the check fails. -/
def checkEvents (result : Bool) (errorString : String) : List (Event Idx PIdx) :=
  if result then [.test true errorString] else [.test false errorString, .qDebug errorString]

/-- The run evaluated no sibling check and reported no sibling violation. -/
def Run.silent {Idx PIdx α : Type} (r : Run (Event Idx PIdx) α) : Prop :=
  siblingTests r.trace = [] ∧ siblingMessage ∉ logged r.trace ∧ r.out ≠ .raised siblingMessage

/-- The in-range (row, column) pairs of a `rows` x `cols` table, in row-major order. -/
def cells (rows cols : Int) : List (Int × Int) :=
  (List.range rows.toNat).flatMap fun i : Nat =>
    (List.range cols.toNat).map fun j : Nat => ((i : Int), (j : Int))

/-- The address a sequence of (row, column) steps leads to from `p`:
each step `(i, j)` is `model->index(i, j, p)`. -/
def follow (p : Idx) : List (Int × Int) → Idx
  | [] => p
  | ij :: rest => follow (M.index ij.1 ij.2 p) rest

/-- Every step of the sequence is in range of the address it is taken from. -/
def InRange (p : Idx) : List (Int × Int) → Prop
  | [] => True
  | ij :: rest =>
    (0 ≤ ij.1 ∧ ij.1 < M.rowCount p ∧ 0 ≤ ij.2 ∧ ij.2 < M.columnCount p)
      ∧ InRange (M.index ij.1 ij.2 p) rest

/-- The nodes below `p` down to depth `n`, as step sequences, following the
claim's words: depth-first pre-order (a node, then the nodes below it, then its
next sibling), siblings in row-major order. -/
def walks : Nat → Idx → List (List (Int × Int))
  | 0, _ => []
  | n + 1, p =>
    (cells (M.rowCount p) (M.columnCount p)).flatMap fun ij =>
      [ij] :: (walks n (M.index ij.1 ij.2 p)).map fun w => ij :: w

/-- The events a validation walk (`testModel`, `testModelIndex`, `testParent`,
`testData`) can produce apart from its entries into `testModelIndex` and
`testParent`: checks, log lines, calls through `d->Model`, and the entries
into `testData` and `testModel`. -/
def Event.isWalkStep {Idx PIdx : Type} : Event Idx PIdx → Bool
  | .qDebug _ | .test _ _ | .rowCount _ | .columnCount _ | .index _ _ _ | .hasIndex _ _ _
  | .hasChildren _ | .canFetchMore _ | .testData _ | .testModel => true
  | _ => false

/-- The call came to an end: it returned, or, when `throw` is set, it raised.
It neither reached an undefined step nor used up the recursion bound. -/
def Outcome.completes {α : Type} (throw : Bool) : Outcome α → Prop
  | .done _ => True
  | .raised _ => throw = true
  | .undefined => False
  | .outOfFuel => False

/-- Variant of `onItemsInserted` for the comparison of the claim: the body of
`ctkModelTester::onItemsInserted` with its check `change.Count < count` deleted. -/
def onItemsInsertedWithoutLooseCheck (fuel : Nat) (vparent : Idx) (orientation : Orientation)
    (start end_ : Int) : Slot Idx PIdx Unit := do
  (test (decide (start ≤ end_)) "Start can't be higher end" : Check Idx PIdx Unit)
  (test ((← TM.read).AboutToBeInserted.length != 0)
    "rowsInserted() has been emitted, but not rowsAboutToBeInserted." : Check Idx PIdx Unit)
  (test ((← TM.read).AboutToBeRemoved.length == 0)
    "While removing items, you can't insert other items." : Check Idx PIdx Unit)
  let change ← popAboutToBeInserted
  (test (change.Parent == vparent) "Parent can't be different" : Check Idx PIdx Unit)
  (test (change.Orientation == .Vertical) "Orientation can't be different" : Check Idx PIdx Unit)
  (test (change.Start == start) "Start can't be different" : Check Idx PIdx Unit)
  (test (change.End == end_) "End can't be different" : Check Idx PIdx Unit)
  let count ← axisCount M orientation vparent
  (test (count - change.Count == (end_ - start + 1)) "The new count number can't be lower" : Check Idx PIdx Unit)
  (forEach change.Items (testPersistentModelIndex M) : Check Idx PIdx Unit)
  testModel M fuel

/-- Variant of `onItemsRemoved` for the comparison of the claim: the body of
`ctkModelTester::onItemsRemoved` with its check `change.Count > count` deleted. -/
def onItemsRemovedWithoutLooseCheck (fuel : Nat) (vparent : Idx) (orientation : Orientation)
    (start end_ : Int) : Slot Idx PIdx Unit := do
  (test (decide (start ≤ end_)) "Start can't be higher end" : Check Idx PIdx Unit)
  (test ((← TM.read).AboutToBeRemoved.length != 0)
    "rowsRemoved() has been emitted, but not rowsAboutToBeRemoved." : Check Idx PIdx Unit)
  (test ((← TM.read).AboutToBeInserted.length == 0)
    "While inserted items, you can't remove other items." : Check Idx PIdx Unit)
  let change ← popAboutToBeRemoved
  (test (change.Parent == vparent) "Parent can't be different" : Check Idx PIdx Unit)
  (test (change.Orientation == .Vertical) "Orientation can't be different" : Check Idx PIdx Unit)
  (test (change.Start == start) "Start can't be different" : Check Idx PIdx Unit)
  (test (change.End == end_) "End can't be different" : Check Idx PIdx Unit)
  let count ← axisCount M orientation vparent
  (test (change.Count - count == (end_ - start + 1)) "The new count number can't be higher" : Check Idx PIdx Unit)
  (forEach change.Items (testPersistentModelIndex M) : Check Idx PIdx Unit)
  testModel M fuel

/-- What a caller can observe of a call: how it ended, the private state it
left, and the lines it wrote to `qDebug()`. -/
def Result.observed {Idx PIdx α : Type}
    (r : Result (Event Idx PIdx) (ctkModelTesterPrivate Idx PIdx) α) :
    Outcome α × ctkModelTesterPrivate Idx PIdx × List String :=
  (r.out, r.state, logged r.trace)

end tester

/-! ## Concrete models: finite trees of tables -/

/-- Index of a concrete model: the path from the cell up to the root, as
(row, column) pairs, the cell's own position first; `[]` is the invalid index. -/
abbrev Cell : Type := List (Int × Int)

/-- Whether `(r, c)` lies in a table of the given size. -/
def inTable (size : Int × Int) (r c : Int) : Bool :=
  decide (0 ≤ r ∧ r < size.1 ∧ 0 ≤ c ∧ c < size.2)

/-- A model at pointer `ptr` whose node `p` has a table of `(shape p).1` rows
and `(shape p).2` columns of children.  A persistent index remembers the cell
it was made from, and `moved` tells where the model has moved that cell to
since. -/
def treeModel (ptr : Nat) (shape : Cell → Int × Int) (moved : Cell → Cell) :
    QAbstractItemModel Cell Cell where
  nullIndex := []
  isValid x := !x.isEmpty
  row x := match x with | (r, _) :: _ => r | [] => -1
  column x := match x with | (_, c) :: _ => c | [] => -1
  parent x := x.tail
  sibling x r c :=
    match x with
    | _ :: p => if inTable (shape p) r c then (r, c) :: p else []
    | [] => []
  child x r c :=
    match x with
    | _ :: _ => if inTable (shape x) r c then (r, c) :: x else []
    | [] => []
  model x := if x.isEmpty then none else some ptr
  dataIsValid x := !x.isEmpty
  dataToString x := if x.isEmpty then "" else "cell"
  internalPointer _ := 0
  rowCount p := (shape p).1
  columnCount p := (shape p).2
  index r c p := if inTable (shape p) r c then (r, c) :: p else []
  hasIndex r c p := inTable (shape p) r c
  hasChildren p := decide (0 < (shape p).1 ∧ 0 < (shape p).2)
  canFetchMore _ := false
  persist x := x
  deref x := moved x

/-- Shape of a flat `rows` x `cols` table: only the root has children. -/
def flat (rows cols : Int) : Cell → Int × Int :=
  fun p => if p.isEmpty then (rows, cols) else (0, 0)

/-- A flat `rows` x `cols` table at pointer `ptr`. -/
def tableModel (ptr : Nat) (rows cols : Int) (moved : Cell → Cell) : QAbstractItemModel Cell Cell :=
  treeModel ptr (flat rows cols) moved

/-- A 1 x 1 table whose only cell has a 1 x 1 table of children. -/
def nested : Cell → Int × Int :=
  fun p => if p.length ≤ 1 then (1, 1) else (0, 0)

/-- A tester bound to the model at pointer `ptr`, with empty stacks. -/
def boundTester (ptr : Nat) : ctkModelTesterPrivate Cell Cell :=
  { ctkModelTesterPrivate.init with Model := some ptr }

/-- The record that about-to-insert of rows 3..4 leaves for a flat table of 3 rows and 1 column. -/
def appendTwoRows : Change Cell Cell :=
  { Parent := [], Orientation := .Vertical, Start := 3, End := 4, Count := 3,
    Items := [[(0, 0)], [(1, 0)], [(2, 0)]] }

/-- A bound tester with the insertion of rows 3..4 pending. -/
def pendingInsert : ctkModelTesterPrivate Cell Cell :=
  { boundTester 1 with AboutToBeInserted := [appendTwoRows] }

/-- The record that about-to-remove of row 1 leaves for a flat table of 3 rows
and 1 column: rows 0 and 2 survive. -/
def removeMiddleRow : Change Cell Cell :=
  { Parent := [], Orientation := .Vertical, Start := 1, End := 1, Count := 3,
    Items := [[(0, 0)], [(2, 0)]] }

/-- A bound tester with the removal of row 1 pending. -/
def pendingRemove : ctkModelTesterPrivate Cell Cell :=
  { boundTester 1 with AboutToBeRemoved := [removeMiddleRow] }

/-- Where the cells of a flat table are after the removal of row 1. -/
def afterRemoveRow1 : Cell → Cell
  | [(r, c)] => if r > 1 then [(r - 1, c)] else [(r, c)]
  | x => x

/-- A bound tester with the insertion of rows 3..4 pending and nested inserts allowed. -/
def pendingInsertNested : ctkModelTesterPrivate Cell Cell :=
  { pendingInsert with NestedInserts := true }

/-- Where the cells of a flat table are after the removal of column 0. -/
def afterRemoveColumn0 : Cell → Cell
  | [(r, c)] => [(r, c - 1)]
  | x => x

/-- Where the cells of a flat table are after the insertion of one column at 0. -/
def afterInsertColumn0 : Cell → Cell
  | [(r, c)] => [(r, c + 1)]
  | x => x

/-- Scenario E: a table at pointer 1 whose root reports children, one column,
no row, and nothing more to fetch. -/
def scenarioE : QAbstractItemModel Cell Cell :=
  { tableModel 1 0 1 id with hasChildren := fun _ => true }

/-- A layout change after which the model has lost the cell (2, 0). -/
def lostLastRow : Cell → Cell
  | [(2, 0)] => []
  | x => x

/-- A 1 x 1 table at pointer 1 whose invalid index was made by the model
(`createIndex(-1, -1)`): it carries the model pointer, and its siblings are the
top-level cells. -/
def createdInvalid : QAbstractItemModel Cell Cell :=
  { tableModel 1 1 1 id with
    model := fun _ => some 1
    sibling := fun x r c =>
      match x with
      | _ :: p => if inTable (flat 1 1 p) r c then (r, c) :: p else []
      | [] => if inTable (1, 1) r c then [(r, c)] else [] }

/-- A table of two rows and one column whose first cell has a 1 x 1 table of children. -/
def branching : Cell → Int × Int :=
  fun p => if p = [] then (2, 1) else if p = [(0, 0)] then (1, 1) else (0, 0)

/-! ## Calculation rules for the two monads -/

section rules
variable {ε σ α β : Type}

@[simp] theorem Run.prepend_trace_eq (t : List ε) (r : Run ε α) :
    (r.prepend t).trace = t ++ r.trace := rfl

@[simp] theorem Run.prepend_out_eq (t : List ε) (r : Run ε α) : (r.prepend t).out = r.out := rfl

@[simp] theorem Run.prepend_mk_eq (t u : List ε) (o : Outcome α) :
    (Run.mk u o).prepend t = ⟨t ++ u, o⟩ := rfl

@[simp] theorem Result.prepend_trace (t : List ε) (r : Result ε σ α) :
    (r.prepend t).trace = t ++ r.trace := rfl

@[simp] theorem Result.prepend_out (t : List ε) (r : Result ε σ α) :
    (r.prepend t).out = r.out := rfl

@[simp] theorem Result.prepend_state (t : List ε) (r : Result ε σ α) :
    (r.prepend t).state = r.state := rfl

@[simp] theorem Result.prepend_mk (t u : List ε) (o : Outcome α) (s : σ) :
    (Result.mk u o s).prepend t = ⟨t ++ u, o, s⟩ := rfl

@[simp] theorem Result.prepend_nil (r : Result ε σ α) : r.prepend [] = r := by
  cases r; rfl

@[simp] theorem Run.prepend_nil_eq (r : Run ε α) : r.prepend [] = r := by
  cases r; rfl

@[simp] theorem Run.andThen_done_eq (t : List ε) (a : α) (f : α → Run ε β) :
    (Run.mk t (.done a)).andThen f = (f a).prepend t := rfl

@[simp] theorem Run.andThen_raised_eq (t : List ε) (m : String) (f : α → Run ε β) :
    (Run.mk t (.raised m)).andThen f = ⟨t, .raised m⟩ := rfl

@[simp] theorem Run.andThen_undefined_eq (t : List ε) (f : α → Run ε β) :
    (Run.mk t (.undefined : Outcome α)).andThen f = ⟨t, .undefined⟩ := rfl

@[simp] theorem Run.andThen_outOfFuel_eq (t : List ε) (f : α → Run ε β) :
    (Run.mk t (.outOfFuel : Outcome α)).andThen f = ⟨t, .outOfFuel⟩ := rfl

@[simp] theorem Result.andThen_done (t : List ε) (a : α) (s : σ) (f : α → σ → Result ε σ β) :
    (Result.mk t (.done a) s).andThen f = (f a s).prepend t := rfl

@[simp] theorem Result.andThen_raised (t : List ε) (m : String) (s : σ)
    (f : α → σ → Result ε σ β) :
    (Result.mk t (.raised m) s).andThen f = ⟨t, .raised m, s⟩ := rfl

@[simp] theorem Result.andThen_undefined (t : List ε) (s : σ) (f : α → σ → Result ε σ β) :
    (Result.mk t (.undefined : Outcome α) s).andThen f = ⟨t, .undefined, s⟩ := rfl

@[simp] theorem Result.andThen_outOfFuel (t : List ε) (s : σ) (f : α → σ → Result ε σ β) :
    (Result.mk t (.outOfFuel : Outcome α) s).andThen f = ⟨t, .outOfFuel, s⟩ := rfl

@[simp] theorem CM.bind_apply (x : CM ε σ α) (f : α → CM ε σ β) (d : σ) :
    (x >>= f) d = (x d).andThen (fun a => f a d) := rfl

@[simp] theorem CM.pure_apply (a : α) (d : σ) : (Pure.pure a : CM ε σ α) d = ⟨[], .done a⟩ := rfl

@[simp] theorem CM.read_apply (d : σ) : (CM.read : CM ε σ σ) d = ⟨[], .done d⟩ := rfl

@[simp] theorem CM.emit_apply (e : ε) (d : σ) : (CM.emit e : CM ε σ Unit) d = ⟨[e], .done ()⟩ := rfl

@[simp] theorem CM.stop_apply (o : Outcome α) (d : σ) : (CM.stop o : CM ε σ α) d = ⟨[], o⟩ := rfl

@[simp] theorem TM.bind_run (x : TM ε σ α) (f : α → TM ε σ β) (s : σ) :
    (x >>= f) s = (x s).andThen f := rfl

@[simp] theorem TM.pure_run (a : α) (s : σ) : (Pure.pure a : TM ε σ α) s = ⟨[], .done a, s⟩ := rfl

@[simp] theorem TM.read_run (s : σ) : (TM.read : TM ε σ σ) s = ⟨[], .done s, s⟩ := rfl

@[simp] theorem TM.modify_run (g : σ → σ) (s : σ) :
    (TM.modify g : TM ε σ Unit) s = ⟨[], .done (), g s⟩ := rfl

@[simp] theorem TM.stop_run (o : Outcome α) (s : σ) : (TM.stop o : TM ε σ α) s = ⟨[], o, s⟩ := rfl

@[simp] theorem CM.ite_apply (c : Prop) [Decidable c] (x y : CM ε σ α) (d : σ) :
    (if c then x else y) d = if c then x d else y d := by
  split <;> rfl

@[simp] theorem TM.ite_run (c : Prop) [Decidable c] (x y : TM ε σ α) (s : σ) :
    (if c then x else y) s = if c then x s else y s := by
  split <;> rfl

/-- A run returns normally after `andThen` exactly when both parts do. -/
theorem Run.andThen_out_done_iff (x : Run ε α) (f : α → Run ε β) (b : β) :
    (x.andThen f).out = .done b ↔ ∃ a, x.out = .done a ∧ (f a).out = .done b := by
  unfold Run.andThen
  cases h : x.out <;> simp

theorem Result.andThen_out_done (x : Result ε σ α) (f : α → σ → Result ε σ β) (b : β) :
    (x.andThen f).out = .done b ↔ ∃ a, x.out = .done a ∧ (f a x.state).out = .done b := by
  unfold Result.andThen
  cases h : x.out <;> simp

/-- State after `andThen`: that of the second part when the first returned, else that of the first. -/
theorem Result.andThen_state (x : Result ε σ α) (f : α → σ → Result ε σ β) :
    (x.andThen f).state =
      match x.out with
      | .done a => (f a x.state).state
      | _ => x.state := by
  unfold Result.andThen
  cases h : x.out <;> simp

/-- Outcome after `andThen`. -/
theorem Result.andThen_out (x : Result ε σ α) (f : α → σ → Result ε σ β) :
    (x.andThen f).out =
      match x.out with
      | .done a => (f a x.state).out
      | .raised m => .raised m
      | .undefined => .undefined
      | .outOfFuel => .outOfFuel := by
  unfold Result.andThen
  cases h : x.out <;> simp

theorem CM.neverRaises_bind (x : CM ε σ α) (f : α → CM ε σ β) (hx : x.neverRaises)
    (hf : ∀ a, (f a).neverRaises) : (x >>= f).neverRaises := by
  intro c msg
  simp only [CM.bind_apply, Run.andThen]
  cases h : (x c).out with
  | done a => simpa using hf a c msg
  | raised m => exact absurd h (hx c m)
  | undefined => simp
  | outOfFuel => simp

theorem CM.neverRaises_pure (a : α) : (Pure.pure a : CM ε σ α).neverRaises := by
  intro c msg; simp

/-- A loop whose bound and body never raise never raises. -/
theorem forLoop.go_neverRaises (bound : CM ε σ Int) (body : Int → β → CM ε σ β)
    (hb : bound.neverRaises) (hbody : ∀ i acc, (body i acc).neverRaises) :
    ∀ k i acc, (forLoop.go bound body k i acc).neverRaises := by
  intro k
  induction k with
  | zero => intro i acc; exact CM.neverRaises_pure acc
  | succ k ih =>
    intro i acc
    unfold forLoop.go
    exact CM.neverRaises_bind _ _ (hbody i acc) fun acc2 =>
      CM.neverRaises_bind _ _ hb fun _ => ih (i + 1) acc2

theorem forLoop_neverRaises (lo : Int) (bound : CM ε σ Int) (init : β)
    (body : Int → β → CM ε σ β)
    (hb : bound.neverRaises) (hbody : ∀ i acc, (body i acc).neverRaises) :
    (forLoop lo bound init body).neverRaises :=
  CM.neverRaises_bind _ _ hb fun _ => forLoop.go_neverRaises bound body hb hbody _ _ _

end rules

section testerRules
variable {Idx PIdx : Type} {α : Type}

@[simp] theorem Slot.monadLift_run (x : Check Idx PIdx α) (s : ctkModelTesterPrivate Idx PIdx) :
    (monadLift x : Slot Idx PIdx α) s = ⟨(x s.config).trace, (x s.config).out, s⟩ := rfl

@[simp] theorem Slot.liftM_run (x : Check Idx PIdx α) (s : ctkModelTesterPrivate Idx PIdx) :
    (liftM x : Slot Idx PIdx α) s = ⟨(x s.config).trace, (x s.config).out, s⟩ := rfl

@[simp] theorem config_Model (d : ctkModelTesterPrivate Idx PIdx) : d.config.Model = d.Model := rfl

@[simp] theorem config_ThrowOnError (d : ctkModelTesterPrivate Idx PIdx) :
    d.config.ThrowOnError = d.ThrowOnError := rfl

@[simp] theorem test_true (errorString : String) (c : Config) :
    (test true errorString : Check Idx PIdx Unit) c = ⟨[.test true errorString], .done ()⟩ := rfl

/-- A falsified check under `throwOnError`: one log line, then the throw. -/
theorem test_false_throw (errorString : String) (c : Config) (h : c.ThrowOnError = true) :
    (test false errorString : Check Idx PIdx Unit) c
      = ⟨[.test false errorString, .qDebug errorString], .raised errorString⟩ := by
  simp [test, h]

/-- A falsified check without `throwOnError`: one log line, and the call returns. -/
theorem test_false_log (errorString : String) (c : Config) (h : c.ThrowOnError = false) :
    (test false errorString : Check Idx PIdx Unit) c
      = ⟨[.test false errorString, .qDebug errorString], .done ()⟩ := by
  simp [test, h]

@[simp] theorem config_mk (m : Option Nat) (t n : Bool) (i r : List (Change Idx PIdx))
    (l : List PIdx) :
    (ctkModelTesterPrivate.mk m t n i r l).config = ⟨m, t⟩ := rfl

@[simp] theorem test_false_mk_throw (errorString : String) (m : Option Nat) :
    (test false errorString : Check Idx PIdx Unit) ⟨m, true⟩
      = ⟨[.test false errorString, .qDebug errorString], .raised errorString⟩ := rfl

@[simp] theorem test_false_mk_log (errorString : String) (m : Option Nat) :
    (test false errorString : Check Idx PIdx Unit) ⟨m, false⟩
      = ⟨[.test false errorString, .qDebug errorString], .done ()⟩ := rfl

@[simp] theorem viaModel_some (e : Event Idx PIdx) (a : α) (m : Nat) (t : Bool) :
    viaModel e a ⟨some m, t⟩ = ⟨[e], .done a⟩ := rfl

@[simp] theorem viaModel_none (e : Event Idx PIdx) (a : α) (t : Bool) :
    viaModel e a ⟨none, t⟩ = ⟨[], .undefined⟩ := rfl

/-- Under `throwOnError`, a check is its passing run or its failing run. -/
theorem test_mk_throw (result : Bool) (errorString : String) (m : Option Nat) :
    (test result errorString : Check Idx PIdx Unit) ⟨m, true⟩
      = if result then ⟨[.test true errorString], .done ()⟩
        else ⟨[.test false errorString, .qDebug errorString], .raised errorString⟩ := by
  cases result <;> rfl

/-- Under `throwOnError`, a check returns exactly when its condition holds. -/
theorem test_out_done_throw (result : Bool) (errorString : String) (c : Config)
    (h : c.ThrowOnError = true) :
    ((test result errorString : Check Idx PIdx Unit) c).out = .done () ↔ result = true := by
  cases result <;> simp [test, h]

theorem viaModel_neverRaises (e : Event Idx PIdx) (a : α) : (viaModel e a).neverRaises := by
  intro c msg
  unfold viaModel
  cases c.Model <;> simp

/-- The snapshot walk evaluates no check, so it never raises. -/
theorem persistentModelIndexes_neverRaises (M : QAbstractItemModel Idx PIdx) (fuel : Nat) :
    ∀ index : Idx, (persistentModelIndexes M fuel index).neverRaises := by
  induction fuel with
  | zero => intro index c msg; simp [persistentModelIndexes]
  | succ fuel ih =>
    intro index
    unfold persistentModelIndexes
    refine CM.neverRaises_bind _ _ (fun c msg => by simp) fun _ => ?_
    refine forLoop_neverRaises _ _ _ _ (viaModel_neverRaises _ _) fun i acc => ?_
    refine forLoop_neverRaises _ _ _ _ (viaModel_neverRaises _ _) fun j acc => ?_
    refine CM.neverRaises_bind _ _ (viaModel_neverRaises _ _) fun _ => ?_
    exact CM.neverRaises_bind _ _ (ih _) fun _ => CM.neverRaises_pure _

theorem axisCount_neverRaises (M : QAbstractItemModel Idx PIdx) (orientation : Orientation)
    (vparent : Idx) : (axisCount M orientation vparent).neverRaises := by
  unfold axisCount
  split
  · exact viaModel_neverRaises _ _
  · exact viaModel_neverRaises _ _

end testerRules

/-! ## The reporting primitive -/

section claims
variable {Idx PIdx : Type} [DecidableEq Idx] (M : QAbstractItemModel Idx PIdx)

omit [DecidableEq Idx] in
/-- C1: `test(result, message)`: when `result` is true nothing is logged and
nothing is raised; when `result` is false `message` is logged exactly once, and
the call raises, with exactly `message`, if and only if `throwOnError` is true
(otherwise it returns). -/
theorem test_contract (result : Bool) (message : String) (c : Config) :
    logged ((test result message : Check Idx PIdx Unit) c).trace
        = (if result then [] else [message])
      ∧ (((test result message : Check Idx PIdx Unit) c).out = .raised message
          ↔ (result = false ∧ c.ThrowOnError = true))
      ∧ (((test result message : Check Idx PIdx Unit) c).out = .done ()
          ↔ ¬ (result = false ∧ c.ThrowOnError = true)) := by
  cases result <;> cases h : c.ThrowOnError <;> simp [test, h, logged]

/-! ## Count rules of the completion handlers -/

/-- C2: insert count rule for rows.  With `throwOnError`, a bound model, an
empty pending-remove stack, `s <= e`, the record `(p, Vertical, s, e, oldCount)`
on top of the pending-insert stack, the recorded persistent addresses and
the model validating cleanly: `onItemsInserted(p, Vertical, s, e)` returns if
and only if the current row count under `p` is `oldCount + (e - s + 1)`, and
otherwise raises the count violation. -/
theorem onItemsInserted_rows_count (fuel : Nat) (d : ctkModelTesterPrivate Idx PIdx) (p : Idx)
    (s e oldCount : Int) (items : List PIdx) (rest : List (Change Idx PIdx)) (m : Nat)
    (hT : d.ThrowOnError = true) (hM : d.Model = some m) (hR : d.AboutToBeRemoved = [])
    (hse : s ≤ e)
    (hI : d.AboutToBeInserted = ⟨p, .Vertical, s, e, oldCount, items⟩ :: rest)
    (hItems : (forEach items (testPersistentModelIndex M) d.config).out = .done ())
    (hModel : (testModel M fuel d.config).out = .done ()) :
    ((onItemsInserted M fuel p .Vertical s e d).out = .done ()
        ↔ M.rowCount p = oldCount + (e - s + 1))
      ∧ ((onItemsInserted M fuel p .Vertical s e d).out = .done ()
          ∨ (onItemsInserted M fuel p .Vertical s e d).out
              = .raised "The new count number can't be lower") := by
  obtain ⟨dm, dt, dn, di, dr, dl⟩ := d
  simp only at hT hM hR hI
  subst hT hM hR hI
  simp only [config_mk] at hItems hModel
  have key : (onItemsInserted M fuel p .Vertical s e
        ⟨some m, true, dn, ⟨p, .Vertical, s, e, oldCount, items⟩ :: rest, [], dl⟩).out =
      if M.rowCount p = oldCount + (e - s + 1) then .done ()
      else .raised "The new count number can't be lower" := by
    unfold onItemsInserted
    by_cases hc : M.rowCount p = oldCount + (e - s + 1)
    · have h1 : decide (oldCount < M.rowCount p) = true := decide_eq_true (by omega)
      have h2 : (M.rowCount p - oldCount == e - s + 1) = true := by
        rw [beq_iff_eq]; omega
      simp [hse, popAboutToBeInserted, axisCount, dModel.rowCount,
        Result.andThen_out_done, hItems, hModel, h1, h2, if_pos hc]
    · rw [if_neg hc]
      have h2 : (M.rowCount p - oldCount == e - s + 1) = false := by
        rw [beq_eq_false_iff_ne]; omega
      cases h1 : decide (oldCount < M.rowCount p) <;>
        simp [hse, popAboutToBeInserted, axisCount, dModel.rowCount, h1, h2]
  rw [key]
  by_cases hc : M.rowCount p = oldCount + (e - s + 1) <;> simp [hc]

/-- Scenario B, through C2: `rowsAboutToBeInserted(root, 3, 4)` on 3 rows leaves
the state `pendingInsert`, from which `rowsInserted(root, 3, 4)` returns on
5 rows and raises the count violation on 4 rows and on 6 rows. -/
theorem onItemsInserted_rows_count_witness :
    (onItemsAboutToBeInserted (tableModel 1 3 1 id) 2 [] .Vertical 3 4 (boundTester 1)).state
      = pendingInsert
    ∧ (pendingInsert.ThrowOnError = true ∧ pendingInsert.Model = some 1
      ∧ pendingInsert.AboutToBeRemoved = [] ∧ (3 : Int) ≤ 4
      ∧ pendingInsert.AboutToBeInserted
          = ⟨[], .Vertical, 3, 4, 3, [[(0, 0)], [(1, 0)], [(2, 0)]]⟩ :: [])
    ∧ (onItemsInserted (tableModel 1 5 1 id) 2 [] .Vertical 3 4 pendingInsert).out = .done ()
    ∧ (onItemsInserted (tableModel 1 4 1 id) 2 [] .Vertical 3 4 pendingInsert).out
        = .raised "The new count number can't be lower"
    ∧ (onItemsInserted (tableModel 1 6 1 id) 2 [] .Vertical 3 4 pendingInsert).out
        = .raised "The new count number can't be lower" :=
  ⟨by decide, ⟨rfl, rfl, rfl, by decide, rfl⟩,
    ((onItemsInserted_rows_count (tableModel 1 5 1 id) 2 pendingInsert [] 3 4 3
        [[(0, 0)], [(1, 0)], [(2, 0)]] [] 1 rfl rfl rfl (by decide) rfl
        (by decide) (by decide)).1).2 (by decide),
    ((onItemsInserted_rows_count (tableModel 1 4 1 id) 2 pendingInsert [] 3 4 3
        [[(0, 0)], [(1, 0)], [(2, 0)]] [] 1 rfl rfl rfl (by decide) rfl
        (by decide) (by decide)).2).resolve_left
      (fun h => absurd (((onItemsInserted_rows_count (tableModel 1 4 1 id) 2 pendingInsert []
        3 4 3 [[(0, 0)], [(1, 0)], [(2, 0)]] [] 1 rfl rfl rfl (by decide) rfl
        (by decide) (by decide)).1).1 h) (by decide)),
    ((onItemsInserted_rows_count (tableModel 1 6 1 id) 2 pendingInsert [] 3 4 3
        [[(0, 0)], [(1, 0)], [(2, 0)]] [] 1 rfl rfl rfl (by decide) rfl
        (by decide) (by decide)).2).resolve_left
      (fun h => absurd (((onItemsInserted_rows_count (tableModel 1 6 1 id) 2 pendingInsert []
        3 4 3 [[(0, 0)], [(1, 0)], [(2, 0)]] [] 1 rfl rfl rfl (by decide) rfl
        (by decide) (by decide)).1).1 h) (by decide))⟩

/-- C3: remove count rule for rows.  With `throwOnError`, a bound model, an
empty pending-insert stack, `s <= e`, the record `(p, Vertical, s, e, oldCount)`
on top of the pending-remove stack, the recorded surviving addresses and the
model validating cleanly: `onItemsRemoved(p, Vertical, s, e)` returns if and
only if the current row count under `p` is `oldCount - (e - s + 1)`, and
otherwise raises the count violation. -/
theorem onItemsRemoved_rows_count (fuel : Nat) (d : ctkModelTesterPrivate Idx PIdx) (p : Idx)
    (s e oldCount : Int) (items : List PIdx) (rest : List (Change Idx PIdx)) (m : Nat)
    (hT : d.ThrowOnError = true) (hM : d.Model = some m) (hI : d.AboutToBeInserted = [])
    (hse : s ≤ e)
    (hR : d.AboutToBeRemoved = ⟨p, .Vertical, s, e, oldCount, items⟩ :: rest)
    (hItems : (forEach items (testPersistentModelIndex M) d.config).out = .done ())
    (hModel : (testModel M fuel d.config).out = .done ()) :
    ((onItemsRemoved M fuel p .Vertical s e d).out = .done ()
        ↔ M.rowCount p = oldCount - (e - s + 1))
      ∧ ((onItemsRemoved M fuel p .Vertical s e d).out = .done ()
          ∨ (onItemsRemoved M fuel p .Vertical s e d).out
              = .raised "The new count number can't be higher") := by
  obtain ⟨dm, dt, dn, di, dr, dl⟩ := d
  simp only at hT hM hR hI
  subst hT hM hR hI
  simp only [config_mk] at hItems hModel
  have key : (onItemsRemoved M fuel p .Vertical s e
        ⟨some m, true, dn, [], ⟨p, .Vertical, s, e, oldCount, items⟩ :: rest, dl⟩).out =
      if M.rowCount p = oldCount - (e - s + 1) then .done ()
      else .raised "The new count number can't be higher" := by
    unfold onItemsRemoved
    by_cases hc : M.rowCount p = oldCount - (e - s + 1)
    · have h1 : decide (oldCount > M.rowCount p) = true := decide_eq_true (by omega)
      have h2 : (oldCount - M.rowCount p == e - s + 1) = true := by
        rw [beq_iff_eq]; omega
      simp [hse, popAboutToBeRemoved, axisCount, dModel.rowCount,
        Result.andThen_out_done, hItems, hModel, h1, h2, if_pos hc]
    · rw [if_neg hc]
      have h2 : (oldCount - M.rowCount p == e - s + 1) = false := by
        rw [beq_eq_false_iff_ne]; omega
      cases h1 : decide (oldCount > M.rowCount p) <;>
        simp [hse, popAboutToBeRemoved, axisCount, dModel.rowCount, h1, h2]
  rw [key]
  by_cases hc : M.rowCount p = oldCount - (e - s + 1) <;> simp [hc]

/-- C3 at a concrete input: `rowsAboutToBeRemoved(root, 1, 1)` on 3 rows leaves
the state `pendingRemove`, from which `rowsRemoved(root, 1, 1)` returns on
2 rows and raises the count violation on 3 rows. -/
theorem onItemsRemoved_rows_count_witness :
    (onItemsAboutToBeRemoved (tableModel 1 3 1 id) 2 [] .Vertical 1 1 (boundTester 1)).state
      = pendingRemove
    ∧ (pendingRemove.ThrowOnError = true ∧ pendingRemove.Model = some 1
      ∧ pendingRemove.AboutToBeInserted = [] ∧ (1 : Int) ≤ 1
      ∧ pendingRemove.AboutToBeRemoved = ⟨[], .Vertical, 1, 1, 3, [[(0, 0)], [(2, 0)]]⟩ :: [])
    ∧ (onItemsRemoved (tableModel 1 2 1 afterRemoveRow1) 2 [] .Vertical 1 1 pendingRemove).out
        = .done ()
    ∧ (onItemsRemoved (tableModel 1 3 1 id) 2 [] .Vertical 1 1 pendingRemove).out
        = .raised "The new count number can't be higher" :=
  ⟨by decide, ⟨rfl, rfl, rfl, by decide, rfl⟩,
    ((onItemsRemoved_rows_count (tableModel 1 2 1 afterRemoveRow1) 2 pendingRemove [] 1 1 3
        [[(0, 0)], [(2, 0)]] [] 1 rfl rfl rfl (by decide) rfl
        (by decide) (by decide)).1).2 (by decide),
    ((onItemsRemoved_rows_count (tableModel 1 3 1 id) 2 pendingRemove [] 1 1 3
        [[(0, 0)], [(2, 0)]] [] 1 rfl rfl rfl (by decide) rfl
        (by decide) (by decide)).2).resolve_left
      (fun h => absurd (((onItemsRemoved_rows_count (tableModel 1 3 1 id) 2 pendingRemove [] 1 1
        3 [[(0, 0)], [(2, 0)]] [] 1 rfl rfl rfl (by decide) rfl
        (by decide) (by decide)).1).1 h) (by decide))⟩

/-! ## Orientation of the completed change -/

/-- C4, evaluation of the code.  `columnsAboutToBeInserted(root, 0, 0)` on a
1 x 1 table returns, and the matching `columnsInserted(root, 0, 0)` on the
table that gained a column raises "Orientation can't be different"; the same
for a column removal.  Rows announced and columns completed (orientations that
differ) return without any violation. -/
theorem onItemsInserted_orientation_compared_with_Vertical :
    (onColumnsAboutToBeInserted (tableModel 1 1 1 id) 2 [] 0 0 (boundTester 1)).out = .done ()
    ∧ (onColumnsInserted (tableModel 1 1 2 afterInsertColumn0) 2 [] 0 0
        (onColumnsAboutToBeInserted (tableModel 1 1 1 id) 2 [] 0 0 (boundTester 1)).state).out
        = .raised "Orientation can't be different"
    ∧ (onColumnsAboutToBeRemoved (tableModel 1 1 2 id) 2 [] 0 0 (boundTester 1)).out = .done ()
    ∧ (onColumnsRemoved (tableModel 1 1 1 afterRemoveColumn0) 2 [] 0 0
        (onColumnsAboutToBeRemoved (tableModel 1 1 2 id) 2 [] 0 0 (boundTester 1)).state).out
        = .raised "Orientation can't be different"
    ∧ (onRowsAboutToBeInserted (tableModel 1 1 1 id) 2 [] 0 0 (boundTester 1)).out = .done ()
    ∧ (onColumnsInserted (tableModel 1 1 2 id) 2 [] 0 0
        (onRowsAboutToBeInserted (tableModel 1 1 1 id) 2 [] 0 0 (boundTester 1)).state).out
        = .done () := by
  decide

/-! ## The two stacks -/

theorem onItemsAboutToBeInserted_exclusive (fuel : Nat) (vparent : Idx) (o : Orientation)
    (s e : Int) (d : ctkModelTesterPrivate Idx PIdx) (h : StacksExclusive d) :
    StacksExclusive (onItemsAboutToBeInserted M fuel vparent o s e d).state := by
  obtain ⟨dm, dt, dn, di, dr, dl⟩ := d
  obtain ⟨hT, h⟩ := h
  simp only at hT h
  subst hT
  unfold onItemsAboutToBeInserted
  simp only [TM.bind_run, Slot.liftM_run, Slot.monadLift_run, TM.read_run, Result.andThen_done,
    Result.prepend_state, Result.prepend_nil, config_mk, test_mk_throw, TM.modify_run,
    TM.pure_run, apply_ite Run.trace, apply_ite Run.out, Result.andThen_state, TM.ite_run,
    apply_ite Result.state]
  repeat' split
  all_goals simp_all [StacksExclusive]

theorem onItemsAboutToBeRemoved_exclusive (fuel : Nat) (vparent : Idx) (o : Orientation)
    (s e : Int) (d : ctkModelTesterPrivate Idx PIdx) (h : StacksExclusive d) :
    StacksExclusive (onItemsAboutToBeRemoved M fuel vparent o s e d).state := by
  obtain ⟨dm, dt, dn, di, dr, dl⟩ := d
  obtain ⟨hT, h⟩ := h
  simp only at hT h
  subst hT
  unfold onItemsAboutToBeRemoved
  simp only [TM.bind_run, Slot.liftM_run, Slot.monadLift_run, TM.read_run, Result.andThen_done,
    Result.prepend_state, Result.prepend_nil, config_mk, test_mk_throw, TM.modify_run,
    TM.pure_run, apply_ite Run.trace, apply_ite Run.out, Result.andThen_state, TM.ite_run,
    apply_ite Result.state]
  repeat' split
  all_goals simp_all [StacksExclusive]

theorem onItemsInserted_exclusive (fuel : Nat) (vparent : Idx) (o : Orientation)
    (s e : Int) (d : ctkModelTesterPrivate Idx PIdx) (h : StacksExclusive d) :
    StacksExclusive (onItemsInserted M fuel vparent o s e d).state := by
  obtain ⟨dm, dt, dn, di, dr, dl⟩ := d
  obtain ⟨hT, h⟩ := h
  simp only at hT h
  subst hT
  unfold onItemsInserted
  cases di <;>
  simp only [TM.bind_run, Slot.liftM_run, Slot.monadLift_run, TM.read_run, Result.andThen_done,
    Result.prepend_state, Result.prepend_nil, config_mk, test_mk_throw, TM.modify_run,
    TM.pure_run, apply_ite Run.trace, apply_ite Run.out, Result.andThen_state, TM.ite_run,
    apply_ite Result.state, popAboutToBeInserted]
  all_goals repeat' split
  all_goals simp_all [StacksExclusive]

theorem onItemsRemoved_exclusive (fuel : Nat) (vparent : Idx) (o : Orientation)
    (s e : Int) (d : ctkModelTesterPrivate Idx PIdx) (h : StacksExclusive d) :
    StacksExclusive (onItemsRemoved M fuel vparent o s e d).state := by
  obtain ⟨dm, dt, dn, di, dr, dl⟩ := d
  obtain ⟨hT, h⟩ := h
  simp only at hT h
  subst hT
  unfold onItemsRemoved
  cases dr <;>
  simp only [TM.bind_run, Slot.liftM_run, Slot.monadLift_run, TM.read_run, Result.andThen_done,
    Result.prepend_state, Result.prepend_nil, config_mk, test_mk_throw, TM.modify_run,
    TM.pure_run, apply_ite Run.trace, apply_ite Run.out, Result.andThen_state, TM.ite_run,
    apply_ite Result.state, popAboutToBeRemoved]
  all_goals repeat' split
  all_goals simp_all [StacksExclusive]

theorem setModel_exclusive (fuel : Nat) (_model : Option Nat)
    (d : ctkModelTesterPrivate Idx PIdx) (h : StacksExclusive d) :
    StacksExclusive (setModel M fuel _model d).state := by
  obtain ⟨dm, dt, dn, di, dr, dl⟩ := d
  obtain ⟨hT, h⟩ := h
  simp only at hT h
  subst hT
  unfold setModel
  cases dm <;> cases _model <;>
  simp only [TM.bind_run, Slot.liftM_run, Slot.monadLift_run, TM.read_run, Result.andThen_done,
    Result.prepend_state, Result.prepend_nil, config_mk, test_mk_throw, TM.modify_run,
    TM.pure_run, apply_ite Run.trace, apply_ite Run.out, Result.andThen_state, TM.ite_run,
    apply_ite Result.state, CM.emit_apply]
  all_goals repeat' split
  all_goals simp_all [StacksExclusive]

omit [DecidableEq Idx] in
theorem setNestedInserts_exclusive (b : Bool)
    (d : ctkModelTesterPrivate Idx PIdx) (h : StacksExclusive d) :
    StacksExclusive (setNestedInserts b d).state := by
  simpa [setNestedInserts, StacksExclusive] using h

/-- Every call of a history keeps `throwOnError` set and one stack empty. -/
theorem reachable_exclusive (d : ctkModelTesterPrivate Idx PIdx) (h : Reachable d) :
    StacksExclusive d := by
  induction h with
  | fresh => exact ⟨rfl, Or.inl rfl⟩
  | call h M fuel c _ ih =>
    cases c with
    | setModel _model => exact setModel_exclusive M fuel _model _ ih
    | setNestedInserts b => exact setNestedInserts_exclusive b _ ih
    | onItemsAboutToBeInserted p o s e =>
      exact onItemsAboutToBeInserted_exclusive M fuel p o s e _ ih
    | onItemsInserted p o s e => exact onItemsInserted_exclusive M fuel p o s e _ ih
    | onItemsAboutToBeRemoved p o s e =>
      exact onItemsAboutToBeRemoved_exclusive M fuel p o s e _ ih
    | onItemsRemoved p o s e => exact onItemsRemoved_exclusive M fuel p o s e _ ih

/-- C5: stack exclusion invariant.  From a freshly constructed tester, after any
finite history of attach, `setNestedInserts`, about-to-insert, inserted,
about-to-remove and removed calls (each returning or raising, `throwOnError`
never changed), the pending-insert and pending-remove stacks are not both
non-empty. -/
theorem stacks_never_both_nonempty (d : ctkModelTesterPrivate Idx PIdx) (h : Reachable d) :
    ¬ (d.AboutToBeInserted ≠ [] ∧ d.AboutToBeRemoved ≠ []) := by
  have := (reachable_exclusive d h).2
  tauto

/-- C5 at a concrete history: attach a 3 x 1 table, then announce rows 3..4. -/
theorem stacks_never_both_nonempty_witness :
    Reachable
      ((Call.onItemsAboutToBeInserted [] .Vertical 3 4).run (tableModel 1 3 1 id) 2
        ((Call.setModel (some 1)).run (tableModel 1 3 1 id) 2
          (ctkModelTesterPrivate.init : ctkModelTesterPrivate Cell Cell)).state).state
    ∧ ¬ (((Call.onItemsAboutToBeInserted [] .Vertical 3 4).run (tableModel 1 3 1 id) 2
          ((Call.setModel (some 1)).run (tableModel 1 3 1 id) 2
            (ctkModelTesterPrivate.init : ctkModelTesterPrivate Cell Cell)).state).state.AboutToBeInserted
          ≠ []
        ∧ ((Call.onItemsAboutToBeInserted [] .Vertical 3 4).run (tableModel 1 3 1 id) 2
          ((Call.setModel (some 1)).run (tableModel 1 3 1 id) 2
            (ctkModelTesterPrivate.init : ctkModelTesterPrivate Cell Cell)).state).state.AboutToBeRemoved
          ≠ []) :=
  ⟨.call (.call .fresh _ _ _ (Or.inl (by decide))) _ _ _ (Or.inl (by decide)),
   stacks_never_both_nonempty _
    (.call (.call .fresh _ _ _ (Or.inl (by decide))) _ _ _ (Or.inl (by decide)))⟩

/-! ## Nested insertions -/

/-- C6: nested-insert rule.  With `throwOnError`, `start <= end`, an empty
pending-remove stack and a non-empty pending-insert stack: about-to-insert
raises "While inserting items, you can't insert other items." leaving the
stack unchanged if and only if `nestedInserts` is false (the whole private
state is then unchanged); when `nestedInserts` is true, the model is bound and
the snapshot walk returns `items`, the new record is pushed on top of the
unchanged older records. -/
theorem onItemsAboutToBeInserted_nested (fuel : Nat) (d : ctkModelTesterPrivate Idx PIdx)
    (vparent : Idx) (orientation : Orientation) (start end_ : Int)
    (hT : d.ThrowOnError = true) (hse : start ≤ end_) (hR : d.AboutToBeRemoved = [])
    (hI : d.AboutToBeInserted ≠ []) :
    (((onItemsAboutToBeInserted M fuel vparent orientation start end_ d).out
          = .raised "While inserting items, you can't insert other items."
        ∧ (onItemsAboutToBeInserted M fuel vparent orientation start end_ d).state.AboutToBeInserted
          = d.AboutToBeInserted)
      ↔ d.NestedInserts = false)
    ∧ (d.NestedInserts = false →
        (onItemsAboutToBeInserted M fuel vparent orientation start end_ d).state = d)
    ∧ (d.NestedInserts = true → ∀ (m : Nat) (items : List PIdx),
        d.Model = some m →
        (persistentModelIndexes M fuel vparent d.config).out = .done items →
        (onItemsAboutToBeInserted M fuel vparent orientation start end_ d).state.AboutToBeInserted
          = ⟨vparent, orientation, start, end_,
              if orientation = .Vertical then M.rowCount vparent else M.columnCount vparent,
              items⟩ :: d.AboutToBeInserted) := by
  obtain ⟨dm, dt, dn, di, dr, dl⟩ := d
  simp only at hT hR hI
  subst hT hR
  obtain ⟨c0, rest, hdi⟩ : ∃ c0 rest, di = c0 :: rest := by
    cases di with
    | nil => exact absurd rfl hI
    | cons a l => exact ⟨a, l, rfl⟩
  subst hdi
  have hpmi := persistentModelIndexes_neverRaises M fuel vparent ⟨dm, true⟩
  have hax := axisCount_neverRaises M orientation vparent ⟨dm, true⟩
  have haxv : ∀ m : Nat, dm = some m →
      (axisCount M orientation vparent ⟨dm, true⟩).out
        = .done (if orientation = .Vertical then M.rowCount vparent else M.columnCount vparent) := by
    intro m hm
    subst hm
    unfold axisCount
    split <;> rfl
  unfold onItemsAboutToBeInserted
  cases dn
  · simp [hse]
  · rcases hax' : (axisCount M orientation vparent ⟨dm, true⟩).out with count | m | _ | _
    · rcases hp : (persistentModelIndexes M fuel vparent ⟨dm, true⟩).out with items | m | _ | _
      · simp only [config_mk] at haxv ⊢
        simp [hse, hax', hp, List.cons_ne_self]
        intro m hm
        have := haxv m hm
        rw [hax'] at this
        exact Outcome.done.inj this
      · exact absurd hp (hpmi m)
      · simp [hse, hax', hp]
      · simp [hse, hax', hp]
    · exact absurd hax' (hax m)
    · simp only [config_mk] at haxv ⊢
      simp [hse, hax']
      intro m items hm
      have := haxv m hm
      rw [hax'] at this
      exact absurd this (by simp)
    · simp only [config_mk] at haxv ⊢
      simp [hse, hax']
      intro m items hm
      have := haxv m hm
      rw [hax'] at this
      exact absurd this (by simp)

/-- C6 at concrete inputs: with rows 3..4 pending on a 3 x 1 table, announcing
row 5 is refused without `nestedInserts` and stacked with it. -/
theorem onItemsAboutToBeInserted_nested_witness :
    (pendingInsertNested.ThrowOnError = true ∧ (5 : Int) ≤ 5
      ∧ pendingInsertNested.AboutToBeRemoved = [] ∧ pendingInsertNested.AboutToBeInserted ≠ [])
    ∧ (onItemsAboutToBeInserted (tableModel 1 3 1 id) 2 [] .Vertical 5 5
        pendingInsertNested).state.AboutToBeInserted
        = [⟨[], .Vertical, 5, 5, 3, [[(0, 0)], [(1, 0)], [(2, 0)]]⟩, appendTwoRows]
    ∧ (onItemsAboutToBeInserted (tableModel 1 3 1 id) 2 [] .Vertical 5 5 pendingInsert).out
        = .raised "While inserting items, you can't insert other items."
    ∧ (onItemsAboutToBeInserted (tableModel 1 3 1 id) 2 [] .Vertical 5 5 pendingInsert).state
        = pendingInsert :=
  ⟨⟨rfl, by decide, rfl, by decide⟩,
    (onItemsAboutToBeInserted_nested (tableModel 1 3 1 id) 2 pendingInsertNested [] .Vertical 5 5
      rfl (by decide) rfl (by decide)).2.2 rfl 1 [[(0, 0)], [(1, 0)], [(2, 0)]] rfl (by decide),
    ((onItemsAboutToBeInserted_nested (tableModel 1 3 1 id) 2 pendingInsert [] .Vertical 5 5
      rfl (by decide) rfl (by decide)).1.2 rfl).1,
    (onItemsAboutToBeInserted_nested (tableModel 1 3 1 id) 2 pendingInsert [] .Vertical 5 5
      rfl (by decide) rfl (by decide)).2.1 rfl⟩

/-! ## Scenarios C and D: violations raised before anything else happens -/

/-- C7: with `throwOnError` and `start <= end`, about-to-remove during a pending
insert raises "While inserting items, you can't remove other items.": the run
consists of the passed range check and the failed check only (no call through
`d->Model`, whatever the model and even without one), and the private state,
both stacks included, is unchanged. -/
theorem onItemsAboutToBeRemoved_while_inserting (fuel : Nat)
    (d : ctkModelTesterPrivate Idx PIdx) (vparent : Idx) (orientation : Orientation)
    (start end_ : Int) (hT : d.ThrowOnError = true) (hse : start ≤ end_)
    (hI : d.AboutToBeInserted ≠ []) :
    onItemsAboutToBeRemoved M fuel vparent orientation start end_ d =
      ⟨[.test true "Start can't be higher than end",
        .test false "While inserting items, you can't remove other items.",
        .qDebug "While inserting items, you can't remove other items."],
        .raised "While inserting items, you can't remove other items.", d⟩ := by
  have h0 : (d.AboutToBeInserted.length == 0) = false := by
    cases h : d.AboutToBeInserted with
    | nil => exact absurd h hI
    | cons a l => rfl
  unfold onItemsAboutToBeRemoved
  simp [hse, h0, test_false_throw _ d.config hT]

/-- C7 at a concrete input: rows 3..4 are pending, row 0 is announced for removal. -/
theorem onItemsAboutToBeRemoved_while_inserting_witness :
    (pendingInsert.ThrowOnError = true ∧ (0 : Int) ≤ 0 ∧ pendingInsert.AboutToBeInserted ≠ [])
    ∧ onItemsAboutToBeRemoved (tableModel 1 3 1 id) 2 [] .Vertical 0 0 pendingInsert =
      ⟨[.test true "Start can't be higher than end",
        .test false "While inserting items, you can't remove other items.",
        .qDebug "While inserting items, you can't remove other items."],
        .raised "While inserting items, you can't remove other items.", pendingInsert⟩ :=
  ⟨⟨rfl, by decide, by decide⟩,
    onItemsAboutToBeRemoved_while_inserting (tableModel 1 3 1 id) 2 pendingInsert [] .Vertical
      0 0 rfl (by decide) (by decide)⟩

/-- C8: with `throwOnError`, data-changed on corners with different parents
raises "DataChanged support items with the same parent only" as its first
effect: the run consists of the failed check only (no entry into
`testModelIndex` or `testModel`), and the private state is unchanged. -/
theorem onDataChanged_different_parents (fuel : Nat) (d : ctkModelTesterPrivate Idx PIdx)
    (topLeft bottomRight : Idx) (hT : d.ThrowOnError = true)
    (hP : M.parent topLeft ≠ M.parent bottomRight) :
    onDataChanged M fuel topLeft bottomRight d =
      ⟨[.test false "DataChanged support items with the same parent only",
        .qDebug "DataChanged support items with the same parent only"],
        .raised "DataChanged support items with the same parent only", d⟩ := by
  have h0 : (M.parent topLeft == M.parent bottomRight) = false := by
    simpa using hP
  unfold onDataChanged
  simp [h0, test_false_throw _ d.config hT]

/-- C8 at a concrete input: the top-level cell and its child have different parents. -/
theorem onDataChanged_different_parents_witness :
    ((boundTester 1).ThrowOnError = true
      ∧ (treeModel 1 nested id).parent [(0, 0)] ≠ (treeModel 1 nested id).parent [(0, 0), (0, 0)])
    ∧ onDataChanged (treeModel 1 nested id) 3 [(0, 0)] [(0, 0), (0, 0)] (boundTester 1) =
      ⟨[.test false "DataChanged support items with the same parent only",
        .qDebug "DataChanged support items with the same parent only"],
        .raised "DataChanged support items with the same parent only", boundTester 1⟩ :=
  ⟨⟨rfl, by decide⟩,
    onDataChanged_different_parents (treeModel 1 nested id) 3 (boundTester 1) [(0, 0)]
      [(0, 0), (0, 0)] rfl (by decide)⟩

/-! ## Data-changed: the range checks and the rectangle loop -/

/-- C9, evaluation of the code.  The 2 x 1 table validates cleanly;
data-changed on the well-formed range (0,0)..(1,0) raises "topLeft can't have
a row lower than bottomRight"; on the ill-formed range (1,0)..(0,0) it returns. -/
theorem onDataChanged_row_check_inverted :
    (testModel (tableModel 1 2 1 id) 2 (boundTester 1).config).out = .done ()
    ∧ (onDataChanged (tableModel 1 2 1 id) 2 [(0, 0)] [(1, 0)] (boundTester 1)).out
        = .raised "topLeft can't have a row lower than bottomRight"
    ∧ (onDataChanged (tableModel 1 2 1 id) 2 [(1, 0)] [(0, 0)] (boundTester 1)).out
        = .done () := by
  decide

/-- C10, evaluation of the code.  Data-changed on the single cell (0,0) of a
1 x 1 table returns having done nothing between the three range checks and the
full-model pass: the check "Changed data must be valid" of the rectangle loop
is never evaluated.  On the range (0,0)..(0,1) of a 1 x 2 table, the cell (0,0)
is validated twice (by the loop and by the full-model pass) and the cell (0,1)
once (by the full-model pass only).  With both corners the invalid index, the
one address of the rectangle is invalid and the call still returns. -/
theorem onDataChanged_last_column_skipped :
    onDataChanged (tableModel 1 1 1 id) 2 [(0, 0)] [(0, 0)] (boundTester 1)
      = (Slot.ofCheck (testModel (tableModel 1 1 1 id) 2) (boundTester 1)).prepend
          [.test true "DataChanged support items with the same parent only",
           .test true "topLeft can't have a row lower than bottomRight",
           .test true "topLeft can't have a column lower than bottomRight"]
    ∧ (onDataChanged (tableModel 1 1 1 id) 2 [(0, 0)] [(0, 0)] (boundTester 1)).out = .done ()
    ∧ Event.test true "Changed data must be valid"
        ∉ (onDataChanged (tableModel 1 1 1 id) 2 [(0, 0)] [(0, 0)] (boundTester 1)).trace
    ∧ (onDataChanged (tableModel 1 1 2 id) 2 [(0, 0)] [(0, 1)] (boundTester 1)).out = .done ()
    ∧ (onDataChanged (tableModel 1 1 2 id) 2 [(0, 0)] [(0, 1)] (boundTester 1)).trace.count
        (.testModelIndex [(0, 0)]) = 2
    ∧ (onDataChanged (tableModel 1 1 2 id) 2 [(0, 0)] [(0, 1)] (boundTester 1)).trace.count
        (.testModelIndex [(0, 1)]) = 1
    ∧ (tableModel 1 1 1 id).isValid ((tableModel 1 1 1 id).sibling [] (-1) (-1)) = false
    ∧ (onDataChanged (tableModel 1 1 1 id) 2 [] [] (boundTester 1)).out = .done () := by
  decide

/-! ## Log lines of a trace -/

omit [DecidableEq Idx] in
@[simp] theorem logged_nil : logged ([] : List (Event Idx PIdx)) = [] := rfl

omit [DecidableEq Idx] in
@[simp] theorem logged_qDebug_cons (s : String) (rest : List (Event Idx PIdx)) :
    logged (.qDebug s :: rest) = s :: logged rest := rfl

omit [DecidableEq Idx] in
@[simp] theorem logged_test_cons (b : Bool) (s : String) (rest : List (Event Idx PIdx)) :
    logged (.test b s :: rest) = logged rest := rfl

omit [DecidableEq Idx] in
@[simp] theorem logged_disconnect_cons (m : Nat) (rest : List (Event Idx PIdx)) :
    logged (.disconnect m :: rest) = logged rest := rfl

omit [DecidableEq Idx] in
@[simp] theorem logged_connect_cons (m : Nat) (g : Signal) (k : SlotName) (rest : List (Event Idx PIdx)) :
    logged (.connect m g k :: rest) = logged rest := rfl

omit [DecidableEq Idx] in
@[simp] theorem logged_rowCount_cons (p : Idx) (rest : List (Event Idx PIdx)) :
    logged (.rowCount p :: rest) = logged rest := rfl

omit [DecidableEq Idx] in
@[simp] theorem logged_columnCount_cons (p : Idx) (rest : List (Event Idx PIdx)) :
    logged (.columnCount p :: rest) = logged rest := rfl

omit [DecidableEq Idx] in
@[simp] theorem logged_index_cons (i j : Int) (p : Idx) (rest : List (Event Idx PIdx)) :
    logged (.index i j p :: rest) = logged rest := rfl

omit [DecidableEq Idx] in
@[simp] theorem logged_hasIndex_cons (i j : Int) (p : Idx) (rest : List (Event Idx PIdx)) :
    logged (.hasIndex i j p :: rest) = logged rest := rfl

omit [DecidableEq Idx] in
@[simp] theorem logged_hasChildren_cons (p : Idx) (rest : List (Event Idx PIdx)) :
    logged (.hasChildren p :: rest) = logged rest := rfl

omit [DecidableEq Idx] in
@[simp] theorem logged_canFetchMore_cons (p : Idx) (rest : List (Event Idx PIdx)) :
    logged (.canFetchMore p :: rest) = logged rest := rfl

omit [DecidableEq Idx] in
@[simp] theorem logged_testModelIndex_cons (p : Idx) (rest : List (Event Idx PIdx)) :
    logged (.testModelIndex p :: rest) = logged rest := rfl

omit [DecidableEq Idx] in
@[simp] theorem logged_testData_cons (p : Idx) (rest : List (Event Idx PIdx)) :
    logged (.testData p :: rest) = logged rest := rfl

omit [DecidableEq Idx] in
@[simp] theorem logged_testParent_cons (p : Idx) (rest : List (Event Idx PIdx)) :
    logged (.testParent p :: rest) = logged rest := rfl

omit [DecidableEq Idx] in
@[simp] theorem logged_testPersistentModelIndex_cons (x : PIdx) (rest : List (Event Idx PIdx)) :
    logged (.testPersistentModelIndex x :: rest) = logged rest := rfl

omit [DecidableEq Idx] in
@[simp] theorem logged_testModel_cons  (rest : List (Event Idx PIdx)) :
    logged (.testModel  :: rest) = logged rest := rfl

omit [DecidableEq Idx] in
@[simp] theorem logged_persistentModelIndexes_cons (p : Idx) (rest : List (Event Idx PIdx)) :
    logged (.persistentModelIndexes p :: rest) = logged rest := rfl

omit [DecidableEq Idx] in
theorem logged_cons (e : Event Idx PIdx) (rest : List (Event Idx PIdx)) :
    logged (e :: rest) = logged [e] ++ logged rest := by
  cases e <;> rfl

omit [DecidableEq Idx] in
@[simp] theorem logged_append (a b : List (Event Idx PIdx)) :
    logged (a ++ b) = logged a ++ logged b := by
  induction a with
  | nil => rfl
  | cons e a ih => rw [List.cons_append, logged_cons, ih, logged_cons e a, List.append_assoc]

/-! ## Data validation -/

omit [DecidableEq Idx] in
/-- C18: data validation.  For every address and configuration, `testData`
reports no violation if and only if `isValid(a)` equals
`data(DisplayRole).isValid()`; it never reports more than one. -/
theorem testData_contract (index : Idx) (c : Config) :
    (logged (testData M index c).trace = [] ↔ M.isValid index = M.dataIsValid index)
      ∧ (logged (testData M index c).trace).length ≤ 1 := by
  obtain ⟨cm, ct⟩ := c
  unfold testData
  cases hv : M.isValid index <;> cases hd : M.dataIsValid index <;> cases ct <;>
    simp [test, logged, hv, hd]

/-! ## The parent/children rule -/

omit [DecidableEq Idx] in
/-- With a bound model, the non-recursive part of `testParent` logs nothing
exactly when the parent/children rule holds of the address. -/
theorem testParentChecks_clean_iff (p : Idx) (c : Config) (m : Nat) (hM : c.Model = some m) :
    (logged (testParentChecks M p c).trace = [] ↔
      ((M.hasChildren p = false ∧ M.rowCount p ≤ 0)
        ∨ (M.hasChildren p = true ∧ M.columnCount p > 0
            ∧ (M.rowCount p > 0 ∨ M.canFetchMore p = true)))) := by
  obtain ⟨cm, ct⟩ := c
  simp only at hM
  subst hM
  unfold testParentChecks
  have hr : (0 < M.rowCount p ∧ ¬ M.rowCount p ≤ 0) ∨ (¬ 0 < M.rowCount p ∧ M.rowCount p ≤ 0) := by
    omega
  cases hh : M.hasChildren p <;> cases ct <;>
    rcases hr with ⟨h1, h1'⟩ | ⟨h1, h1'⟩ <;> by_cases h2 : 0 < M.columnCount p <;>
    cases h3 : M.canFetchMore p <;>
    simp [dModel.hasChildren, dModel.rowCount, dModel.columnCount, dModel.canFetchMore, hh, test,
      logged, h1, h1', h2, h3]

omit [DecidableEq Idx] in
theorem Run.prefix_andThen_trace {ε α β : Type} (x : Run ε α) (f : α → Run ε β) :
    x.trace <+: (x.andThen f).trace := by
  unfold Run.andThen
  cases x.out <;> simp [Run.prepend]

omit [DecidableEq Idx] in
theorem Run.prepend_andThen {ε α β : Type} (t : List ε) (x : Run ε α) (f : α → Run ε β) :
    (x.prepend t).andThen f = (x.andThen f).prepend t := by
  obtain ⟨xt, xo⟩ := x
  cases xo <;> simp [Run.prepend, Run.andThen]

omit [DecidableEq Idx] in
theorem Run.andThen_assoc {ε α β γ : Type} (x : Run ε α) (f : α → Run ε β) (g : β → Run ε γ) :
    (x.andThen f).andThen g = x.andThen (fun a => (f a).andThen g) := by
  obtain ⟨xt, xo⟩ := x
  cases xo <;> simp [Run.prepend_andThen]

omit [DecidableEq Idx] in
theorem Run.ite_andThen {ε α β : Type} (c : Prop) [Decidable c] (x y : Run ε α)
    (f : α → Run ε β) :
    (if c then x else y).andThen f = if c then x.andThen f else y.andThen f := by
  split <;> rfl

omit [DecidableEq Idx] in
theorem Run.andThen_unit {ε : Type} (x : Run ε Unit) :
    (x.andThen fun _ => ⟨[], .done ()⟩) = x := by
  obtain ⟨xt, xo⟩ := x
  cases xo <;> simp

/-- `testParent` is its entry, its non-recursive part, then the loop over the
children of a valid address. -/
theorem testParent_succ (fuel : Nat) (p : Idx) (c : Config) :
    testParent M (fuel + 1) p c =
      ((testParentChecks M p c).andThen fun _ =>
        if M.isValid p = false then ⟨[], .done ()⟩ else testParentChildren M fuel p c).prepend
        [.testParent p] := by
  unfold testParent testParentChecks testParentChildren testModelIndex
  simp only [CM.bind_apply, CM.emit_apply, Run.andThen_done_eq, CM.ite_apply, Run.andThen_assoc,
    Run.ite_andThen, CM.pure_apply, Bool.not_eq_true', Run.prepend_nil_eq]

/-- C20: parent/children rule.  With a bound model, for every address `p` the
non-recursive part of `testParent` reports no violation if and only if either
`hasChildren(p)` is false and `rowCount(p) <= 0`, or `hasChildren(p)` is true,
`columnCount(p) > 0` and (`rowCount(p) > 0` or `canFetchMore(p)`).  Every run of
`testParent(p)` starts with this part, and is nothing else when `p` is invalid. -/
theorem testParent_rule (p : Idx) (c : Config) (m : Nat) (hM : c.Model = some m) :
    (logged (testParentChecks M p c).trace = [] ↔
      ((M.hasChildren p = false ∧ M.rowCount p ≤ 0)
        ∨ (M.hasChildren p = true ∧ M.columnCount p > 0
            ∧ (M.rowCount p > 0 ∨ M.canFetchMore p = true))))
    ∧ (∀ fuel, [Event.testParent p] ++ (testParentChecks M p c).trace
          <+: (testParent M (fuel + 1) p c).trace)
    ∧ (∀ fuel, M.isValid p = false →
        testParent M (fuel + 1) p c = (testParentChecks M p c).prepend [.testParent p]) := by
  refine ⟨testParentChecks_clean_iff M p c m hM, fun fuel => ?_, fun fuel hv => ?_⟩
  · rw [testParent_succ]
    simpa [Run.prepend] using Run.prefix_andThen_trace _ _
  · rw [testParent_succ]
    simp [hv, Run.andThen_unit]

/-- C20 at Scenario E: `hasChildren` true, one column, no row, `canFetchMore`
false yields exactly one violation. -/
theorem testParent_rule_witness :
    (({ Model := some 1, ThrowOnError := false } : Config).Model = some 1)
    ∧ logged (testParentChecks scenarioE [] ⟨some 1, false⟩).trace ≠ []
    ∧ logged (testParentChecks scenarioE [] ⟨some 1, false⟩).trace
        = ["A parent with children can't have a rowCount <= 0. or if it does, canFetchMore should return true"] :=
  ⟨rfl,
    fun h => absurd ((testParent_rule scenarioE [] ⟨some 1, false⟩ 1 rfl).1.1 h) (by decide),
    by decide⟩

/-! ## Header-data-changed -/

/-- C11: header-data-changed check.  With `throwOnError` and a bound model that
passes full validation, `onHeaderDataChanged(orientation, first, last)` raises
if and only if `first > last` or the root-level count along the axis
(`columnCount()` for `Horizontal`, `rowCount()` for `Vertical`) is `<= last`;
otherwise it returns. -/
theorem onHeaderDataChanged_check (fuel : Nat) (d : ctkModelTesterPrivate Idx PIdx)
    (orientation : Orientation) (first last : Int) (m : Nat)
    (hT : d.ThrowOnError = true) (hM : d.Model = some m)
    (hModel : (testModel M fuel d.config).out = .done ()) :
    ((∃ msg, (onHeaderDataChanged M fuel orientation first last d).out = .raised msg)
        ↔ (first > last
            ∨ (if orientation = .Horizontal then M.columnCount M.nullIndex
                else M.rowCount M.nullIndex) ≤ last))
      ∧ (¬ (first > last
            ∨ (if orientation = .Horizontal then M.columnCount M.nullIndex
                else M.rowCount M.nullIndex) ≤ last)
          → (onHeaderDataChanged M fuel orientation first last d).out = .done ()) := by
  obtain ⟨dm, dt, dn, di, dr, dl⟩ := d
  simp only at hT hM
  subst hT hM
  simp only [config_mk] at hModel
  unfold onHeaderDataChanged
  have hf : (first ≤ last ∧ ¬ first > last) ∨ (¬ first ≤ last ∧ first > last) := by omega
  cases orientation <;> rcases hf with ⟨h1, h1'⟩ | ⟨h1, h1'⟩
  · by_cases h2 : last < M.columnCount M.nullIndex
    · have h2' : ¬ M.columnCount M.nullIndex ≤ last := by omega
      simp [h1, h1', h2, h2', dModel.columnCount, hModel]
    · have h2' : M.columnCount M.nullIndex ≤ last := by omega
      simp [h1, h1', h2, h2', dModel.columnCount]
  · simp [h1, h1']
  · by_cases h2 : last < M.rowCount M.nullIndex
    · have h2' : ¬ M.rowCount M.nullIndex ≤ last := by omega
      simp [h1, h1', h2, h2', dModel.rowCount, hModel]
    · have h2' : M.rowCount M.nullIndex ≤ last := by omega
      simp [h1, h1', h2, h2', dModel.rowCount]
  · simp [h1, h1']

/-- C11 at concrete inputs: on a 3 x 1 table, vertical headers 0..2 pass and
0..3 raise. -/
theorem onHeaderDataChanged_check_witness :
    ((boundTester 1).ThrowOnError = true ∧ (boundTester 1).Model = some 1
      ∧ (testModel (tableModel 1 3 1 id) 2 (boundTester 1).config).out = .done ())
    ∧ (onHeaderDataChanged (tableModel 1 3 1 id) 2 .Vertical 0 2 (boundTester 1)).out = .done ()
    ∧ (∃ msg, (onHeaderDataChanged (tableModel 1 3 1 id) 2 .Vertical 0 3 (boundTester 1)).out
        = .raised msg) :=
  ⟨⟨rfl, rfl, by decide⟩,
    (onHeaderDataChanged_check (tableModel 1 3 1 id) 2 (boundTester 1) .Vertical 0 2 1 rfl rfl
      (by decide)).2 (by decide),
    (onHeaderDataChanged_check (tableModel 1 3 1 id) 2 (boundTester 1) .Vertical 0 3 1 rfl rfl
      (by decide)).1.2 (by decide)⟩

/-! ## Attaching a model -/

omit [DecidableEq Idx] in
/-- Without `throwOnError`, a check is its passing run or its logged run. -/
theorem test_mk_log (result : Bool) (errorString : String) (m : Option Nat) :
    (test result errorString : Check Idx PIdx Unit) ⟨m, false⟩
      = if result then ⟨[.test true errorString], .done ()⟩
        else ⟨[.test false errorString, .qDebug errorString], .done ()⟩ := by
  cases result <;> rfl

theorem onItemsAboutToBeInserted_unboundClean (fuel : Nat) (vparent : Idx) (o : Orientation)
    (s e : Int) (d : ctkModelTesterPrivate Idx PIdx) (h : UnboundClean d) :
    UnboundClean (onItemsAboutToBeInserted M fuel vparent o s e d).state := by
  obtain ⟨dm, dt, dn, di, dr, dl⟩ := d
  unfold onItemsAboutToBeInserted axisCount
  cases dm <;> cases dt <;>
  simp only [TM.bind_run, Slot.liftM_run, Slot.monadLift_run, TM.read_run, Result.andThen_done,
    Result.prepend_state, Result.prepend_nil, config_mk, test_mk_throw, test_mk_log, TM.modify_run,
    TM.pure_run, apply_ite Run.trace, apply_ite Run.out, Result.andThen_state, TM.ite_run,
    apply_ite Result.state, CM.ite_apply, dModel.rowCount, dModel.columnCount, viaModel_none,
    viaModel_some]
  all_goals repeat' split
  all_goals simp_all [UnboundClean]

omit [DecidableEq Idx] in
/-- Without a bound model the snapshot walk never returns a list. -/
theorem persistentModelIndexes_unbound (fuel : Nat) (index : Idx) (t : Bool) (l : List PIdx) :
    (persistentModelIndexes M fuel index ⟨none, t⟩).out ≠ .done l := by
  cases fuel with
  | zero => simp [persistentModelIndexes]
  | succ fuel => simp [persistentModelIndexes, forLoop, dModel.rowCount]

theorem onItemsAboutToBeRemoved_unboundClean (fuel : Nat) (vparent : Idx) (o : Orientation)
    (s e : Int) (d : ctkModelTesterPrivate Idx PIdx) (h : UnboundClean d) :
    UnboundClean (onItemsAboutToBeRemoved M fuel vparent o s e d).state := by
  obtain ⟨dm, dt, dn, di, dr, dl⟩ := d
  unfold onItemsAboutToBeRemoved axisCount
  cases dm <;> cases dt <;>
  simp only [TM.bind_run, Slot.liftM_run, Slot.monadLift_run, TM.read_run, Result.andThen_done,
    Result.prepend_state, Result.prepend_nil, config_mk, test_mk_throw, test_mk_log, TM.modify_run,
    TM.pure_run, apply_ite Run.trace, apply_ite Run.out, Result.andThen_state, TM.ite_run,
    apply_ite Result.state, CM.ite_apply, dModel.rowCount, dModel.columnCount, viaModel_none,
    viaModel_some]
  all_goals repeat' split
  all_goals simp_all [UnboundClean]

theorem onItemsInserted_unboundClean (fuel : Nat) (vparent : Idx) (o : Orientation)
    (s e : Int) (d : ctkModelTesterPrivate Idx PIdx) (h : UnboundClean d) :
    UnboundClean (onItemsInserted M fuel vparent o s e d).state := by
  obtain ⟨dm, dt, dn, di, dr, dl⟩ := d
  unfold onItemsInserted axisCount
  cases dm <;> cases dt <;> cases di <;>
  simp only [TM.bind_run, Slot.liftM_run, Slot.monadLift_run, TM.read_run, Result.andThen_done,
    Result.prepend_state, Result.prepend_nil, config_mk, test_mk_throw, test_mk_log, TM.modify_run,
    TM.pure_run, apply_ite Run.trace, apply_ite Run.out, Result.andThen_state, TM.ite_run,
    apply_ite Result.state, CM.ite_apply, dModel.rowCount, dModel.columnCount, viaModel_none,
    viaModel_some, popAboutToBeInserted]
  all_goals repeat' split
  all_goals simp_all [UnboundClean]

theorem onItemsRemoved_unboundClean (fuel : Nat) (vparent : Idx) (o : Orientation)
    (s e : Int) (d : ctkModelTesterPrivate Idx PIdx) (h : UnboundClean d) :
    UnboundClean (onItemsRemoved M fuel vparent o s e d).state := by
  obtain ⟨dm, dt, dn, di, dr, dl⟩ := d
  unfold onItemsRemoved axisCount
  cases dm <;> cases dt <;> cases dr <;>
  simp only [TM.bind_run, Slot.liftM_run, Slot.monadLift_run, TM.read_run, Result.andThen_done,
    Result.prepend_state, Result.prepend_nil, config_mk, test_mk_throw, test_mk_log, TM.modify_run,
    TM.pure_run, apply_ite Run.trace, apply_ite Run.out, Result.andThen_state, TM.ite_run,
    apply_ite Result.state, CM.ite_apply, dModel.rowCount, dModel.columnCount, viaModel_none,
    viaModel_some, popAboutToBeRemoved]
  all_goals repeat' split
  all_goals simp_all [UnboundClean]

theorem onLayoutAboutToBeChanged_unboundClean (fuel : Nat)
    (d : ctkModelTesterPrivate Idx PIdx) (h : UnboundClean d) :
    UnboundClean (onLayoutAboutToBeChanged M fuel d).state := by
  obtain ⟨dm, dt, dn, di, dr, dl⟩ := d
  have hp := persistentModelIndexes_unbound M fuel M.nullIndex dt
  unfold onLayoutAboutToBeChanged
  cases dm <;>
  simp only [TM.bind_run, Slot.liftM_run, Slot.monadLift_run, TM.read_run, Result.andThen_done,
    Result.prepend_state, Result.prepend_nil, config_mk, TM.modify_run,
    TM.pure_run, Result.andThen_state]
  all_goals repeat' split
  all_goals simp_all [UnboundClean]

theorem onLayoutChanged_unboundClean (fuel : Nat)
    (d : ctkModelTesterPrivate Idx PIdx) (h : UnboundClean d) :
    UnboundClean (onLayoutChanged M fuel d).state := by
  obtain ⟨dm, dt, dn, di, dr, dl⟩ := d
  unfold onLayoutChanged
  cases dm <;>
  simp only [TM.bind_run, Slot.liftM_run, Slot.monadLift_run, TM.read_run, Result.andThen_done,
    Result.prepend_state, Result.prepend_nil, config_mk, TM.modify_run,
    TM.pure_run, Result.andThen_state]
  all_goals repeat' split
  all_goals simp_all [UnboundClean]

/-- Slots that only validate leave the private state as it is. -/
theorem onDataChanged_state (fuel : Nat) (topLeft bottomRight : Idx)
    (d : ctkModelTesterPrivate Idx PIdx) :
    (onDataChanged M fuel topLeft bottomRight d).state = d := by
  unfold onDataChanged
  simp only [TM.bind_run, Slot.liftM_run, Slot.monadLift_run, Result.andThen_state]
  repeat' split
  all_goals rfl

theorem onHeaderDataChanged_state (fuel : Nat) (o : Orientation) (first last : Int)
    (d : ctkModelTesterPrivate Idx PIdx) :
    (onHeaderDataChanged M fuel o first last d).state = d := by
  unfold onHeaderDataChanged
  cases o <;>
  simp only [TM.bind_run, Slot.liftM_run, Slot.monadLift_run, Result.andThen_state]
  all_goals repeat' split
  all_goals rfl

omit [DecidableEq Idx] in
/-- Emitting events never fails. -/
theorem forEach_emit_out {γ : Type} (xs : List γ) (f : γ → Event Idx PIdx) (c : Config) :
    (forEach xs (fun x => (CM.emit (f x) : Check Idx PIdx Unit)) c).out = .done () := by
  induction xs with
  | nil => rfl
  | cons x xs ih =>
    unfold forEach
    simp [ih]

theorem setModel_state (fuel : Nat) (_model : Option Nat) (d : ctkModelTesterPrivate Idx PIdx) :
    (setModel M fuel _model d).state =
      match d.Model with
      | some _ => { d with Model := _model, AboutToBeInserted := [], AboutToBeRemoved := [],
                           LayoutAboutToBeChanged := [] }
      | none => { d with Model := _model } := by
  obtain ⟨dm, dt, dn, di, dr, dl⟩ := d
  unfold setModel
  cases dm <;> cases _model <;>
  simp only [TM.bind_run, Slot.liftM_run, Slot.monadLift_run, TM.read_run, Result.andThen_done,
    Result.prepend_state, Result.prepend_nil, config_mk, TM.modify_run,
    TM.pure_run, Result.andThen_state, CM.emit_apply, forEach_emit_out]

theorem attainable_unboundClean (d : ctkModelTesterPrivate Idx PIdx) (h : Attainable d) :
    UnboundClean d := by
  induction h with
  | fresh => intro _; exact ⟨rfl, rfl, rfl⟩
  | step h M fuel op _ ih =>
    cases op with
    | setModel _model =>
      show UnboundClean (setModel M fuel _model _).state
      rw [setModel_state]
      rename_i d0 _
      obtain ⟨dm, dt, dn, di, dr, dl⟩ := d0
      cases dm
      · intro hm; exact ih rfl
      · intro _; exact ⟨rfl, rfl, rfl⟩
    | setThrowOnError b => exact ih
    | setNestedInserts b => exact ih
    | testModel => exact ih
    | onDataChanged a b =>
      show UnboundClean (onDataChanged M fuel a b _).state
      rw [onDataChanged_state]; exact ih
    | onHeaderDataChanged o a b =>
      show UnboundClean (onHeaderDataChanged M fuel o a b _).state
      rw [onHeaderDataChanged_state]; exact ih
    | onLayoutAboutToBeChanged => exact onLayoutAboutToBeChanged_unboundClean M fuel _ ih
    | onLayoutChanged => exact onLayoutChanged_unboundClean M fuel _ ih
    | onModelAboutToBeReset => exact ih
    | onModelReset => exact ih
    | onItemsAboutToBeInserted p o s e =>
      exact onItemsAboutToBeInserted_unboundClean M fuel p o s e _ ih
    | onItemsInserted p o s e => exact onItemsInserted_unboundClean M fuel p o s e _ ih
    | onItemsAboutToBeRemoved p o s e =>
      exact onItemsAboutToBeRemoved_unboundClean M fuel p o s e _ ih
    | onItemsRemoved p o s e => exact onItemsRemoved_unboundClean M fuel p o s e _ ih

/-- C16: attach clears pending state.  In every state attainable from a
freshly constructed tester, after `setModel(m)` (whatever the validation pass
does) both stacks and the layout snapshot are empty, the bound model is `m`,
and `throwOnError` and `nestedInserts` are unchanged. -/
theorem setModel_clears_pending (d : ctkModelTesterPrivate Idx PIdx) (h : Attainable d)
    (fuel : Nat) (_model : Option Nat) :
    (setModel M fuel _model d).state.AboutToBeInserted = []
    ∧ (setModel M fuel _model d).state.AboutToBeRemoved = []
    ∧ (setModel M fuel _model d).state.LayoutAboutToBeChanged = []
    ∧ (setModel M fuel _model d).state.Model = _model
    ∧ (setModel M fuel _model d).state.ThrowOnError = d.ThrowOnError
    ∧ (setModel M fuel _model d).state.NestedInserts = d.NestedInserts := by
  have hc := attainable_unboundClean d h
  rw [setModel_state]
  obtain ⟨dm, dt, dn, di, dr, dl⟩ := d
  cases dm
  · obtain ⟨h1, h2, h3⟩ := hc rfl
    simp only at h1 h2 h3
    subst h1 h2 h3
    exact ⟨rfl, rfl, rfl, rfl, rfl, rfl⟩
  · exact ⟨rfl, rfl, rfl, rfl, rfl, rfl⟩

/-- C16 at a concrete history: attach a 3 x 1 table, announce rows 3..4, detach. -/
theorem setModel_clears_pending_witness :
    Attainable
      ((Operation.onItemsAboutToBeInserted [] .Vertical 3 4).run (tableModel 1 3 1 id) 2
        ((Operation.setModel (some 1)).run (tableModel 1 3 1 id) 2
          (ctkModelTesterPrivate.init : ctkModelTesterPrivate Cell Cell)).state).state
    ∧ (setModel (tableModel 1 3 1 id) 2 none
        ((Operation.onItemsAboutToBeInserted [] .Vertical 3 4).run (tableModel 1 3 1 id) 2
          ((Operation.setModel (some 1)).run (tableModel 1 3 1 id) 2
            (ctkModelTesterPrivate.init : ctkModelTesterPrivate Cell Cell)).state).state
        ).state.AboutToBeInserted = [] :=
  ⟨.step (.step .fresh _ _ _ (Or.inl (by decide))) _ _ _ (Or.inl (by decide)),
   (setModel_clears_pending (tableModel 1 3 1 id) _
    (.step (.step .fresh _ _ _ (Or.inl (by decide))) _ _ _ (Or.inl (by decide))) 2 none).1⟩

/-- Without `throwOnError` and with a bound model, the re-validation of a
persistent address always returns. -/
theorem testPersistentModelIndex_log_out (index : PIdx) (m : Nat) :
    (testPersistentModelIndex M index ⟨some m, false⟩).out = .done () := by
  unfold testPersistentModelIndex
  simp [test_mk_log, dModel.index, Run.andThen_out_done_iff, apply_ite Run.out]

omit [DecidableEq Idx] in
theorem forEach_out_done {γ : Type} (xs : List γ) (body : γ → Check Idx PIdx Unit) (c : Config)
    (h : ∀ x ∈ xs, (body x c).out = .done ()) : (forEach xs body c).out = .done () := by
  induction xs with
  | nil => rfl
  | cons x xs ih =>
    unfold forEach
    simp [Run.andThen_out_done_iff, h x (List.mem_cons_self _ _),
      ih (fun y hy => h y (List.mem_cons_of_mem _ hy))]

/-! ## Layout-changed -/

/-- C15 fails as stated: the snapshot taken on a 3 x 1 table is still there
after `onLayoutChanged` has raised on the address the model has lost. -/
theorem onLayoutChanged_keeps_snapshot_on_raise :
    (onLayoutAboutToBeChanged (tableModel 1 3 1 id) 2 (boundTester 1)).state.LayoutAboutToBeChanged
      = [[(0, 0)], [(1, 0)], [(2, 0)]]
    ∧ (onLayoutChanged (tableModel 1 3 1 lostLastRow) 2
        (onLayoutAboutToBeChanged (tableModel 1 3 1 id) 2 (boundTester 1)).state).out
        = .raised "Persistent model index can't be invalid"
    ∧ (onLayoutChanged (tableModel 1 3 1 lostLastRow) 2
        (onLayoutAboutToBeChanged (tableModel 1 3 1 id) 2
          (boundTester 1)).state).state.LayoutAboutToBeChanged ≠ [] := by
  decide

/-- C15, amended.  For every state and configuration, after `onLayoutChanged`
the two pending stacks are unchanged; the snapshot is empty if the
re-validation of the recorded addresses ran to its end, and is what it was
otherwise.  The re-validation always runs to its end with `throwOnError` false
on a bound model; when it raises, the whole private state is unchanged. -/
theorem onLayoutChanged_snapshot (fuel : Nat) (d : ctkModelTesterPrivate Idx PIdx) :
    (onLayoutChanged M fuel d).state.AboutToBeInserted = d.AboutToBeInserted
    ∧ (onLayoutChanged M fuel d).state.AboutToBeRemoved = d.AboutToBeRemoved
    ∧ (onLayoutChanged M fuel d).state.LayoutAboutToBeChanged
        = (if (forEach d.LayoutAboutToBeChanged (testPersistentModelIndex M) d.config).out
                = .done ()
            then [] else d.LayoutAboutToBeChanged)
    ∧ (d.ThrowOnError = false → ∀ m, d.Model = some m →
        (forEach d.LayoutAboutToBeChanged (testPersistentModelIndex M) d.config).out = .done ())
    ∧ (d.ThrowOnError = true →
        (∃ msg, (forEach d.LayoutAboutToBeChanged (testPersistentModelIndex M) d.config).out
          = .raised msg) →
        (onLayoutChanged M fuel d).state = d) := by
  obtain ⟨dm, dt, dn, di, dr, dl⟩ := d
  unfold onLayoutChanged
  simp only [TM.bind_run, Slot.liftM_run, Slot.monadLift_run, TM.read_run, Result.andThen_done,
    Result.prepend_state, Result.prepend_nil, config_mk, TM.modify_run,
    TM.pure_run, Result.andThen_state]
  refine ⟨?_, ?_, ?_, ?_, ?_⟩
  · repeat' split
    all_goals rfl
  · repeat' split
    all_goals rfl
  · rcases h : (forEach dl (testPersistentModelIndex M) ⟨dm, dt⟩).out with a | msg | _ | _ <;>
      simp
  · intro ht m hm
    subst ht hm
    exact forEach_out_done _ _ _ fun x _ => testPersistentModelIndex_log_out M x m
  · rintro - ⟨msg, h⟩
    rw [h]

/-! ## The removal snapshot -/

omit [DecidableEq Idx] in
theorem Run.andThen_out_of_done {ε α β : Type} (x : Run ε α) (f : α → Run ε β) (a : α)
    (h : x.out = .done a) : (x.andThen f).out = (f a).out := by
  unfold Run.andThen
  rw [h]
  rfl

omit [DecidableEq Idx] in
theorem forLoop.go_out_append {ε σ γ : Type} (bound : CM ε σ Int)
    (body : Int → List γ → CM ε σ (List γ)) (c : σ) (f : Int → List γ) (n : Int)
    (hb : (bound c).out = .done n) :
    ∀ (k : Nat) (i : Int) (acc : List γ),
      (∀ t : Nat, t < k → ∀ acc, (body (i + t) acc c).out = .done (acc ++ f (i + t))) →
      (forLoop.go bound body k i acc c).out
        = .done (acc ++ (List.range k).flatMap fun t => f (i + t)) := by
  intro k
  induction k with
  | zero => intro i acc _; simp [forLoop.go]
  | succ k ih =>
    intro i acc h
    unfold forLoop.go
    have h0 := h 0 (Nat.succ_pos k) acc
    simp only [Nat.cast_zero, add_zero] at h0
    rw [CM.bind_apply, Run.andThen_out_of_done _ _ _ h0, CM.bind_apply,
      Run.andThen_out_of_done _ _ _ hb, ih (i + 1) (acc ++ f i)]
    · rw [List.range_succ_eq_map, List.flatMap_cons, List.flatMap_map]
      simp only [Nat.cast_zero, add_zero, List.append_assoc, Function.comp_def, Nat.succ_eq_add_one,
        Nat.cast_add, Nat.cast_one]
      have hfun : (fun t : Nat => f (i + 1 + (t : Int))) = fun a : Nat => f (i + ((a : Int) + 1)) :=
        funext fun t => congrArg f (by omega)
      rw [hfun]
    · intro t ht acc2
      have := h (t + 1) (Nat.succ_lt_succ ht) acc2
      simp only [Nat.cast_add, Nat.cast_one] at this
      rw [show i + 1 + (t : Int) = i + ((t : Int) + 1) by omega]
      exact this

omit [DecidableEq Idx] in
/-- Result of a loop whose body appends `f i` to the list it carries. -/
theorem forLoop_out_append {ε σ γ : Type} (lo n : Int) (bound : CM ε σ Int)
    (body : Int → List γ → CM ε σ (List γ)) (c : σ) (f : Int → List γ) (init : List γ)
    (hb : (bound c).out = .done n)
    (hbody : ∀ i acc, lo ≤ i → i < n → (body i acc c).out = .done (acc ++ f i)) :
    (forLoop lo bound init body c).out
      = .done (init ++ (List.range (n - lo).toNat).flatMap fun t => f (lo + t)) := by
  unfold forLoop
  rw [CM.bind_apply, Run.andThen_out_of_done _ _ _ hb]
  apply forLoop.go_out_append bound body c f n hb
  intro t ht acc
  apply hbody
  · omega
  · omega

/-- With a bound model, an announced removal pushes the record whose items are
`survivors`. -/
theorem onItemsAboutToBeRemoved_pushes (fuel : Nat) (d : ctkModelTesterPrivate Idx PIdx)
    (vparent : Idx) (orientation : Orientation) (start end_ : Int) (m : Nat)
    (hM : d.Model = some m)
    (hA : removalAnnounced M d orientation vparent start end_
      (if orientation = .Vertical then M.rowCount vparent else M.columnCount vparent)) :
    (onItemsAboutToBeRemoved M fuel vparent orientation start end_ d).state.AboutToBeRemoved
      = ⟨vparent, orientation, start, end_,
          if orientation = .Vertical then M.rowCount vparent else M.columnCount vparent,
          survivors M orientation vparent start end_
            (if orientation = .Vertical then M.rowCount vparent else M.columnCount vparent)⟩
        :: d.AboutToBeRemoved := by
  obtain ⟨dm, dt, dn, di, dr, dl⟩ := d
  simp only at hM
  subst hM
  unfold onItemsAboutToBeRemoved axisCount
  cases orientation <;> cases dt
  · simp only [TM.bind_run, Slot.liftM_run, Slot.monadLift_run, TM.read_run, Result.andThen_done,
      Result.prepend_state, Result.prepend_nil, config_mk, test_mk_throw, test_mk_log, TM.modify_run,
      TM.pure_run, apply_ite Run.trace, apply_ite Run.out, Result.andThen_state, TM.ite_run,
      apply_ite Result.state, CM.ite_apply, dModel.rowCount, dModel.columnCount, viaModel_none,
      viaModel_some, ite_self, reduceCtorEq, if_false]
    rw [forLoop_out_append 0 (M.columnCount vparent) _ _ _
      (fun t => if M.column (M.deref (M.persist (M.index 0 t vparent))) < start
          ∨ M.column (M.deref (M.persist (M.index 0 t vparent))) > end_
        then [M.persist (M.index 0 t vparent)] else []) [] rfl]
    · simp [survivors, axisIndex, axisPosition]
    · intro i acc _ _
      simp only [CM.bind_apply, dModel.index, viaModel_some, Run.andThen_done_eq, test_mk_log,
        CM.pure_apply, Run.prepend_out_eq, Run.ite_andThen, apply_ite Run.out, true_and,
        false_and, if_false, ite_self]
      split <;> simp
  · obtain ⟨h1, h2, h3, h4, h5, h6⟩ := hA rfl
    simp only at h2 h3
    subst h2 h3
    simp only [reduceCtorEq, if_false] at h4 h5 h6
    simp only [TM.bind_run, Slot.liftM_run, Slot.monadLift_run, TM.read_run, Result.andThen_done,
      Result.prepend_state, Result.prepend_nil, config_mk, test_mk_throw, test_mk_log, TM.modify_run,
      TM.pure_run, apply_ite Run.trace, apply_ite Run.out, Result.andThen_state, TM.ite_run,
      apply_ite Result.state, CM.ite_apply, dModel.rowCount, dModel.columnCount, viaModel_none,
      viaModel_some, ite_self, reduceCtorEq, if_false, h1, h4, h5, decide_True, if_true,
      List.length_nil, beq_self_eq_true]
    rw [forLoop_out_append 0 (M.columnCount vparent) _ _ _
      (fun t => if M.column (M.deref (M.persist (M.index 0 t vparent))) < start
          ∨ M.column (M.deref (M.persist (M.index 0 t vparent))) > end_
        then [M.persist (M.index 0 t vparent)] else []) [] rfl]
    · simp [survivors, axisIndex, axisPosition]
    · intro i acc hi0 hi1
      have hv := h6 i hi0 hi1
      simp only [axisIndex, reduceCtorEq, if_false] at hv
      simp only [CM.bind_apply, dModel.index, viaModel_some, Run.andThen_done_eq, test_mk_throw,
        CM.pure_apply, Run.prepend_out_eq, Run.ite_andThen, apply_ite Run.out, true_and,
        false_and, if_false, ite_self, hv, if_true]
      split <;> simp
  · simp only [TM.bind_run, Slot.liftM_run, Slot.monadLift_run, TM.read_run, Result.andThen_done,
      Result.prepend_state, Result.prepend_nil, config_mk, test_mk_throw, test_mk_log, TM.modify_run,
      TM.pure_run, apply_ite Run.trace, apply_ite Run.out, Result.andThen_state, TM.ite_run,
      apply_ite Result.state, CM.ite_apply, dModel.rowCount, dModel.columnCount, viaModel_none,
      viaModel_some, ite_self, reduceCtorEq, if_false, if_true]
    rw [forLoop_out_append 0 (M.rowCount vparent) _ _ _
      (fun t => if M.row (M.deref (M.persist (M.index t 0 vparent))) < start
          ∨ M.row (M.deref (M.persist (M.index t 0 vparent))) > end_
        then [M.persist (M.index t 0 vparent)] else []) [] rfl]
    · simp [survivors, axisIndex, axisPosition]
    · intro i acc _ _
      simp only [CM.bind_apply, dModel.index, viaModel_some, Run.andThen_done_eq, test_mk_log,
        CM.pure_apply, Run.prepend_out_eq, Run.ite_andThen, apply_ite Run.out, true_and,
        false_and, if_false, ite_self, if_true]
      split <;> simp
  · obtain ⟨h1, h2, h3, h4, h5, h6⟩ := hA rfl
    simp only at h2 h3
    subst h2 h3
    simp only [if_true] at h4 h5 h6
    simp only [TM.bind_run, Slot.liftM_run, Slot.monadLift_run, TM.read_run, Result.andThen_done,
      Result.prepend_state, Result.prepend_nil, config_mk, test_mk_throw, test_mk_log, TM.modify_run,
      TM.pure_run, apply_ite Run.trace, apply_ite Run.out, Result.andThen_state, TM.ite_run,
      apply_ite Result.state, CM.ite_apply, dModel.rowCount, dModel.columnCount, viaModel_none,
      viaModel_some, ite_self, reduceCtorEq, if_false, h1, h4, h5, decide_True, if_true,
      List.length_nil, beq_self_eq_true]
    rw [forLoop_out_append 0 (M.rowCount vparent) _ _ _
      (fun t => if M.row (M.deref (M.persist (M.index t 0 vparent))) < start
          ∨ M.row (M.deref (M.persist (M.index t 0 vparent))) > end_
        then [M.persist (M.index t 0 vparent)] else []) [] rfl]
    · simp [survivors, axisIndex, axisPosition]
    · intro i acc hi0 hi1
      have hv := h6 i hi0 hi1
      simp only [axisIndex, if_true] at hv
      simp only [CM.bind_apply, dModel.index, viaModel_some, Run.andThen_done_eq, test_mk_throw,
        CM.pure_apply, Run.prepend_out_eq, Run.ite_andThen, apply_ite Run.out, true_and,
        false_and, if_false, ite_self, hv, if_true]
      split <;> simp

omit [DecidableEq Idx] in
/-- Number of positions of `[0, n)` outside `[a, b]`. -/
theorem length_outside_range {γ : Type} (g : Nat → γ) (a b : Int) (ha : 0 ≤ a) (hab : a ≤ b + 1) :
    ∀ n : Nat,
      ((((List.range n).flatMap fun t =>
          if (t : Int) < a ∨ (t : Int) > b then [g t] else []).length : Nat) : Int)
        = (n : Int) - (if (n : Int) ≤ a then 0 else if (n : Int) ≤ b + 1 then (n : Int) - a
            else b + 1 - a) := by
  intro n
  induction n with
  | zero => simp [ha]
  | succ n ih =>
    rw [List.range_succ, List.flatMap_append, List.length_append, Nat.cast_add, ih]
    simp only [List.flatMap_cons, List.flatMap_nil, List.append_nil, Nat.cast_add, Nat.cast_one]
    by_cases h1 : (n : Int) < a ∨ (n : Int) > b
    · rw [if_pos h1]
      simp only [List.length_singleton, Nat.cast_one]
      split_ifs <;> omega
    · rw [if_neg h1]
      simp only [List.length_nil, Nat.cast_zero]
      split_ifs <;> omega

omit [DecidableEq Idx] in
/-- What the recorded survivors are. -/
theorem mem_survivors (orientation : Orientation) (vparent : Idx) (start end_ count : Int)
    (x : PIdx) :
    x ∈ survivors M orientation vparent start end_ count ↔
      ∃ i : Int, 0 ≤ i ∧ i < count ∧ x = M.persist (axisIndex M orientation vparent i)
        ∧ (axisPosition M orientation (M.deref x) < start
            ∨ axisPosition M orientation (M.deref x) > end_) := by
  unfold survivors
  simp only [List.mem_flatMap, List.mem_range]
  constructor
  · rintro ⟨t, ht, hx⟩
    split at hx
    · rename_i hc
      simp only [List.mem_singleton] at hx
      subst hx
      exact ⟨t, by omega, by omega, rfl, hc⟩
    · simp at hx
  · rintro ⟨i, hi0, hi1, hx, hc⟩
    subst hx
    refine ⟨i.toNat, by omega, ?_⟩
    rw [show ((i.toNat : Nat) : Int) = i by omega, if_pos hc]
    simp

/-- C12 fails as stated: on a 3-row, 2-column table the record pushed for the
removal of row 1 holds the first column of rows 0 and 2 only; the address in
row 0, column 1, which survives, is not recorded. -/
theorem removal_snapshot_misses_other_columns :
    (onItemsAboutToBeRemoved (tableModel 1 3 2 id) 2 [] .Vertical 1 1
        (boundTester 1)).state.AboutToBeRemoved
      = [⟨[], .Vertical, 1, 1, 3, [[(0, 0)], [(2, 0)]]⟩]
    ∧ (tableModel 1 3 2 id).index 0 1 [] = [(0, 1)]
    ∧ (tableModel 1 3 2 id).isValid [(0, 1)] = true
    ∧ (tableModel 1 3 2 id).row [(0, 1)] = 0
    ∧ (tableModel 1 3 2 id).persist [(0, 1)] ∉ [[(0, 0)], [(2, 0)]] := by
  decide

/-- C12, amended.  With a bound model, the record pushed by
`onItemsAboutToBeRemoved(parent, axis, start, end)` holds one persistent address
per surviving position along the axis: that of `index(i, 0, parent)` (rows) or
`index(0, i, parent)` (columns) for each `i` of `[0, count)` at which that
address reports a position outside `[start, end]`, in increasing `i`, and
nothing else. -/
theorem removal_snapshot_contents (fuel : Nat) (d : ctkModelTesterPrivate Idx PIdx)
    (vparent : Idx) (orientation : Orientation) (start end_ : Int) (m : Nat)
    (hM : d.Model = some m)
    (hA : removalAnnounced M d orientation vparent start end_
      (if orientation = .Vertical then M.rowCount vparent else M.columnCount vparent)) :
    (onItemsAboutToBeRemoved M fuel vparent orientation start end_ d).state.AboutToBeRemoved
      = ⟨vparent, orientation, start, end_,
          if orientation = .Vertical then M.rowCount vparent else M.columnCount vparent,
          survivors M orientation vparent start end_
            (if orientation = .Vertical then M.rowCount vparent else M.columnCount vparent)⟩
        :: d.AboutToBeRemoved
    ∧ ∀ x : PIdx,
        x ∈ survivors M orientation vparent start end_
            (if orientation = .Vertical then M.rowCount vparent else M.columnCount vparent)
          ↔ ∃ i : Int, 0 ≤ i
              ∧ i < (if orientation = .Vertical then M.rowCount vparent
                      else M.columnCount vparent)
              ∧ x = M.persist (axisIndex M orientation vparent i)
              ∧ (axisPosition M orientation (M.deref x) < start
                  ∨ axisPosition M orientation (M.deref x) > end_) :=
  ⟨onItemsAboutToBeRemoved_pushes M fuel d vparent orientation start end_ m hM hA,
    fun x => mem_survivors M orientation vparent start end_ _ x⟩

/-- C13: removal snapshot exclusion.  For a bound model whose
`index(i, 0, parent)` / `index(0, i, parent)` reports row / column `i`, and
`0 <= start <= end < count`, the record pushed by
`onItemsAboutToBeRemoved(parent, axis, start, end)` stores the pre-change
count, holds no address whose position along the axis lies inside
`[start, end]`, and holds exactly `count - (end - start + 1)` addresses. -/
theorem removal_snapshot_excludes_range (fuel : Nat) (d : ctkModelTesterPrivate Idx PIdx)
    (vparent : Idx) (orientation : Orientation) (start end_ : Int) (m : Nat)
    (hM : d.Model = some m)
    (hA : removalAnnounced M d orientation vparent start end_
      (if orientation = .Vertical then M.rowCount vparent else M.columnCount vparent))
    (hpos : ∀ i : Int, 0 ≤ i →
      i < (if orientation = .Vertical then M.rowCount vparent else M.columnCount vparent) →
      axisPosition M orientation (M.deref (M.persist (axisIndex M orientation vparent i))) = i)
    (h0 : 0 ≤ start) (hse : start ≤ end_)
    (hec : end_ < (if orientation = .Vertical then M.rowCount vparent
                    else M.columnCount vparent)) :
    ∃ items : List PIdx,
      (onItemsAboutToBeRemoved M fuel vparent orientation start end_ d).state.AboutToBeRemoved
        = ⟨vparent, orientation, start, end_,
            if orientation = .Vertical then M.rowCount vparent else M.columnCount vparent,
            items⟩ :: d.AboutToBeRemoved
      ∧ (∀ x ∈ items, ¬ (start ≤ axisPosition M orientation (M.deref x)
                          ∧ axisPosition M orientation (M.deref x) ≤ end_))
      ∧ (items.length : Int)
          = (if orientation = .Vertical then M.rowCount vparent else M.columnCount vparent)
            - (end_ - start + 1) := by
  refine ⟨_, onItemsAboutToBeRemoved_pushes M fuel d vparent orientation start end_ m hM hA, ?_, ?_⟩
  · intro x hx
    obtain ⟨i, _, _, _, hc⟩ := (mem_survivors M orientation vparent start end_ _ x).1 hx
    omega
  · generalize (if orientation = .Vertical then M.rowCount vparent else M.columnCount vparent)
      = count at hpos hec ⊢
    unfold survivors
    have hfun : (List.range count.toNat).flatMap (fun t : Nat =>
          if axisPosition M orientation (M.deref (M.persist (axisIndex M orientation vparent t)))
                < start
              ∨ axisPosition M orientation
                  (M.deref (M.persist (axisIndex M orientation vparent t))) > end_
          then [M.persist (axisIndex M orientation vparent t)] else [])
        = (List.range count.toNat).flatMap (fun t : Nat =>
            if (t : Int) < start ∨ (t : Int) > end_
            then [M.persist (axisIndex M orientation vparent t)] else []) := by
      apply List.flatMap_congr
      intro t ht
      rw [List.mem_range] at ht
      rw [hpos t (by omega) (by omega)]
    rw [hfun, length_outside_range _ start end_ h0 (by omega)]
    split_ifs <;> omega

/-- On a 3 x 2 table every check of the announcement of the removal of row 1 passes. -/
theorem removalAnnounced_row1 :
    removalAnnounced (tableModel 1 3 2 id) (boundTester 1) .Vertical [] 1 1 3 := by
  intro _
  refine ⟨by decide, rfl, rfl, by decide, by decide, ?_⟩
  intro i h0 h1
  simp [tableModel, treeModel, axisIndex, flat, inTable, h0, h1]

/-- C12 (amended) on the 3-row, 2-column table: the record holds the first
column of rows 0 and 2. -/
theorem removal_snapshot_contents_witness :
    ((boundTester 1).Model = some 1
      ∧ removalAnnounced (tableModel 1 3 2 id) (boundTester 1) .Vertical [] 1 1 3)
    ∧ (onItemsAboutToBeRemoved (tableModel 1 3 2 id) 2 [] .Vertical 1 1
        (boundTester 1)).state.AboutToBeRemoved
        = [⟨[], .Vertical, 1, 1, 3, survivors (tableModel 1 3 2 id) .Vertical [] 1 1 3⟩]
    ∧ survivors (tableModel 1 3 2 id) .Vertical [] 1 1 3 = [[(0, 0)], [(2, 0)]] :=
  ⟨⟨rfl, removalAnnounced_row1⟩,
    (removal_snapshot_contents (tableModel 1 3 2 id) 2 (boundTester 1) [] .Vertical 1 1 1 rfl
      removalAnnounced_row1).1,
    by decide⟩

/-- C13 on the 3-row, 2-column table: removing row 1 records 3 - 1 = 2 addresses. -/
theorem removal_snapshot_excludes_range_witness :
    ((boundTester 1).Model = some 1
      ∧ removalAnnounced (tableModel 1 3 2 id) (boundTester 1) .Vertical [] 1 1 3
      ∧ (0 : Int) ≤ 1 ∧ (1 : Int) ≤ 1 ∧ (1 : Int) < 3)
    ∧ ∃ items : List Cell,
        (onItemsAboutToBeRemoved (tableModel 1 3 2 id) 2 [] .Vertical 1 1
          (boundTester 1)).state.AboutToBeRemoved
          = [⟨[], .Vertical, 1, 1, 3, items⟩]
        ∧ (∀ x ∈ items, ¬ ((1 : Int) ≤ axisPosition (tableModel 1 3 2 id) .Vertical
                              ((tableModel 1 3 2 id).deref x)
                          ∧ axisPosition (tableModel 1 3 2 id) .Vertical
                              ((tableModel 1 3 2 id).deref x) ≤ 1))
        ∧ (items.length : Int) = 3 - (1 - 1 + 1) :=
  ⟨⟨rfl, removalAnnounced_row1, by decide, by decide, by decide⟩,
    removal_snapshot_excludes_range (tableModel 1 3 2 id) 2 (boundTester 1) [] .Vertical 1 1 1 rfl
      removalAnnounced_row1
      (by
        intro i h0 h1
        have h1' : i < 3 := h1
        simp [tableModel, treeModel, axisIndex, axisPosition, flat, inTable, h0, h1'])
      (by decide) (by decide) (by decide)⟩

/-! ## Soundness of full validation -/

omit [DecidableEq Idx] in
theorem Run.quiet_andThen {α β : Type} (x : Run (Event Idx PIdx) α)
    (f : α → Run (Event Idx PIdx) β) (b : β) :
    (x.andThen f).quiet b ↔ ∃ a, x.quiet a ∧ (f a).quiet b := by
  obtain ⟨xt, xo⟩ := x
  cases xo <;> simp [Run.quiet, Run.andThen, Run.prepend]
  constructor
  · rintro ⟨h1, h2, h3⟩
    exact ⟨_, ⟨rfl, h2⟩, h1, h3⟩
  · rintro ⟨w, ⟨rfl, h2⟩, h1, h3⟩
    exact ⟨h1, h2, h3⟩

omit [DecidableEq Idx] in
theorem Run.quiet_prepend {α : Type} (t : List (Event Idx PIdx)) (x : Run (Event Idx PIdx) α)
    (a : α) : (x.prepend t).quiet a ↔ logged t = [] ∧ x.quiet a := by
  simp [Run.quiet, Run.prepend]
  tauto

omit [DecidableEq Idx] in
theorem test_quiet (result : Bool) (errorString : String) (c : Config) (u : Unit) :
    ((test result errorString : Check Idx PIdx Unit) c).quiet u ↔ result = true := by
  obtain ⟨cm, ct⟩ := c
  cases result <;> cases ct <;> simp [Run.quiet, test]

omit [DecidableEq Idx] in
theorem forLoop.go_quiet (bound : Check Idx PIdx Int) (body : Int → Unit → Check Idx PIdx Unit)
    (c : Config) :
    ∀ (k : Nat) (i : Int), (forLoop.go bound body k i () c).quiet () →
      ∀ t : Nat, t < k → (body (i + t) () c).quiet () := by
  intro k
  induction k with
  | zero => intro i _ t ht; omega
  | succ k ih =>
    intro i h t ht
    unfold forLoop.go at h
    rw [CM.bind_apply, Run.quiet_andThen] at h
    obtain ⟨_, h1, h2⟩ := h
    rw [CM.bind_apply, Run.quiet_andThen] at h2
    obtain ⟨_, _, h3⟩ := h2
    cases t with
    | zero => simpa using h1
    | succ t =>
      have := ih (i + 1) h3 t (by omega)
      rw [show i + ((t + 1 : Nat) : Int) = i + 1 + (t : Int) by push_cast; omega]
      exact this

omit [DecidableEq Idx] in
/-- In a quiet loop every iteration is quiet. -/
theorem forLoop_quiet (lo n : Int) (bound : Check Idx PIdx Int)
    (body : Int → Unit → Check Idx PIdx Unit) (c : Config)
    (hb : (bound c).out = .done n) (h : (forLoop lo bound () body c).quiet ()) :
    ∀ i : Int, lo ≤ i → i < n → (body i () c).quiet () := by
  unfold forLoop at h
  rw [CM.bind_apply, Run.quiet_andThen] at h
  obtain ⟨n', h1, h2⟩ := h
  have hn : n' = n := by
    have := h1.1
    rw [hb] at this
    exact (Outcome.done.inj this).symm
  subst hn
  intro i hi0 hi1
  have := forLoop.go_quiet bound body c _ lo h2 (i - lo).toNat (by omega)
  rw [show lo + (((i - lo).toNat : Nat) : Int) = i by omega] at this
  exact this

omit [DecidableEq Idx] in
theorem Run.quiet_mk_done {α : Type} (t : List (Event Idx PIdx)) (a b : α) :
    (Run.mk t (.done a)).quiet b ↔ a = b ∧ logged t = [] := by
  simp [Run.quiet]

omit [DecidableEq Idx] in
theorem viaModel_quiet {α : Type} (e : Event Idx PIdx) (a b : α) (c : Config) (m : Nat)
    (hM : c.Model = some m) (he : logged [e] = []) : (viaModel e a c).quiet b ↔ a = b := by
  obtain ⟨cm, ct⟩ := c
  simp only at hM
  subst hM
  simp [Run.quiet, he]

omit [DecidableEq Idx] in
theorem viaModel_out {α : Type} (e : Event Idx PIdx) (a : α) (c : Config) (m : Nat)
    (hM : c.Model = some m) : (viaModel e a c).out = .done a := by
  obtain ⟨cm, ct⟩ := c
  simp only at hM
  subst hM
  simp

/-- A quiet validation of a valid address: its four checks passed, and the walk below it was quiet. -/
theorem testModelIndex_quiet_valid (fuel : Nat) (a : Idx) (c : Config) (m : Nat)
    (hM : c.Model = some m) (hv : M.isValid a = true)
    (h : (testModelIndex M fuel a c).quiet ()) :
    (M.model a = some m ∧ M.row a ≥ 0 ∧ M.column a ≥ 0
        ∧ a = M.sibling a (M.row a) (M.column a))
      ∧ (testParent M fuel a c).quiet () := by
  unfold testModelIndex testModelIndexWith at h
  simp only [CM.bind_apply, Run.quiet_andThen, hv, Bool.not_true, Bool.false_eq_true, if_false,
    CM.ite_apply, test_quiet, CM.emit_apply, CM.read_apply, Run.quiet_mk_done] at h
  obtain ⟨_, _, _, ⟨rfl, _⟩, _, h1, _, h2, _, h3, _, h4, _, _, h5⟩ := h
  rw [hM] at h1
  refine ⟨⟨?_, ?_, ?_, ?_⟩, h5⟩
  · simpa using h1
  · simpa using h3
  · simpa using h2
  · simpa using h4

/-- A quiet validation of an invalid address: the address has no model. -/
theorem testModelIndex_quiet_invalid (fuel : Nat) (a : Idx) (c : Config)
    (hv : M.isValid a = false) (h : (testModelIndex M fuel a c).quiet ()) :
    M.model a = none := by
  unfold testModelIndex testModelIndexWith at h
  simp only [CM.bind_apply, Run.quiet_andThen, hv, Bool.not_false, if_true,
    CM.ite_apply, test_quiet, CM.emit_apply, CM.read_apply, Run.quiet_mk_done] at h
  obtain ⟨_, _, _, _, _, h1, _⟩ := h
  simpa using h1

/-- A quiet `testParent` of a valid address: every in-range child was validated quietly. -/
theorem testParent_quiet_children (fuel : Nat) (p : Idx) (c : Config) (m : Nat)
    (hM : c.Model = some m) (hv : M.isValid p = true)
    (h : (testParent M fuel p c).quiet ()) :
    ∃ f, ∀ i j : Int, 0 ≤ i → i < M.rowCount p → 0 ≤ j → j < M.columnCount p →
      (testModelIndex M f (M.child p i j) c).quiet () := by
  cases fuel with
  | zero => simp [testParent, Run.quiet] at h
  | succ f =>
    refine ⟨f, fun i j hi hi' hj hj' => ?_⟩
    rw [testParent_succ, Run.quiet_prepend, Run.quiet_andThen] at h
    obtain ⟨_, _, _, h⟩ := h
    simp only [hv, Bool.true_eq_false, if_false] at h
    unfold testParentChildren at h
    have h1 := forLoop_quiet 0 _ _ _ c (viaModel_out _ _ c m hM) h i hi hi'
    have h2 := forLoop_quiet 0 _ _ _ c (viaModel_out _ _ c m hM) h1 j hj hj'
    simp only [CM.bind_apply, Run.quiet_andThen] at h2
    obtain ⟨_, _, _, _, _, _, h3⟩ := h2
    exact h3

/-- A quiet full validation: every in-range top-level address was validated quietly. -/
theorem testModel_quiet_top (fuel : Nat) (c : Config) (m : Nat) (hM : c.Model = some m)
    (h : (testModel M fuel c).quiet ()) :
    ∀ i j : Int, 0 ≤ i → i < M.rowCount M.nullIndex → 0 ≤ j → j < M.columnCount M.nullIndex →
      (testModelIndex M fuel (M.index i j M.nullIndex) c).quiet () := by
  intro i j hi hi' hj hj'
  unfold testModel at h
  simp only [CM.bind_apply, Run.quiet_andThen, CM.emit_apply, CM.read_apply, Run.quiet_mk_done,
    CM.ite_apply] at h
  obtain ⟨_, _, _, ⟨rfl, _⟩, h⟩ := h
  simp only [hM, beq_iff_eq, reduceCtorEq, if_false] at h
  have h1 := forLoop_quiet 0 _ _ _ c (viaModel_out _ _ c m hM) h i hi hi'
  have h2 := forLoop_quiet 0 _ _ _ c (viaModel_out _ _ c m hM) h1 j hj hj'
  simp only [CM.bind_apply, Run.quiet_andThen] at h2
  obtain ⟨_, _, _, _, x, hx, _, _, h3⟩ := h2
  have : M.index i j M.nullIndex = x :=
    (viaModel_quiet (.index i j M.nullIndex) _ _ c m hM rfl).1 hx
  rw [this]
  exact h3

/-- C17: soundness of full validation.  If `testModel` on the bound model `m`
returns without having logged a violation, every valid address reached from
the root through in-range (row, column) steps has `model() == m`, `row() >= 0`,
`column() >= 0` and equals its own `sibling(row(), column())`.  Steps below
the root are `child(i, j)`, which in Qt answers `QModelIndex()` for an index
without model (hypothesis `hchild`). -/
theorem testModel_sound (fuel : Nat) (c : Config) (m : Nat) (hM : c.Model = some m)
    (hquiet : (testModel M fuel c).quiet ())
    (hchild : ∀ p i j, M.isValid p = false → M.model p = none →
      M.isValid (M.child p i j) = false ∧ M.model (M.child p i j) = none)
    (a : Idx) (ha : Walked M a) (hv : M.isValid a = true) :
    M.model a = some m ∧ M.row a ≥ 0 ∧ M.column a ≥ 0
      ∧ a = M.sibling a (M.row a) (M.column a) := by
  have key : ∀ x, Walked M x →
      (∃ f, (testModelIndex M f x c).quiet ()) ∨ (M.isValid x = false ∧ M.model x = none) := by
    intro x hx
    induction hx with
    | top i j hi hi' hj hj' => exact .inl ⟨fuel, testModel_quiet_top M fuel c m hM hquiet i j hi hi' hj hj'⟩
    | @step p _ i j hi hi' hj hj' ih =>
      rcases ih with ⟨f, hf⟩ | ⟨hp, hm⟩
      · cases hvp : M.isValid p with
        | true =>
          obtain ⟨f', hf'⟩ := testParent_quiet_children M f p c m hM hvp
            (testModelIndex_quiet_valid M f p c m hM hvp hf).2
          exact .inl ⟨f', hf' i j hi hi' hj hj'⟩
        | false => exact .inr (hchild p i j hvp (testModelIndex_quiet_invalid M f p c hvp hf))
      · exact .inr (hchild p i j hp hm)
  rcases key a ha with ⟨f, hf⟩ | ⟨hn, _⟩
  · exact (testModelIndex_quiet_valid M f a c m hM hv hf).1
  · rw [hv] at hn; cases hn

/-- C17 on a table whose only cell has one child: the child passes the four checks. -/
theorem testModel_sound_witness :
    (({ Model := some 1, ThrowOnError := true } : Config).Model = some 1)
    ∧ (testModel (treeModel 1 nested id) 3 ⟨some 1, true⟩).quiet ()
    ∧ Walked (treeModel 1 nested id) [(0, 0), (0, 0)]
    ∧ (treeModel 1 nested id).model [(0, 0), (0, 0)] = some 1
    ∧ [(0, 0), (0, 0)] = (treeModel 1 nested id).sibling [(0, 0), (0, 0)] 0 0 :=
  have hq : (testModel (treeModel 1 nested id) 3 ⟨some 1, true⟩).quiet () := ⟨by decide, by decide⟩
  have hw : Walked (treeModel 1 nested id) [(0, 0), (0, 0)] :=
    Walked.step (Walked.top 0 0 (by decide) (by decide) (by decide) (by decide)) 0 0
      (by decide) (by decide) (by decide) (by decide)
  have hs := testModel_sound (treeModel 1 nested id) 3 ⟨some 1, true⟩ 1 rfl hq
    (fun p i j hp _ => by cases p <;> simp_all [treeModel]) [(0, 0), (0, 0)] hw (by decide)
  ⟨rfl, hq, hw, hs.1, hs.2.2.2⟩

/-! ## The sibling grid -/

/-- The sampled pairs are the 10 x 10 grid. -/
theorem mem_siblingSamples (r c : Int) :
    (r, c) ∈ siblingSamples ↔ 0 ≤ r ∧ r < 10 ∧ 0 ≤ c ∧ c < 10 := by
  unfold siblingSamples
  simp only [List.mem_map, List.mem_range, Prod.mk.injEq]
  constructor
  · rintro ⟨i, hi, rfl, rfl⟩
    omega
  · rintro ⟨h1, h2, h3, h4⟩
    refine ⟨(r + 10 * c).toNat, by omega, by omega, by omega⟩

theorem siblingSamples_nodup : siblingSamples.Nodup := by
  unfold siblingSamples
  refine List.Nodup.map_on ?_ (List.nodup_range 100)
  intro x hx y hy h
  simp only [List.mem_range, Prod.mk.injEq] at hx hy h
  omega

theorem siblingSamples_length : siblingSamples.length = 100 := by
  simp [siblingSamples]

omit [DecidableEq Idx] in
theorem forEach_map {γ δ : Type} (g : γ → δ) (xs : List γ) (body : δ → Check Idx PIdx Unit) :
    forEach (xs.map g) body = forEach xs fun x => body (g x) := by
  induction xs with
  | nil => rfl
  | cons x xs ih =>
    simp only [List.map_cons]
    unfold forEach
    rw [ih]

omit [DecidableEq Idx] in
/-- A counting loop with a constant bound is a `foreach` over its range. -/
theorem forLoop.go_eq_forEach (n : Int) (body : Int → Unit → Check Idx PIdx Unit) (c : Config) :
    ∀ (k : Nat) (i : Int), forLoop.go (pure n) body k i () c
      = forEach ((List.range k).map fun t : Nat => i + (t : Int)) (fun x => body x ()) c := by
  intro k
  induction k with
  | zero => intro i; rfl
  | succ k ih =>
    intro i
    rw [List.range_succ_eq_map, List.map_cons, List.map_map]
    unfold forLoop.go forEach
    simp only [CM.bind_apply, CM.pure_apply, Run.andThen_done_eq, Run.prepend_nil_eq, Nat.cast_zero,
      add_zero]
    congr 1
    funext u
    rw [ih (i + 1)]
    have hfun : (fun t : Nat => i + 1 + (t : Int)) = (fun t : Nat => i + (t : Int)) ∘ Nat.succ :=
      funext fun t => by simp only [Function.comp, Nat.cast_succ]; omega
    rw [hfun]

omit [DecidableEq Idx] in
/-- The sibling loop of `testModelIndex` checks the sampled pairs one after the other. -/
theorem siblingLoop_eq (g : Int → Int → Bool) (s : String) (c : Config) :
    forLoop 0 (pure 100) () (fun i _ => (test (g (i % 10) (i / 10)) s : Check Idx PIdx Unit)) c
      = forEach siblingSamples (fun rc => test (g rc.1 rc.2) s) c := by
  unfold forLoop
  simp only [CM.bind_apply, CM.pure_apply, Run.andThen_done_eq, Run.prepend_nil_eq]
  rw [show ((100 : Int) - 0).toNat = 100 from rfl, forLoop.go_eq_forEach]
  unfold siblingSamples
  rw [forEach_map, forEach_map]
  simp

theorem dataMessage_ne (x : String) :
    "An invalid index can't have valid data: " ++ x ≠ siblingMessage := by
  intro h
  have h1 := congrArg (fun s : String => s.data.take 35) h
  simp only [String.data_append] at h1
  rw [List.take_append_of_le_length (by decide)] at h1
  revert h1
  decide

omit [DecidableEq Idx] in
/-- A check in either mode: the same events, and a `throw` only with `throwOnError`. -/
theorem test_eq_checkEvents (result : Bool) (errorString : String) (c : Config) :
    (test result errorString : Check Idx PIdx Unit) c
      = ⟨checkEvents result errorString,
          if result then .done () else if c.ThrowOnError then .raised errorString else .done ()⟩ := by
  obtain ⟨cm, ct⟩ := c
  cases result <;> cases ct <;> rfl

omit [DecidableEq Idx] in
theorem siblingTests_cons (e : Event Idx PIdx) (rest : List (Event Idx PIdx)) :
    siblingTests (e :: rest) = siblingTests [e] ++ siblingTests rest := by
  cases e <;> simp [siblingTests]
  split <;> simp

omit [DecidableEq Idx] in
theorem siblingTests_append (a b : List (Event Idx PIdx)) :
    siblingTests (a ++ b) = siblingTests a ++ siblingTests b := by
  induction a with
  | nil => rfl
  | cons e a ih => rw [List.cons_append, siblingTests_cons, ih, siblingTests_cons e a, List.append_assoc]

omit [DecidableEq Idx] in
theorem siblingTests_checkEvents (result : Bool) (errorString : String) :
    siblingTests (checkEvents result errorString : List (Event Idx PIdx))
      = if errorString = siblingMessage then [result] else [] := by
  cases result <;> simp [checkEvents, siblingTests]

omit [DecidableEq Idx] in
theorem logged_checkEvents (result : Bool) (errorString : String) :
    logged (checkEvents result errorString : List (Event Idx PIdx))
      = if result then [] else [errorString] := by
  cases result <;> simp [checkEvents]

omit [DecidableEq Idx] in
/-- Without `throwOnError`, a `foreach` of checks evaluates every one of them. -/
theorem forEach_test_log {γ : Type} (xs : List γ) (g : γ → Bool) (s : String) (m : Option Nat) :
    forEach xs (fun x => (test (g x) s : Check Idx PIdx Unit)) ⟨m, false⟩
      = ⟨xs.flatMap fun x => checkEvents (g x) s, .done ()⟩ := by
  induction xs with
  | nil => rfl
  | cons x xs ih =>
    unfold forEach
    simp only [CM.bind_apply, test_eq_checkEvents, ih, List.flatMap_cons]
    cases g x <;> simp

omit [DecidableEq Idx] in
/-- With `throwOnError`, a `foreach` of checks raises at the first one that fails. -/
theorem forEach_test_throw {γ : Type} (xs : List γ) (g : γ → Bool) (s : String) (m : Option Nat) :
    (forEach xs (fun x => (test (g x) s : Check Idx PIdx Unit)) ⟨m, true⟩).out
      = if xs.all g then .done () else .raised s := by
  induction xs with
  | nil => rfl
  | cons x xs ih =>
    unfold forEach
    simp only [CM.bind_apply, test_eq_checkEvents, List.all_cons]
    by_cases hg : g x = true <;> simp [hg, ih]

omit [DecidableEq Idx] in
theorem siblingTests_flatMap {γ : Type} (xs : List γ) (g : γ → Bool) :
    siblingTests (xs.flatMap fun x => (checkEvents (g x) siblingMessage : List (Event Idx PIdx)))
      = xs.map g := by
  induction xs with
  | nil => rfl
  | cons x xs ih => simp [List.flatMap_cons, siblingTests_append, siblingTests_checkEvents, ih]

omit [DecidableEq Idx] in
theorem logged_flatMap {γ : Type} (xs : List γ) (g : γ → Bool) (s : String) :
    s ∈ logged (xs.flatMap fun x => (checkEvents (g x) s : List (Event Idx PIdx)))
      ↔ ∃ x ∈ xs, g x = false := by
  induction xs with
  | nil => simp
  | cons x xs ih =>
    simp only [List.flatMap_cons, logged_append, List.mem_append, ih, logged_checkEvents,
      List.mem_cons, exists_eq_or_imp]
    cases g x <;> simp

omit [DecidableEq Idx] in
theorem Run.silent_andThen {α β : Type} (x : Run (Event Idx PIdx) α)
    (f : α → Run (Event Idx PIdx) β) (hx : x.silent) (hf : ∀ a, (f a).silent) :
    (x.andThen f).silent := by
  obtain ⟨xt, xo⟩ := x
  obtain ⟨h1, h2, h3⟩ := hx
  simp only at h1 h2 h3
  cases xo with
  | done a =>
    obtain ⟨g1, g2, g3⟩ := hf a
    simp only [Run.andThen_done_eq]
    refine ⟨?_, ?_, ?_⟩
    · simp [Run.prepend, siblingTests_append, h1, g1]
    · simp [Run.prepend, h2, g2]
    · simpa [Run.prepend] using g3
  | raised m => exact ⟨by simpa using h1, by simpa using h2, by simpa using h3⟩
  | undefined => exact ⟨by simpa using h1, by simpa using h2, by simp⟩
  | outOfFuel => exact ⟨by simpa using h1, by simpa using h2, by simp⟩

omit [DecidableEq Idx] in
theorem test_silent (result : Bool) (errorString : String) (c : Config)
    (h : errorString ≠ siblingMessage) :
    ((test result errorString : Check Idx PIdx Unit) c).silent := by
  obtain ⟨cm, ct⟩ := c
  have h' := Ne.symm h
  cases result <;> cases ct <;>
    simp [Run.silent, test_eq_checkEvents, siblingTests_checkEvents, logged_checkEvents, h, h']

omit [DecidableEq Idx] in
theorem viaModel_silent {α : Type} (e : Event Idx PIdx) (a : α) (c : Config)
    (h1 : siblingTests [e] = []) (h2 : logged [e] = []) : (viaModel e a c).silent := by
  obtain ⟨cm, ct⟩ := c
  cases cm <;> simp [Run.silent, h1, h2, siblingTests]

omit [DecidableEq Idx] in
theorem testParentChecks_silent (p : Idx) (c : Config) : (testParentChecks M p c).silent := by
  unfold testParentChecks
  simp only [CM.bind_apply, CM.ite_apply]
  refine Run.silent_andThen _ _ (viaModel_silent _ _ _ rfl rfl) fun h => ?_
  split
  · exact Run.silent_andThen _ _ (viaModel_silent _ _ _ rfl rfl) fun _ =>
      test_silent _ _ _ (by decide)
  · refine Run.silent_andThen _ _ (viaModel_silent _ _ _ rfl rfl) fun _ => ?_
    refine Run.silent_andThen _ _ (test_silent _ _ _ (by decide)) fun _ => ?_
    refine Run.silent_andThen _ _ (viaModel_silent _ _ _ rfl rfl) fun _ => ?_
    split
    · exact Run.silent_andThen _ _ ⟨rfl, by simp, by simp⟩ fun _ =>
        test_silent _ _ _ (by decide)
    · exact Run.silent_andThen _ _ (viaModel_silent _ _ _ rfl rfl) fun _ =>
        test_silent _ _ _ (by decide)

/-- What follows the sibling loop for an invalid index, `testData` and
`testParent`, evaluates no sibling check and reports no sibling violation. -/
theorem afterSiblings_silent (fuel : Nat) (a : Idx) (c : Config) (hv : M.isValid a = false) :
    ((testData M a c).andThen fun _ => testParent M fuel a c).silent := by
  refine Run.silent_andThen _ _ ?_ fun _ => ?_
  · unfold testData
    simp only [CM.bind_apply, CM.emit_apply, Run.andThen_done_eq, hv, Bool.not_false, if_true,
      CM.ite_apply]
    have := @test_silent Idx PIdx (!M.dataIsValid a) _ c
      (dataMessage_ne (M.dataToString a))
    obtain ⟨g1, g2, g3⟩ := this
    exact ⟨by simpa [Run.prepend, siblingTests_append, siblingTests] using g1,
      by simpa [Run.prepend] using g2, by simpa [Run.prepend] using g3⟩
  · cases fuel with
    | zero => exact ⟨rfl, by simp [testParent], by simp [testParent]⟩
    | succ f =>
      rw [testParent_succ]
      simp only [hv, if_true]
      have := Run.silent_andThen _ (fun _ => (⟨[], .done ()⟩ : Run (Event Idx PIdx) Unit))
        (testParentChecks_silent M a c) (fun _ => ⟨rfl, by simp, by simp⟩)
      obtain ⟨g1, g2, g3⟩ := this
      exact ⟨by simpa [Run.prepend, siblingTests_append, siblingTests] using g1,
        by simpa [Run.prepend] using g2, by simpa [Run.prepend] using g3⟩

/-- The run of `testModelIndex` on an invalid index without `throwOnError`:
the six checks, the hundred sibling checks, then `testData` and `testParent`. -/
theorem testModelIndex_invalid_log (fuel : Nat) (a : Idx) (m : Option Nat)
    (hv : M.isValid a = false) :
    ∃ pre : List (Event Idx PIdx), siblingTests pre = [] ∧ siblingMessage ∉ logged pre ∧
      testModelIndex M fuel a ⟨m, false⟩
        = (((testData M a ⟨m, false⟩).andThen fun _ => testParent M fuel a ⟨m, false⟩).prepend
            (siblingSamples.flatMap fun rc =>
              checkEvents (M.isValid (M.sibling a rc.1 rc.2) == false) siblingMessage)).prepend
            pre := by
  unfold testModelIndex testModelIndexWith
  simp only [CM.bind_apply, CM.emit_apply, CM.read_apply, Run.andThen_done_eq, hv, Bool.not_false,
    if_true, CM.ite_apply, test_eq_checkEvents, Bool.false_eq_true, if_false, ite_self,
    siblingLoop_eq (fun r c => M.isValid (M.sibling a r c) == false), forEach_test_log]
  refine ⟨[.testModelIndex a]
      ++ checkEvents (M.model a == none) "An invalid index can't have a valid model."
      ++ checkEvents (M.model a != m) "An invalid index can't have a valid model."
      ++ checkEvents (M.column a == -1) "An invalid index can't have a valid column."
      ++ checkEvents (M.row a == -1) "An invalid index can't have a valid row."
      ++ checkEvents (M.isValid (M.parent a) == false) "An invalid index can't have a valid row."
      ++ checkEvents (M.row a == -1) "An invalid index can't have a valid row.", ?_, ?_, ?_⟩
  · have e1 : ("An invalid index can't have a valid model." = siblingMessage) = False :=
      eq_false (by decide)
    have e2 : ("An invalid index can't have a valid column." = siblingMessage) = False :=
      eq_false (by decide)
    have e3 : ("An invalid index can't have a valid row." = siblingMessage) = False :=
      eq_false (by decide)
    have e0 : siblingTests ([.testModelIndex a] : List (Event Idx PIdx)) = [] := rfl
    simp only [siblingTests_append, siblingTests_checkEvents, e0, e1, e2, e3, if_false,
      List.append_nil]
  · have e1 : (siblingMessage = "An invalid index can't have a valid model.") = False :=
      eq_false (by decide)
    have e2 : (siblingMessage = "An invalid index can't have a valid column.") = False :=
      eq_false (by decide)
    have e3 : (siblingMessage = "An invalid index can't have a valid row.") = False :=
      eq_false (by decide)
    simp only [logged_append, logged_checkEvents, List.mem_append, logged_testModelIndex_cons,
      logged_nil, List.not_mem_nil, false_or, not_or]
    refine ⟨⟨⟨⟨⟨?_, ?_⟩, ?_⟩, ?_⟩, ?_⟩, ?_⟩ <;> split <;> simp [e1, e2, e3]
  · simp [Run.prepend, List.append_assoc, siblingMessage]

omit [DecidableEq Idx] in
theorem Run.andThen_out_raised_iff {α β : Type} (x : Run (Event Idx PIdx) α)
    (f : α → Run (Event Idx PIdx) β) (s : String) :
    (x.andThen f).out = .raised s ↔
      x.out = .raised s ∨ ∃ a, x.out = .done a ∧ (f a).out = .raised s := by
  obtain ⟨xt, xo⟩ := x
  cases xo <;> simp

omit [DecidableEq Idx] in
theorem test_out_raised_iff (result : Bool) (errorString s : String) (m : Option Nat) :
    ((test result errorString : Check Idx PIdx Unit) ⟨m, true⟩).out = .raised s
      ↔ result = false ∧ errorString = s := by
  cases result <;> simp [test_eq_checkEvents]

omit [DecidableEq Idx] in
theorem test_out_done_iff (result : Bool) (errorString : String) (m : Option Nat) (u : Unit) :
    ((test result errorString : Check Idx PIdx Unit) ⟨m, true⟩).out = .done u
      ↔ result = true := by
  cases result <;> simp [test_eq_checkEvents]

omit [DecidableEq Idx] in
theorem forEach_test_raised_iff {γ : Type} (xs : List γ) (g : γ → Bool) (s s' : String)
    (m : Option Nat) :
    (forEach xs (fun x => (test (g x) s : Check Idx PIdx Unit)) ⟨m, true⟩).out = .raised s'
      ↔ (∃ x ∈ xs, g x = false) ∧ s = s' := by
  rw [forEach_test_throw]
  by_cases h : xs.all g = true
  · have h' := h
    rw [List.all_eq_true] at h'
    simp only [h, if_true, reduceCtorEq, false_iff, not_and]
    rintro ⟨x, hx, hg⟩
    rw [h' x hx] at hg
    cases hg
  · have h' := h
    rw [List.all_eq_true] at h'
    push_neg at h'
    obtain ⟨x, hx, hg⟩ := h'
    simp only [h, if_false, Outcome.raised.injEq, Bool.false_eq_true]
    exact ⟨fun e => ⟨⟨x, hx, by simpa using hg⟩, e⟩, fun e => e.2⟩

omit [DecidableEq Idx] in
theorem forEach_test_done_iff {γ : Type} (xs : List γ) (g : γ → Bool) (s : String)
    (m : Option Nat) (u : Unit) :
    (forEach xs (fun x => (test (g x) s : Check Idx PIdx Unit)) ⟨m, true⟩).out = .done u
      ↔ ∀ x ∈ xs, g x = true := by
  rw [forEach_test_throw]
  by_cases h : xs.all g = true
  · simp only [h, if_true, true_iff]
    exact List.all_eq_true.1 h
  · simp only [h, if_false, reduceCtorEq, Bool.false_eq_true, false_iff]
    intro h'
    exact h (List.all_eq_true.2 h')

/-- With `throwOnError`, `testModelIndex` on an invalid index that fails one of
the checks before the sibling loop evaluates no sibling check. -/
theorem testModelIndex_invalid_throw_trace (fuel : Nat) (a : Idx) (m : Option Nat)
    (hv : M.isValid a = false) (hc : invalidChecks M a m = false) :
    siblingTests (testModelIndex M fuel a ⟨m, true⟩).trace = [] := by
  have e0 : siblingTests ([.testModelIndex a] : List (Event Idx PIdx)) = [] := rfl
  have e1 : ("An invalid index can't have a valid model." = siblingMessage) = False :=
    eq_false (by decide)
  have e2 : ("An invalid index can't have a valid column." = siblingMessage) = False :=
    eq_false (by decide)
  have e3 : ("An invalid index can't have a valid row." = siblingMessage) = False :=
    eq_false (by decide)
  unfold invalidChecks at hc
  unfold testModelIndex testModelIndexWith
  simp only [CM.bind_apply, CM.emit_apply, CM.read_apply, Run.andThen_done_eq, hv,
    Bool.not_false, if_true, CM.ite_apply, test_eq_checkEvents]
  by_cases h1 : (M.model a == none) = true <;> by_cases h2 : (M.model a != m) = true <;>
    by_cases h3 : (M.column a == -1) = true <;> by_cases h4 : (M.row a == -1) = true <;>
    by_cases h5 : (M.isValid (M.parent a) == false) = true <;>
    simp only [h1, h2, h3, h4, h5, Bool.and_self, Bool.true_eq_false] at hc <;>
    simp only [h1, h2, h3, h4, h5, if_true, if_false, Run.andThen_done_eq, Run.andThen_raised_eq,
      Run.prepend_trace_eq, Run.prepend_mk_eq, siblingTests_append, siblingTests_checkEvents,
      e0, e1, e2, e3, List.append_nil, Bool.false_eq_true] <;>
    rfl

/-- C19 amended: the sibling grid.  The sampled pairs `(i % 10, i / 10)`,
`i = 0 .. 99`, are the 10 x 10 grid, each pair once.  For an invalid index,
without `throwOnError` `testModelIndex` evaluates the sibling check on every
sampled pair, in order, and logs the sibling violation iff some sampled
sibling is valid; with `throwOnError` it raises the sibling violation iff the
checks before the loop pass and some sampled sibling is valid, and it
evaluates no sibling check when one of the checks before the loop fails. -/
theorem testModelIndex_siblings (fuel : Nat) (a : Idx) (m : Option Nat)
    (hv : M.isValid a = false) :
    (siblingSamples.length = 100 ∧ siblingSamples.Nodup
      ∧ ∀ r c : Int, (r, c) ∈ siblingSamples ↔ 0 ≤ r ∧ r < 10 ∧ 0 ≤ c ∧ c < 10)
    ∧ siblingTests (testModelIndex M fuel a ⟨m, false⟩).trace
        = siblingSamples.map (fun rc => M.isValid (M.sibling a rc.1 rc.2) == false)
    ∧ (siblingMessage ∈ logged (testModelIndex M fuel a ⟨m, false⟩).trace
        ↔ ∃ rc ∈ siblingSamples, M.isValid (M.sibling a rc.1 rc.2) = true)
    ∧ ((testModelIndex M fuel a ⟨m, true⟩).out = .raised siblingMessage
        ↔ invalidChecks M a m = true
          ∧ ∃ rc ∈ siblingSamples, M.isValid (M.sibling a rc.1 rc.2) = true)
    ∧ (invalidChecks M a m = false →
        siblingTests (testModelIndex M fuel a ⟨m, true⟩).trace = []) := by
  obtain ⟨pre, hp1, hp2, hrun⟩ := testModelIndex_invalid_log M fuel a m hv
  obtain ⟨hs1, hs2, hs3⟩ := afterSiblings_silent M fuel a ⟨m, false⟩ hv
  refine ⟨⟨siblingSamples_length, siblingSamples_nodup, mem_siblingSamples⟩, ?_, ?_, ?_,
    testModelIndex_invalid_throw_trace M fuel a m hv⟩
  · rw [hrun]
    simp only [Run.prepend_trace_eq, siblingTests_append, hp1, hs1, siblingTests_flatMap,
      List.nil_append, List.append_nil]
  · rw [hrun]
    simp only [Run.prepend_trace_eq, logged_append, List.mem_append, hp2, hs2, false_or, or_false,
      logged_flatMap]
    simp
  · have hs := (afterSiblings_silent M fuel a ⟨m, true⟩ hv).2.2
    have e1 : ("An invalid index can't have a valid model." = siblingMessage) = False :=
      eq_false (by decide)
    have e2 : ("An invalid index can't have a valid column." = siblingMessage) = False :=
      eq_false (by decide)
    have e3 : ("An invalid index can't have a valid row." = siblingMessage) = False :=
      eq_false (by decide)
    unfold testModelIndex testModelIndexWith invalidChecks
    simp only [CM.bind_apply, CM.emit_apply, CM.read_apply, Run.andThen_done_eq, hv,
      Bool.not_false, if_true, CM.ite_apply, Run.prepend_out_eq,
      siblingLoop_eq (fun r c => M.isValid (M.sibling a r c) == false),
      Run.andThen_out_raised_iff, test_out_raised_iff, test_out_done_iff, forEach_test_raised_iff,
      forEach_test_done_iff, e1, e2, e3, and_false, false_or, exists_const, hs, Bool.and_eq_true]
    have e4 : "An invalid index can't have valid sibling." = siblingMessage := rfl
    simp only [e4, and_true, or_false]
    constructor
    · rintro ⟨h1, h2, h3, h4, h5, _, x, hx, hg⟩
      exact ⟨⟨⟨⟨⟨h1, h2⟩, h3⟩, h4⟩, h5⟩, x, hx, by simpa using hg⟩
    · rintro ⟨⟨⟨⟨⟨h1, h2⟩, h3⟩, h4⟩, h5⟩, x, hx, hg⟩
      exact ⟨h1, h2, h3, h4, h5, h4, x, hx, by simpa using hg⟩

/-- C19 amended, on a flat 1 x 1 table: the invalid index has no valid
sibling, and all hundred sibling checks pass. -/
theorem testModelIndex_siblings_witness :
    (tableModel 1 1 1 id).isValid [] = false
    ∧ siblingTests (testModelIndex (tableModel 1 1 1 id) 1 [] ⟨some 1, false⟩).trace
        = List.replicate 100 true
    ∧ siblingMessage ∉ logged (testModelIndex (tableModel 1 1 1 id) 1 [] ⟨some 1, false⟩).trace :=
  have h := testModelIndex_siblings (tableModel 1 1 1 id) 1 [] (some 1) (by decide)
  ⟨by decide, h.2.1.trans (by decide), fun hm => by
    obtain ⟨rc, _, hrc⟩ := h.2.2.1.1 hm
    simp [tableModel, treeModel] at hrc⟩

/-- C19 as stated fails with `throwOnError`: the invalid index of
`createdInvalid` carries the model pointer and its sampled sibling (0, 0) is
valid, yet `testModelIndex` raises on its first check, having evaluated no
sibling check and reported no sibling violation. -/
theorem testModelIndex_raises_before_siblings :
    createdInvalid.isValid [] = false
    ∧ ((0 : Int), (0 : Int)) ∈ siblingSamples
    ∧ createdInvalid.isValid (createdInvalid.sibling [] 0 0) = true
    ∧ (testModelIndex createdInvalid 1 [] ⟨some 1, true⟩).out
        = .raised "An invalid index can't have a valid model."
    ∧ siblingTests (testModelIndex createdInvalid 1 [] ⟨some 1, true⟩).trace = []
    ∧ siblingMessage ∉ logged (testModelIndex createdInvalid 1 [] ⟨some 1, true⟩).trace := by
  refine ⟨by decide, by decide, by decide, by decide, by decide, by decide⟩

/-! ## The layout snapshot -/

theorem mem_cells (rows cols i j : Int) :
    (i, j) ∈ cells rows cols ↔ 0 ≤ i ∧ i < rows ∧ 0 ≤ j ∧ j < cols := by
  unfold cells
  simp only [List.mem_flatMap, List.mem_range, List.mem_map, Prod.mk.injEq]
  constructor
  · rintro ⟨a, ha, b, hb, rfl, rfl⟩
    omega
  · rintro ⟨h1, h2, h3, h4⟩
    exact ⟨i.toNat, by omega, j.toNat, by omega, by omega, by omega⟩

theorem cells_nodup (rows cols : Int) : (cells rows cols).Nodup := by
  unfold cells
  rw [List.nodup_flatMap]
  refine ⟨fun a _ => ?_, ?_⟩
  · refine List.Nodup.map ?_ (List.nodup_range _)
    intro x y h
    simp only [Prod.mk.injEq, Nat.cast_inj, true_and] at h
    exact h
  · refine List.Pairwise.imp_of_mem ?_ (List.nodup_range rows.toNat)
    intro a b _ _ hab
    simp only [Function.onFun, List.Disjoint, List.mem_map, Prod.forall, Prod.mk.injEq]
    rintro x y ⟨_, _, h1, _⟩ ⟨_, _, h2, _⟩
    omega

omit [DecidableEq Idx] in
theorem mem_walks (n : Nat) :
    ∀ (p : Idx) (w : List (Int × Int)),
      w ∈ walks M n p ↔ w ≠ [] ∧ InRange M p w ∧ w.length ≤ n := by
  induction n with
  | zero =>
    intro p w
    cases w <;> simp [walks]
  | succ n ih =>
    intro p w
    cases w with
    | nil => simp [walks]
    | cons ij rest =>
      obtain ⟨i, j⟩ := ij
      simp only [walks, List.mem_flatMap, List.mem_cons, List.mem_map, Prod.exists, mem_cells,
        List.cons.injEq, ne_eq, reduceCtorEq, not_false_eq_true, true_and, InRange,
        List.length_cons, Nat.add_le_add_iff_right, ih]
      constructor
      · rintro ⟨a, b, hab, ⟨h, rfl⟩ | ⟨w, ⟨_, hw, hl⟩, h, rfl⟩⟩
        · cases h
          exact ⟨⟨hab, trivial⟩, Nat.zero_le _⟩
        · cases h
          exact ⟨⟨hab, hw⟩, hl⟩
      · rintro ⟨⟨hab, hw⟩, hl⟩
        refine ⟨i, j, hab, ?_⟩
        cases rest with
        | nil => exact .inl ⟨rfl, rfl⟩
        | cons x xs => exact .inr ⟨x :: xs, ⟨by simp, hw, hl⟩, rfl, rfl⟩

omit [DecidableEq Idx] in
theorem walks_nodup (n : Nat) : ∀ p : Idx, (walks M n p).Nodup := by
  induction n with
  | zero => intro p; simp [walks]
  | succ n ih =>
    intro p
    unfold walks
    rw [List.nodup_flatMap]
    refine ⟨fun ij _ => ?_, ?_⟩
    · rw [List.nodup_cons]
      refine ⟨?_, ?_⟩
      · simp only [List.mem_map, List.cons.injEq, true_and, not_exists, not_and]
        intro w hw e
        subst e
        exact ((mem_walks M n _ _).1 hw).1 rfl
      · exact List.Nodup.map (fun x y h => (List.cons.inj h).2) (ih _)
    · refine List.Pairwise.imp_of_mem ?_ (cells_nodup _ _)
      intro a b _ _ hab
      simp only [Function.onFun, List.Disjoint, List.mem_cons, List.mem_map]
      rintro w (rfl | ⟨_, _, rfl⟩) (h | ⟨_, _, h⟩) <;>
        first | exact hab (List.cons.inj h).1 | exact hab (List.cons.inj h).1.symm

omit [DecidableEq Idx] in
/-- One level of `persistentModelIndexes`: with a bound model, if the call on
every in-range child returns `R i j`, the call on `p` returns, for each
in-range cell in row-major order, the child's persistent address followed by
`R i j`. -/
theorem persistentModelIndexes_succ_out (f : Nat) (p : Idx) (c : Config) (m : Nat)
    (hM : c.Model = some m) (R : Int → Int → List PIdx)
    (hrec : ∀ i j, 0 ≤ i → i < M.rowCount p → 0 ≤ j → j < M.columnCount p →
      (persistentModelIndexes M f (M.deref (M.persist (M.index i j p))) c).out = .done (R i j)) :
    (persistentModelIndexes M (f + 1) p c).out
      = .done ((cells (M.rowCount p) (M.columnCount p)).flatMap fun ij =>
          M.persist (M.index ij.1 ij.2 p) :: R ij.1 ij.2) := by
  rw [persistentModelIndexes]
  simp only [CM.bind_apply, CM.emit_apply, Run.andThen_done_eq, Run.prepend_out_eq]
  rw [forLoop_out_append 0 (M.rowCount p) _ _ c
    (fun i => (List.range (M.columnCount p).toNat).flatMap fun j : Nat =>
      M.persist (M.index i j p) :: R i j) []
    (show (dModel.rowCount M p c).out = .done (M.rowCount p) from viaModel_out _ _ c m hM)]
  · simp [cells, List.flatMap_assoc, List.flatMap_map]
  · intro i acc hi hi'
    rw [forLoop_out_append 0 (M.columnCount p) _ _ c
      (fun j => M.persist (M.index i j p) :: R i j) acc
      (show (dModel.columnCount M p c).out = .done (M.columnCount p) from
        viaModel_out _ _ c m hM)]
    · simp
    · intro j acc' hj hj'
      simp only [CM.bind_apply]
      rw [Run.andThen_out_of_done _ _ _
          (show (dModel.index M i j p c).out = .done (M.index i j p) from
            viaModel_out _ _ c m hM),
        Run.andThen_out_of_done _ _ _ (hrec i j hi hi' hj hj')]
      simp

omit [DecidableEq Idx] in
/-- The snapshot of a hierarchy of depth at most `n` below `p`: the persistent
addresses of the nodes of `walks`, in that order. -/
theorem persistentModelIndexes_walks (c : Config) (m : Nat) (hM : c.Model = some m)
    (hvalid : ∀ p i j, 0 ≤ i → i < M.rowCount p → 0 ≤ j → j < M.columnCount p →
      M.isValid (M.index i j p) = true)
    (hrt : ∀ x, M.isValid x = true → M.deref (M.persist x) = x) (n : Nat) :
    ∀ (p : Idx) (fuel : Nat), (∀ w, InRange M p w → w.length ≤ n) → n < fuel →
      (persistentModelIndexes M fuel p c).out
        = .done ((walks M n p).map fun w => M.persist (follow M p w)) := by
  induction n with
  | zero =>
    intro p fuel hfin hfuel
    obtain ⟨f, rfl⟩ : ∃ f, fuel = f + 1 := ⟨fuel - 1, by omega⟩
    have hnone : cells (M.rowCount p) (M.columnCount p) = [] := by
      rw [List.eq_nil_iff_forall_not_mem]
      rintro ⟨i, j⟩ hij
      have := hfin [(i, j)] ⟨(mem_cells _ _ _ _).1 hij, trivial⟩
      simp at this
    rw [persistentModelIndexes_succ_out M f p c m hM (fun _ _ => []), hnone]
    · rfl
    · intro i j hi hi' hj hj'
      have := (mem_cells (M.rowCount p) (M.columnCount p) i j).2 ⟨hi, hi', hj, hj'⟩
      rw [hnone] at this
      cases this
  | succ n ih =>
    intro p fuel hfin hfuel
    obtain ⟨f, rfl⟩ : ∃ f, fuel = f + 1 := ⟨fuel - 1, by omega⟩
    rw [persistentModelIndexes_succ_out M f p c m hM
      (fun i j => (walks M n (M.index i j p)).map fun w => M.persist (follow M (M.index i j p) w))]
    · simp only [walks, List.map_flatMap, List.map_cons, List.map_map, follow, Function.comp_def]
    · intro i j hi hi' hj hj'
      rw [hrt _ (hvalid p i j hi hi' hj hj')]
      refine ih _ f (fun w hw => ?_) (by omega)
      have := hfin ((i, j) :: w) ⟨⟨hi, hi', hj, hj'⟩, hw⟩
      simpa using this

/-- C14: layout snapshot contents.  For a bound model in which every in-range
index is valid (and a valid index is what its persistent address stands for)
and whose hierarchy is finite (no in-range sequence of steps from the root is
longer than `n`), `persistentModelIndexes(QModelIndex())` returns, and
`onLayoutAboutToBeChanged` records, the persistent addresses of `walks`: the
nodes reachable from the root through in-range (row, column) steps, each node
exactly once, in depth-first pre-order with row-major order among siblings.
The length of the snapshot is the number of nodes, and the snapshot has no
repetition when different nodes have different persistent addresses. -/
theorem onLayoutAboutToBeChanged_snapshot (n fuel : Nat) (d : ctkModelTesterPrivate Idx PIdx)
    (m : Nat) (hM : d.Model = some m)
    (hvalid : ∀ p i j, 0 ≤ i → i < M.rowCount p → 0 ≤ j → j < M.columnCount p →
      M.isValid (M.index i j p) = true)
    (hrt : ∀ x, M.isValid x = true → M.deref (M.persist x) = x)
    (hfin : ∀ w, InRange M M.nullIndex w → w.length ≤ n) (hfuel : n < fuel) :
    (persistentModelIndexes M fuel M.nullIndex d.config).out
        = .done ((walks M n M.nullIndex).map fun w => M.persist (follow M M.nullIndex w))
    ∧ (onLayoutAboutToBeChanged M fuel d).state.LayoutAboutToBeChanged
        = (walks M n M.nullIndex).map (fun w => M.persist (follow M M.nullIndex w))
    ∧ (walks M n M.nullIndex).Nodup
    ∧ (∀ w, w ∈ walks M n M.nullIndex ↔ w ≠ [] ∧ InRange M M.nullIndex w)
    ∧ (onLayoutAboutToBeChanged M fuel d).state.LayoutAboutToBeChanged.length
        = (walks M n M.nullIndex).length
    ∧ ((∀ w ∈ walks M n M.nullIndex, ∀ w' ∈ walks M n M.nullIndex,
          M.persist (follow M M.nullIndex w) = M.persist (follow M M.nullIndex w') → w = w') →
        (onLayoutAboutToBeChanged M fuel d).state.LayoutAboutToBeChanged.Nodup) := by
  have hout := persistentModelIndexes_walks M d.config m hM hvalid hrt n M.nullIndex fuel hfin hfuel
  have hstate : (onLayoutAboutToBeChanged M fuel d).state.LayoutAboutToBeChanged
      = (walks M n M.nullIndex).map fun w => M.persist (follow M M.nullIndex w) := by
    obtain ⟨dm, dt, dn, di, dr, dl⟩ := d
    unfold onLayoutAboutToBeChanged
    rcases hr : persistentModelIndexes M fuel M.nullIndex ⟨dm, dt⟩ with ⟨t, o⟩
    simp only [config_mk, hr] at hout
    subst hout
    simp only [TM.bind_run, Slot.liftM_run, Slot.monadLift_run, config_mk, hr,
      Result.andThen_done, Result.prepend_state, TM.modify_run, Result.andThen_state]
  refine ⟨hout, hstate, walks_nodup M n _, fun w => ?_, ?_, fun hinj => ?_⟩
  · rw [mem_walks]
    exact ⟨fun h => ⟨h.1, h.2.1⟩, fun h => ⟨h.1, h.2, hfin w h.2⟩⟩
  · rw [hstate, List.length_map]
  · rw [hstate]
    exact List.Nodup.map_on hinj (walks_nodup M n _)

/-- C14 on a table of two rows whose first cell has one child: the snapshot is
the first cell, its child, then the second cell. -/
theorem onLayoutAboutToBeChanged_snapshot_witness :
    (boundTester 1).Model = some 1
    ∧ (onLayoutAboutToBeChanged (treeModel 1 branching id) 3
        (boundTester 1)).state.LayoutAboutToBeChanged
        = [[(0, 0)], [(0, 0), (0, 0)], [(1, 0)]]
    ∧ walks (treeModel 1 branching id) 2 [] = [[(0, 0)], [(0, 0), (0, 0)], [(1, 0)]] :=
  have h := onLayoutAboutToBeChanged_snapshot (treeModel 1 branching id) 2 3 (boundTester 1) 1 rfl
    (fun p i j hi hi' hj hj' => by
      simp only [treeModel] at hi' hj' ⊢
      simp [inTable, hi, hi', hj, hj'])
    (fun _ _ => rfl)
    (fun w hw => by
      match w, hw with
      | [], _ => simp
      | [_], _ => simp
      | [_, _], _ => simp
      | (a1, a2) :: (b1, b2) :: (c1, c2) :: rest, ⟨ha, hb, hc, _⟩ =>
        exfalso
        have ha' : (a1 = 0 ∨ a1 = 1) ∧ a2 = 0 := by
          simp only [treeModel, branching, if_true] at ha
          omega
        obtain ⟨ha1 | ha1, ha2⟩ := ha' <;> subst ha1 ha2
        · have hb' : b1 = 0 ∧ b2 = 0 := by
            simp [treeModel, branching, inTable] at hb
            omega
          obtain ⟨rfl, rfl⟩ := hb'
          simp [treeModel, branching, inTable] at hc
          omega
        · simp [treeModel, branching, inTable] at hb
          omega)
    (by decide)
  ⟨rfl, h.2.1.trans (by decide), by decide⟩

/-! ## Properties of every event of a walk -/

omit [DecidableEq Idx] in
theorem Run.andThen_trace_forall {α β : Type} (P : Event Idx PIdx → Prop)
    (x : Run (Event Idx PIdx) α) (f : α → Run (Event Idx PIdx) β)
    (hx : ∀ e ∈ x.trace, P e) (hf : ∀ a, x.out = .done a → ∀ e ∈ (f a).trace, P e) :
    ∀ e ∈ (x.andThen f).trace, P e := by
  obtain ⟨xt, xo⟩ := x
  cases xo with
  | done a =>
    intro e he
    simp only [Run.andThen_done_eq, Run.prepend_trace_eq, List.mem_append] at he
    rcases he with he | he
    · exact hx e he
    · exact hf a rfl e he
  | raised m => simpa using hx
  | undefined => simpa using hx
  | outOfFuel => simpa using hx

omit [DecidableEq Idx] in
theorem forLoop.go_trace_forall {β : Type} (P : Event Idx PIdx → Prop)
    (bound : Check Idx PIdx Int) (body : Int → β → Check Idx PIdx β) (c : Config)
    (hb : ∀ e ∈ (bound c).trace, P e) :
    ∀ (k : Nat) (i : Int) (acc : β),
      (∀ t : Nat, t < k → ∀ acc, ∀ e ∈ (body (i + t) acc c).trace, P e) →
      ∀ e ∈ (forLoop.go bound body k i acc c).trace, P e := by
  intro k
  induction k with
  | zero => intro i acc _ e he; simp [forLoop.go] at he
  | succ k ih =>
    intro i acc hbody
    unfold forLoop.go
    simp only [CM.bind_apply]
    refine Run.andThen_trace_forall P _ _ ?_ fun acc' _ => ?_
    · simpa using hbody 0 (by omega) acc
    · refine Run.andThen_trace_forall P _ _ hb fun _ _ => ?_
      refine ih (i + 1) acc' fun t ht acc'' => ?_
      have := hbody (t + 1) (by omega) acc''
      rw [show i + ((t + 1 : Nat) : Int) = i + 1 + (t : Int) by push_cast; omega] at this
      exact this

omit [DecidableEq Idx] in
/-- A property of the events of the bound and of every in-range iteration holds
for every event of the loop. -/
theorem forLoop_trace_forall {β : Type} (P : Event Idx PIdx → Prop) (lo : Int)
    (bound : Check Idx PIdx Int) (init : β) (body : Int → β → Check Idx PIdx β) (c : Config)
    (hb : ∀ e ∈ (bound c).trace, P e)
    (hbody : ∀ n, (bound c).out = .done n → ∀ i acc, lo ≤ i → i < n →
      ∀ e ∈ (body i acc c).trace, P e) :
    ∀ e ∈ (forLoop lo bound init body c).trace, P e := by
  unfold forLoop
  simp only [CM.bind_apply]
  refine Run.andThen_trace_forall P _ _ hb fun n hn => ?_
  refine forLoop.go_trace_forall P bound body c hb _ lo init fun t ht acc => ?_
  exact hbody n hn _ acc (by omega) (by omega)

omit [DecidableEq Idx] in
theorem test_trace_forall (P : Event Idx PIdx → Prop) (result : Bool) (errorString : String)
    (c : Config) (h : ∀ e : Event Idx PIdx, e.isWalkStep = true → P e) :
    ∀ e ∈ ((test result errorString : Check Idx PIdx Unit) c).trace, P e := by
  intro e he
  rw [test_eq_checkEvents] at he
  cases result <;> simp [checkEvents] at he
  · rcases he with rfl | rfl <;> exact h _ rfl
  · subst he
    exact h _ rfl

omit [DecidableEq Idx] in
theorem viaModel_trace_forall {α : Type} (P : Event Idx PIdx → Prop) (ev : Event Idx PIdx)
    (a : α) (c : Config) (h : P ev) : ∀ e ∈ (viaModel ev a c).trace, P e := by
  obtain ⟨cm, ct⟩ := c
  cases cm <;> simp [h]

omit [DecidableEq Idx] in
theorem viaModel_out_eq {α : Type} (ev : Event Idx PIdx) (a b : α) (c : Config)
    (h : (viaModel ev a c).out = .done b) : b = a := by
  obtain ⟨cm, ct⟩ := c
  cases cm <;> simp at h
  exact h.symm

omit [DecidableEq Idx] in
theorem testData_trace_forall (P : Event Idx PIdx → Prop) (a : Idx) (c : Config)
    (h : ∀ e : Event Idx PIdx, e.isWalkStep = true → P e) :
    ∀ e ∈ (testData M a c).trace, P e := by
  unfold testData
  simp only [CM.bind_apply, CM.ite_apply]
  refine Run.andThen_trace_forall P _ _ ?_ fun _ _ => ?_
  · intro e he
    simp only [CM.emit_apply, List.mem_singleton] at he
    subst he
    exact h _ rfl
  · split <;> exact test_trace_forall P _ _ c h

omit [DecidableEq Idx] in
theorem testParentChecks_trace_forall (P : Event Idx PIdx → Prop) (p : Idx) (c : Config)
    (h : ∀ e : Event Idx PIdx, e.isWalkStep = true → P e) :
    ∀ e ∈ (testParentChecks M p c).trace, P e := by
  unfold testParentChecks
  simp only [CM.bind_apply, CM.ite_apply]
  refine Run.andThen_trace_forall P _ _ (viaModel_trace_forall P _ _ c (h _ rfl)) fun _ _ => ?_
  split
  · exact Run.andThen_trace_forall P _ _ (viaModel_trace_forall P _ _ c (h _ rfl)) fun _ _ =>
      test_trace_forall P _ _ c h
  · refine Run.andThen_trace_forall P _ _ (viaModel_trace_forall P _ _ c (h _ rfl)) fun _ _ => ?_
    refine Run.andThen_trace_forall P _ _ (test_trace_forall P _ _ c h) fun _ _ => ?_
    refine Run.andThen_trace_forall P _ _ (viaModel_trace_forall P _ _ c (h _ rfl)) fun _ _ => ?_
    split
    · exact Run.andThen_trace_forall P _ _ (by simp) fun _ _ => test_trace_forall P _ _ c h
    · exact Run.andThen_trace_forall P _ _ (viaModel_trace_forall P _ _ c (h _ rfl)) fun _ _ =>
        test_trace_forall P _ _ c h

theorem testModelIndexWith_trace_forall (P : Event Idx PIdx → Prop)
    (tp : Idx → Check Idx PIdx Unit) (a : Idx) (c : Config)
    (h : ∀ e : Event Idx PIdx, e.isWalkStep = true → P e) (ha : P (.testModelIndex a))
    (htp : ∀ e ∈ (tp a c).trace, P e) :
    ∀ e ∈ (testModelIndexWith M tp a c).trace, P e := by
  unfold testModelIndexWith
  simp only [CM.bind_apply, CM.ite_apply]
  refine Run.andThen_trace_forall P _ _ ?_ fun _ _ => ?_
  · intro e he
    simp only [CM.emit_apply, List.mem_singleton] at he
    subst he
    exact ha
  refine Run.andThen_trace_forall P _ _ (by simp) fun _ _ => ?_
  have hrest : ∀ e ∈ ((testData M a c).andThen fun _ => tp a c).trace, P e :=
    Run.andThen_trace_forall P _ _ (testData_trace_forall M P a c h) fun _ _ => htp
  split
  · refine Run.andThen_trace_forall P _ _ (test_trace_forall P _ _ c h) fun _ _ => ?_
    refine Run.andThen_trace_forall P _ _ (test_trace_forall P _ _ c h) fun _ _ => ?_
    refine Run.andThen_trace_forall P _ _ (test_trace_forall P _ _ c h) fun _ _ => ?_
    refine Run.andThen_trace_forall P _ _ (test_trace_forall P _ _ c h) fun _ _ => ?_
    refine Run.andThen_trace_forall P _ _ (test_trace_forall P _ _ c h) fun _ _ => ?_
    refine Run.andThen_trace_forall P _ _ (test_trace_forall P _ _ c h) fun _ _ => ?_
    refine Run.andThen_trace_forall P _ _ ?_ fun _ _ => hrest
    exact forLoop_trace_forall P _ _ _ _ c (by simp) fun _ _ _ _ _ _ =>
      test_trace_forall P _ _ c h
  · refine Run.andThen_trace_forall P _ _ (test_trace_forall P _ _ c h) fun _ _ => ?_
    refine Run.andThen_trace_forall P _ _ (test_trace_forall P _ _ c h) fun _ _ => ?_
    refine Run.andThen_trace_forall P _ _ (test_trace_forall P _ _ c h) fun _ _ => ?_
    exact Run.andThen_trace_forall P _ _ (test_trace_forall P _ _ c h) fun _ _ => hrest

/-- A property of the events of a walk: it holds for every event of
`testModelIndex(a)` when it holds for the steps of a walk and for the entries
at the addresses of a set `S` that contains `a` and the in-range children of
its valid members. -/
theorem testModelIndex_trace_forall (P : Event Idx PIdx → Prop) (S : Idx → Prop) (c : Config)
    (h : ∀ e : Event Idx PIdx, e.isWalkStep = true → P e)
    (hS : ∀ x, S x → P (.testModelIndex x) ∧ P (.testParent x))
    (hchild : ∀ p, S p → M.isValid p = true → ∀ i j, 0 ≤ i → i < M.rowCount p → 0 ≤ j →
      j < M.columnCount p → S (M.child p i j)) :
    ∀ (fuel : Nat) (a : Idx), S a → ∀ e ∈ (testModelIndex M fuel a c).trace, P e := by
  intro fuel
  induction fuel with
  | zero =>
    intro a ha
    exact testModelIndexWith_trace_forall M P _ a c h (hS a ha).1 (by simp [testParent])
  | succ f ih =>
    intro a ha
    refine testModelIndexWith_trace_forall M P _ a c h (hS a ha).1 ?_
    rw [testParent_succ]
    intro e he
    simp only [Run.prepend_trace_eq, List.mem_append, List.mem_singleton] at he
    rcases he with rfl | he
    · exact (hS a ha).2
    revert e
    refine Run.andThen_trace_forall P _ _ (testParentChecks_trace_forall M P a c h) fun _ _ => ?_
    cases hv : M.isValid a with
    | false => simp
    | true =>
      simp only [Bool.true_eq_false, if_false]
      unfold testParentChildren
      refine forLoop_trace_forall P _ _ _ _ c (viaModel_trace_forall P _ _ c (h _ rfl))
        fun n hn i _ hi hi' => ?_
      have hn' := viaModel_out_eq _ _ _ c hn
      subst hn'
      refine forLoop_trace_forall P _ _ _ _ c (viaModel_trace_forall P _ _ c (h _ rfl))
        fun k hk j _ hj hj' => ?_
      have hk' := viaModel_out_eq _ _ _ c hk
      subst hk'
      simp only [CM.bind_apply]
      refine Run.andThen_trace_forall P _ _ (viaModel_trace_forall P _ _ c (h _ rfl))
        fun _ _ => ?_
      refine Run.andThen_trace_forall P _ _ (test_trace_forall P _ _ c h) fun _ _ => ?_
      refine Run.andThen_trace_forall P _ _ (test_trace_forall P _ _ c h) fun _ _ => ?_
      exact ih _ (hchild a ha hv i j hi hi' hj hj')

/-- The same for `testModel`, from the in-range top-level addresses. -/
theorem testModel_trace_forall (P : Event Idx PIdx → Prop) (S : Idx → Prop) (c : Config)
    (h : ∀ e : Event Idx PIdx, e.isWalkStep = true → P e)
    (hS : ∀ x, S x → P (.testModelIndex x) ∧ P (.testParent x))
    (htop : ∀ i j, 0 ≤ i → i < M.rowCount M.nullIndex → 0 ≤ j → j < M.columnCount M.nullIndex →
      S (M.index i j M.nullIndex))
    (hchild : ∀ p, S p → M.isValid p = true → ∀ i j, 0 ≤ i → i < M.rowCount p → 0 ≤ j →
      j < M.columnCount p → S (M.child p i j))
    (fuel : Nat) : ∀ e ∈ (testModel M fuel c).trace, P e := by
  unfold testModel
  simp only [CM.bind_apply, CM.ite_apply]
  refine Run.andThen_trace_forall P _ _ ?_ fun _ _ => ?_
  · intro e he
    simp only [CM.emit_apply, List.mem_singleton] at he
    subst he
    exact h _ rfl
  refine Run.andThen_trace_forall P _ _ (by simp) fun _ _ => ?_
  split
  · simp
  refine forLoop_trace_forall P _ _ _ _ c (viaModel_trace_forall P _ _ c (h _ rfl))
    fun n hn i _ hi hi' => ?_
  have hn' := viaModel_out_eq _ _ _ c hn
  subst hn'
  refine forLoop_trace_forall P _ _ _ _ c (viaModel_trace_forall P _ _ c (h _ rfl))
    fun k hk j _ hj hj' => ?_
  have hk' := viaModel_out_eq _ _ _ c hk
  subst hk'
  simp only [CM.bind_apply]
  refine Run.andThen_trace_forall P _ _ (viaModel_trace_forall P _ _ c (h _ rfl)) fun _ _ => ?_
  refine Run.andThen_trace_forall P _ _ (test_trace_forall P _ _ c h) fun _ _ => ?_
  refine Run.andThen_trace_forall P _ _ (viaModel_trace_forall P _ _ c (h _ rfl)) fun x hx => ?_
  have hx' := viaModel_out_eq _ _ _ c hx
  subst hx'
  refine Run.andThen_trace_forall P _ _ (test_trace_forall P _ _ c h) fun _ _ => ?_
  exact testModelIndex_trace_forall M P S c h hS hchild fuel _ (htop i j hi hi' hj hj')

/-! ## Log-only mode -/

/-- C21, evaluation of the code.  Whatever the model, the arguments and the
rest of the state, with `throwOnError` false `onItemsInserted` on an empty
pending-insert stack logs "rowsInserted() has been emitted, but not
rowsAboutToBeInserted." and goes on to `d->AboutToBeInserted.pop()` on the
empty stack, an undefined step; likewise `onItemsRemoved` on an empty
pending-remove stack. -/
theorem completion_pops_empty_stack (fuel : Nat) (vparent : Idx) (orientation : Orientation)
    (start end_ : Int) (dm : Option Nat) (dn : Bool) (stack : List (Change Idx PIdx))
    (dl : List PIdx) :
    (onItemsInserted M fuel vparent orientation start end_ ⟨dm, false, dn, [], stack, dl⟩).out
        = .undefined
    ∧ "rowsInserted() has been emitted, but not rowsAboutToBeInserted."
        ∈ logged (onItemsInserted M fuel vparent orientation start end_
            ⟨dm, false, dn, [], stack, dl⟩).trace
    ∧ (onItemsRemoved M fuel vparent orientation start end_ ⟨dm, false, dn, stack, [], dl⟩).out
        = .undefined
    ∧ "rowsRemoved() has been emitted, but not rowsAboutToBeRemoved."
        ∈ logged (onItemsRemoved M fuel vparent orientation start end_
            ⟨dm, false, dn, stack, [], dl⟩).trace := by
  unfold onItemsInserted onItemsRemoved
  refine ⟨?_, ?_, ?_, ?_⟩ <;>
    cases stack <;> by_cases hse : start ≤ end_ <;>
    simp [hse, popAboutToBeInserted, popAboutToBeRemoved, test_mk_log, Result.andThen,
      Result.prepend]

/-! ## The connections made by `setModel` -/

/-- Full validation makes no connection. -/
theorem testModel_no_connect (fuel : Nat) (c : Config) (m : Nat) (signal : Signal)
    (slot : SlotName) : Event.connect m signal slot ∉ (testModel M fuel c).trace := by
  intro hmem
  have := testModel_trace_forall M (fun e => ∀ m s k, e ≠ Event.connect m s k) (fun _ => True) c
    (fun e he m s k h => by subst h; cases he)
    (fun x _ => ⟨fun _ _ _ h => (by cases h), fun _ _ _ h => (by cases h)⟩)
    (fun _ _ _ _ _ _ => trivial) (fun _ _ _ _ _ _ _ _ _ => trivial) fuel _ hmem
  exact this m signal slot rfl

omit [DecidableEq Idx] in
theorem forEach_emit_eq {γ : Type} (xs : List γ) (f : γ → Event Idx PIdx) (c : Config) :
    forEach xs (fun x => (CM.emit (f x) : Check Idx PIdx Unit)) c = ⟨xs.map f, .done ()⟩ := by
  induction xs with
  | nil => rfl
  | cons x xs ih =>
    unfold forEach
    simp [ih]

/-- The connections `setModel(m)` makes, for every model and state: exactly
the thirteen of `connections`, all on `m`. -/
theorem setModel_connects (fuel : Nat) (m : Nat) (d : ctkModelTesterPrivate Idx PIdx)
    (m' : Nat) (signal : Signal) (slot : SlotName) :
    Event.connect m' signal slot ∈ (setModel M fuel (some m) d).trace
      ↔ m' = m ∧ (signal, slot) ∈ connections := by
  obtain ⟨dm, dt, dn, di, dr, dl⟩ := d
  have hn := testModel_no_connect M fuel ⟨some m, dt⟩ m' signal slot
  unfold setModel
  cases dm <;>
    simp [forEach_emit_eq, Result.andThen, Result.prepend, hn] <;>
    exact ⟨fun ⟨a, b, hab, h1, h2, h3⟩ => ⟨h1.symm, h2 ▸ h3 ▸ hab⟩,
      fun ⟨h1, h2⟩ => ⟨signal, slot, h2, h1.symm, rfl, rfl⟩⟩

/-- C22, evaluation of the code.  For every model, state and non-null `m`,
`setModel(m)` connects the thirteen signals of `connections` to their slots and
nothing else: no slot is connected to `headerDataChanged`, so `m` never
delivers that notification to `onHeaderDataChanged` (or to any slot), while
each of the thirteen other signals is connected to the slot of its name. -/
theorem setModel_never_connects_headerDataChanged (fuel : Nat) (m : Nat)
    (d : ctkModelTesterPrivate Idx PIdx) :
    (∀ m' slot, Event.connect m' .headerDataChanged slot ∉ (setModel M fuel (some m) d).trace)
    ∧ (∀ signal, signal ≠ .headerDataChanged →
        ∃ slot, Event.connect m signal slot ∈ (setModel M fuel (some m) d).trace)
    ∧ Event.connect m .dataChanged .onDataChanged ∈ (setModel M fuel (some m) d).trace
    ∧ Event.connect m .rowsInserted .onRowsInserted ∈ (setModel M fuel (some m) d).trace := by
  refine ⟨fun m' slot h => ?_, fun signal hs => ?_, ?_, ?_⟩
  · have := ((setModel_connects M fuel m d m' .headerDataChanged slot).1 h).2
    revert this
    cases slot <;> decide
  · cases signal
    case headerDataChanged => exact absurd rfl hs
    all_goals first
      | exact ⟨.onColumnsAboutToBeInserted, (setModel_connects M fuel m d m _ _).2 ⟨rfl, by decide⟩⟩
      | exact ⟨.onColumnsAboutToBeRemoved, (setModel_connects M fuel m d m _ _).2 ⟨rfl, by decide⟩⟩
      | exact ⟨.onColumnsInserted, (setModel_connects M fuel m d m _ _).2 ⟨rfl, by decide⟩⟩
      | exact ⟨.onColumnsRemoved, (setModel_connects M fuel m d m _ _).2 ⟨rfl, by decide⟩⟩
      | exact ⟨.onDataChanged, (setModel_connects M fuel m d m _ _).2 ⟨rfl, by decide⟩⟩
      | exact ⟨.onLayoutAboutToBeChanged, (setModel_connects M fuel m d m _ _).2 ⟨rfl, by decide⟩⟩
      | exact ⟨.onLayoutChanged, (setModel_connects M fuel m d m _ _).2 ⟨rfl, by decide⟩⟩
      | exact ⟨.onModelAboutToBeReset, (setModel_connects M fuel m d m _ _).2 ⟨rfl, by decide⟩⟩
      | exact ⟨.onModelReset, (setModel_connects M fuel m d m _ _).2 ⟨rfl, by decide⟩⟩
      | exact ⟨.onRowsAboutToBeInserted, (setModel_connects M fuel m d m _ _).2 ⟨rfl, by decide⟩⟩
      | exact ⟨.onRowsAboutToBeRemoved, (setModel_connects M fuel m d m _ _).2 ⟨rfl, by decide⟩⟩
      | exact ⟨.onRowsInserted, (setModel_connects M fuel m d m _ _).2 ⟨rfl, by decide⟩⟩
      | exact ⟨.onRowsRemoved, (setModel_connects M fuel m d m _ _).2 ⟨rfl, by decide⟩⟩
  · exact (setModel_connects M fuel m d m _ _).2 ⟨rfl, by decide⟩
  · exact (setModel_connects M fuel m d m _ _).2 ⟨rfl, by decide⟩

/-! ## Calls that come to an end -/

theorem Outcome.completes_false_iff {α : Type} (o : Outcome α) :
    o.completes false ↔ ∃ a, o = .done a := by
  cases o <;> simp [Outcome.completes]

theorem Outcome.completes_iff {α : Type} (throw : Bool) (o : Outcome α) :
    o.completes throw ↔ (∃ a, o = .done a) ∨ (throw = true ∧ ∃ msg, o = .raised msg) := by
  cases o <;> simp [Outcome.completes]

theorem Outcome.completes_mono {α : Type} (throw : Bool) (o : Outcome α)
    (h : o.completes false) : o.completes throw := by
  cases o <;> simp_all [Outcome.completes]

omit [DecidableEq Idx] in
theorem Run.andThen_completes {α β : Type} (throw : Bool) (x : Run (Event Idx PIdx) α)
    (f : α → Run (Event Idx PIdx) β) (hx : x.out.completes throw)
    (hf : ∀ a, x.out = .done a → (f a).out.completes throw) :
    (x.andThen f).out.completes throw := by
  obtain ⟨xt, xo⟩ := x
  cases xo with
  | done a => simpa using hf a rfl
  | raised m => simpa [Outcome.completes] using hx
  | undefined => simp [Outcome.completes] at hx
  | outOfFuel => simp [Outcome.completes] at hx

omit [DecidableEq Idx] in
theorem forLoop.go_completes {β : Type} (throw : Bool) (bound : Check Idx PIdx Int)
    (body : Int → β → Check Idx PIdx β) (c : Config) (hb : (bound c).out.completes throw) :
    ∀ (k : Nat) (i : Int) (acc : β),
      (∀ t : Nat, t < k → ∀ acc, (body (i + t) acc c).out.completes throw) →
      (forLoop.go bound body k i acc c).out.completes throw := by
  intro k
  induction k with
  | zero => intro i acc _; simp [forLoop.go, Outcome.completes]
  | succ k ih =>
    intro i acc hbody
    unfold forLoop.go
    simp only [CM.bind_apply]
    refine Run.andThen_completes throw _ _ ?_ fun acc' _ => ?_
    · simpa using hbody 0 (by omega) acc
    · refine Run.andThen_completes throw _ _ hb fun _ _ => ?_
      refine ih (i + 1) acc' fun t ht acc'' => ?_
      have := hbody (t + 1) (by omega) acc''
      rw [show i + ((t + 1 : Nat) : Int) = i + 1 + (t : Int) by push_cast; omega] at this
      exact this

omit [DecidableEq Idx] in
/-- A loop comes to an end when its bound and every in-range iteration do. -/
theorem forLoop_completes {β : Type} (throw : Bool) (lo : Int) (bound : Check Idx PIdx Int)
    (init : β) (body : Int → β → Check Idx PIdx β) (c : Config)
    (hb : (bound c).out.completes throw)
    (hbody : ∀ n, (bound c).out = .done n → ∀ i acc, lo ≤ i → i < n →
      (body i acc c).out.completes throw) :
    (forLoop lo bound init body c).out.completes throw := by
  unfold forLoop
  simp only [CM.bind_apply]
  refine Run.andThen_completes throw _ _ hb fun n hn => ?_
  refine forLoop.go_completes throw bound body c hb _ lo init fun t ht acc => ?_
  exact hbody n hn _ acc (by omega) (by omega)

omit [DecidableEq Idx] in
theorem test_completes (result : Bool) (errorString : String) (c : Config) :
    ((test result errorString : Check Idx PIdx Unit) c).out.completes c.ThrowOnError := by
  obtain ⟨cm, ct⟩ := c
  cases result <;> cases ct <;> simp [test_eq_checkEvents, Outcome.completes]

omit [DecidableEq Idx] in
theorem viaModel_completes {α : Type} (throw : Bool) (ev : Event Idx PIdx) (a : α) (c : Config)
    (m : Nat) (hM : c.Model = some m) : (viaModel ev a c).out.completes throw := by
  rw [viaModel_out ev a c m hM]
  trivial

omit [DecidableEq Idx] in
theorem testData_completes (a : Idx) (c : Config) :
    (testData M a c).out.completes c.ThrowOnError := by
  unfold testData
  simp only [CM.bind_apply, CM.ite_apply]
  refine Run.andThen_completes _ _ _ trivial fun _ _ => ?_
  split <;> exact test_completes _ _ c

omit [DecidableEq Idx] in
theorem testParentChecks_completes (p : Idx) (c : Config) (m : Nat) (hM : c.Model = some m) :
    (testParentChecks M p c).out.completes c.ThrowOnError := by
  unfold testParentChecks
  simp only [CM.bind_apply, CM.ite_apply]
  refine Run.andThen_completes _ _ _ (viaModel_completes _ _ _ c m hM) fun _ _ => ?_
  split
  · exact Run.andThen_completes _ _ _ (viaModel_completes _ _ _ c m hM) fun _ _ =>
      test_completes _ _ c
  · refine Run.andThen_completes _ _ _ (viaModel_completes _ _ _ c m hM) fun _ _ => ?_
    refine Run.andThen_completes _ _ _ (test_completes _ _ c) fun _ _ => ?_
    refine Run.andThen_completes _ _ _ (viaModel_completes _ _ _ c m hM) fun _ _ => ?_
    split
    · exact Run.andThen_completes _ _ _ trivial fun _ _ => test_completes _ _ c
    · exact Run.andThen_completes _ _ _ (viaModel_completes _ _ _ c m hM) fun _ _ =>
        test_completes _ _ c

theorem testModelIndexWith_completes (tp : Idx → Check Idx PIdx Unit) (a : Idx) (c : Config)
    (htp : (tp a c).out.completes c.ThrowOnError) :
    (testModelIndexWith M tp a c).out.completes c.ThrowOnError := by
  unfold testModelIndexWith
  simp only [CM.bind_apply, CM.ite_apply]
  refine Run.andThen_completes _ _ _ trivial fun _ _ => ?_
  refine Run.andThen_completes _ _ _ trivial fun _ _ => ?_
  have hrest : ((testData M a c).andThen fun _ => tp a c).out.completes c.ThrowOnError :=
    Run.andThen_completes _ _ _ (testData_completes M a c) fun _ _ => htp
  split
  · refine Run.andThen_completes _ _ _ (test_completes _ _ c) fun _ _ => ?_
    refine Run.andThen_completes _ _ _ (test_completes _ _ c) fun _ _ => ?_
    refine Run.andThen_completes _ _ _ (test_completes _ _ c) fun _ _ => ?_
    refine Run.andThen_completes _ _ _ (test_completes _ _ c) fun _ _ => ?_
    refine Run.andThen_completes _ _ _ (test_completes _ _ c) fun _ _ => ?_
    refine Run.andThen_completes _ _ _ (test_completes _ _ c) fun _ _ => ?_
    refine Run.andThen_completes _ _ _ ?_ fun _ _ => hrest
    exact forLoop_completes _ _ _ _ _ c trivial fun _ _ _ _ _ _ => test_completes _ _ c
  · refine Run.andThen_completes _ _ _ (test_completes _ _ c) fun _ _ => ?_
    refine Run.andThen_completes _ _ _ (test_completes _ _ c) fun _ _ => ?_
    refine Run.andThen_completes _ _ _ (test_completes _ _ c) fun _ _ => ?_
    exact Run.andThen_completes _ _ _ (test_completes _ _ c) fun _ _ => hrest

/-- Below an address of remaining depth at most `n`, `testModelIndex` comes to
an end with any fuel above `n`. -/
theorem testModelIndex_completes (c : Config) (m : Nat) (hM : c.Model = some m)
    (hchild : ∀ p i j, M.isValid p = true → M.child p i j = M.index i j p) (n : Nat) :
    ∀ (a : Idx) (fuel : Nat), (∀ w, InRange M a w → w.length ≤ n) → n < fuel →
      (testModelIndex M fuel a c).out.completes c.ThrowOnError := by
  induction n with
  | zero =>
    intro a fuel hfin hfuel
    obtain ⟨f, rfl⟩ : ∃ f, fuel = f + 1 := ⟨fuel - 1, by omega⟩
    refine testModelIndexWith_completes M _ a c ?_
    rw [testParent_succ]
    simp only [Run.prepend_out_eq]
    refine Run.andThen_completes _ _ _ (testParentChecks_completes M a c m hM) fun _ _ => ?_
    split
    · trivial
    unfold testParentChildren
    refine forLoop_completes _ _ _ _ _ c (viaModel_completes _ _ _ c m hM)
      fun r hr i _ hi hi' => ?_
    have hr' := viaModel_out_eq _ _ _ c hr
    subst hr'
    refine forLoop_completes _ _ _ _ _ c (viaModel_completes _ _ _ c m hM)
      fun k hk j _ hj hj' => ?_
    have hk' := viaModel_out_eq _ _ _ c hk
    subst hk'
    have := hfin [(i, j)] ⟨⟨hi, hi', hj, hj'⟩, trivial⟩
    simp at this
  | succ n ih =>
    intro a fuel hfin hfuel
    obtain ⟨f, rfl⟩ : ∃ f, fuel = f + 1 := ⟨fuel - 1, by omega⟩
    refine testModelIndexWith_completes M _ a c ?_
    rw [testParent_succ]
    simp only [Run.prepend_out_eq]
    refine Run.andThen_completes _ _ _ (testParentChecks_completes M a c m hM) fun _ _ => ?_
    cases hv : M.isValid a with
    | false => simp [Outcome.completes]
    | true =>
      simp only [Bool.true_eq_false, if_false]
      unfold testParentChildren
      refine forLoop_completes _ _ _ _ _ c (viaModel_completes _ _ _ c m hM)
        fun r hr i _ hi hi' => ?_
      have hr' := viaModel_out_eq _ _ _ c hr
      subst hr'
      refine forLoop_completes _ _ _ _ _ c (viaModel_completes _ _ _ c m hM)
        fun k hk j _ hj hj' => ?_
      have hk' := viaModel_out_eq _ _ _ c hk
      subst hk'
      simp only [CM.bind_apply]
      refine Run.andThen_completes _ _ _ (viaModel_completes _ _ _ c m hM) fun _ _ => ?_
      refine Run.andThen_completes _ _ _ (test_completes _ _ c) fun _ _ => ?_
      refine Run.andThen_completes _ _ _ (test_completes _ _ c) fun _ _ => ?_
      rw [hchild a i j hv]
      refine ih _ f (fun w hw => ?_) (by omega)
      have := hfin ((i, j) :: w) ⟨⟨hi, hi', hj, hj'⟩, hw⟩
      simpa using this

/-- On a bound model of depth at most `n`, full validation comes to an end with
any fuel above `n`. -/
theorem testModel_completes (c : Config) (m : Nat) (hM : c.Model = some m)
    (hchild : ∀ p i j, M.isValid p = true → M.child p i j = M.index i j p) (n fuel : Nat)
    (hfin : ∀ w, InRange M M.nullIndex w → w.length ≤ n) (hfuel : n < fuel) :
    (testModel M fuel c).out.completes c.ThrowOnError := by
  unfold testModel
  simp only [CM.bind_apply, CM.ite_apply]
  refine Run.andThen_completes _ _ _ trivial fun _ _ => ?_
  refine Run.andThen_completes _ _ _ trivial fun _ _ => ?_
  split
  · trivial
  refine forLoop_completes _ _ _ _ _ c (viaModel_completes _ _ _ c m hM)
    fun r hr i _ hi hi' => ?_
  have hr' := viaModel_out_eq _ _ _ c hr
  subst hr'
  refine forLoop_completes _ _ _ _ _ c (viaModel_completes _ _ _ c m hM)
    fun k hk j _ hj hj' => ?_
  have hk' := viaModel_out_eq _ _ _ c hk
  subst hk'
  simp only [CM.bind_apply]
  refine Run.andThen_completes _ _ _ (viaModel_completes _ _ _ c m hM) fun _ _ => ?_
  refine Run.andThen_completes _ _ _ (test_completes _ _ c) fun _ _ => ?_
  refine Run.andThen_completes _ _ _ (viaModel_completes _ _ _ c m hM) fun x hx => ?_
  have hx' := viaModel_out_eq _ _ _ c hx
  subst hx'
  refine Run.andThen_completes _ _ _ (test_completes _ _ c) fun _ _ => ?_
  refine testModelIndex_completes M c m hM hchild n _ fuel (fun w hw => ?_) hfuel
  have := hfin ((i, j) :: w) ⟨⟨hi, hi', hj, hj'⟩, hw⟩
  simp only [List.length_cons] at this
  omega

/-- The hierarchy of `treeModel 1 branching id`: in-range indexes are valid. -/
theorem branching_valid (p : Cell) (i j : Int) (hi : 0 ≤ i)
    (hi' : i < (treeModel 1 branching id).rowCount p) (hj : 0 ≤ j)
    (hj' : j < (treeModel 1 branching id).columnCount p) :
    (treeModel 1 branching id).isValid ((treeModel 1 branching id).index i j p) = true := by
  simp only [treeModel] at hi' hj' ⊢
  simp [inTable, hi, hi', hj, hj']

/-- The hierarchy of `treeModel 1 branching id` has depth 2. -/
theorem branching_depth (w : List (Int × Int))
    (hw : InRange (treeModel 1 branching id) [] w) : w.length ≤ 2 := by
  match w, hw with
  | [], _ => simp
  | [_], _ => simp
  | [_, _], _ => simp
  | (a1, a2) :: (b1, b2) :: (c1, c2) :: rest, ⟨ha, hb, hc, _⟩ =>
    exfalso
    have ha' : (a1 = 0 ∨ a1 = 1) ∧ a2 = 0 := by
      simp only [treeModel, branching, if_true] at ha
      omega
    obtain ⟨ha1 | ha1, ha2⟩ := ha' <;> subst ha1 ha2
    · have hb' : b1 = 0 ∧ b2 = 0 := by
        simp [treeModel, branching, inTable] at hb
        omega
      obtain ⟨rfl, rfl⟩ := hb'
      simp [treeModel, branching, inTable] at hc
      omega
    · simp [treeModel, branching, inTable] at hb
      omega

/-- C26: termination of the tree walks.  On a bound model in which every
in-range `index(i, j, p)` is valid (a valid index being what its persistent
address stands for, and `p.child(i, j)` being `index(i, j, p)` for a valid `p`)
and whose hierarchy below `p` has depth at most `n` (no in-range sequence of
steps from `p` is longer than `n`), `persistentModelIndexes(p)` returns with any
recursion bound above `n`; when the depth below the root is at most `n`,
`testModel` comes to an end with any recursion bound above `n`: it returns, or,
with `throwOnError`, raises a violation.  The bound needed is the remaining
depth of the address, which decreases at each level of the recursion. -/
theorem walks_terminate (n fuel : Nat) (p : Idx) (c : Config) (m : Nat)
    (hM : c.Model = some m)
    (hvalid : ∀ p i j, 0 ≤ i → i < M.rowCount p → 0 ≤ j → j < M.columnCount p →
      M.isValid (M.index i j p) = true)
    (hrt : ∀ x, M.isValid x = true → M.deref (M.persist x) = x)
    (hchild : ∀ p i j, M.isValid p = true → M.child p i j = M.index i j p)
    (hfuel : n < fuel) :
    ((∀ w, InRange M p w → w.length ≤ n) →
        ∃ list, (persistentModelIndexes M fuel p c).out = .done list)
    ∧ ((∀ w, InRange M M.nullIndex w → w.length ≤ n) →
        (testModel M fuel c).out = .done ()
          ∨ (c.ThrowOnError = true ∧ ∃ msg, (testModel M fuel c).out = .raised msg))
    ∧ ((∀ w, InRange M M.nullIndex w → w.length ≤ n) → c.ThrowOnError = false →
        (testModel M fuel c).out = .done ()) := by
  refine ⟨fun hfin => ⟨_, persistentModelIndexes_walks M c m hM hvalid hrt n p fuel hfin hfuel⟩,
    fun hfin => ?_, fun hfin ht => ?_⟩
  · have := testModel_completes M c m hM hchild n fuel hfin hfuel
    rw [Outcome.completes_iff] at this
    rcases this with ⟨_, h⟩ | h
    · exact .inl h
    · exact .inr h
  · have := testModel_completes M c m hM hchild n fuel hfin hfuel
    rw [ht, Outcome.completes_false_iff] at this
    obtain ⟨_, h⟩ := this
    exact h

/-- C26 on the table of two rows whose first cell has one child (depth 2): with
recursion bound 3 the snapshot walk returns (its three addresses) and full
validation returns. -/
theorem walks_terminate_witness :
    (({ Model := some 1, ThrowOnError := false } : Config).Model = some 1)
    ∧ (2 < 3)
    ∧ (∃ list, (persistentModelIndexes (treeModel 1 branching id) 3 [] ⟨some 1, false⟩).out
        = .done list)
    ∧ (persistentModelIndexes (treeModel 1 branching id) 3 [] ⟨some 1, false⟩).out
        = .done [[(0, 0)], [(0, 0), (0, 0)], [(1, 0)]]
    ∧ (testModel (treeModel 1 branching id) 3 ⟨some 1, false⟩).out = .done () :=
  have h := walks_terminate (treeModel 1 branching id) 2 3 [] ⟨some 1, false⟩ 1 rfl
    branching_valid (fun _ _ => rfl)
    (fun p i j hp => by cases p <;> simp_all [treeModel]) (by decide)
  ⟨rfl, by decide, h.1 branching_depth, by decide, h.2.2 branching_depth rfl⟩

/-! ## The root in full validation -/

omit [DecidableEq Idx] in
theorem logged_eq_nil_of_forall (t : List (Event Idx PIdx))
    (h : ∀ e ∈ t, ∀ s, e ≠ Event.qDebug s) : logged t = [] := by
  induction t with
  | nil => rfl
  | cons e t ih =>
    have ht := ih fun e he => h e (List.mem_cons_of_mem _ he)
    have he := h e (List.mem_cons_self _ _)
    cases e <;> simp_all

/-- With no row or no column at the root, `testModel` only asks the root for
its counts. -/
theorem testModel_empty_root_trace (fuel : Nat) (c : Config)
    (h0 : M.rowCount M.nullIndex = 0 ∨ M.columnCount M.nullIndex = 0) :
    ∀ e ∈ (testModel M fuel c).trace,
      e = .testModel ∨ e = .rowCount M.nullIndex ∨ e = .columnCount M.nullIndex := by
  unfold testModel
  simp only [CM.bind_apply, CM.ite_apply]
  refine Run.andThen_trace_forall _ _ _ (by simp) fun _ _ => ?_
  refine Run.andThen_trace_forall _ _ _ (by simp) fun _ _ => ?_
  split
  · simp
  refine forLoop_trace_forall _ _ _ _ _ c
    (viaModel_trace_forall _ _ _ c (.inr (.inl rfl))) fun n hn i _ hi hi' => ?_
  have hn' := viaModel_out_eq _ _ _ c hn
  subst hn'
  refine forLoop_trace_forall _ _ _ _ _ c
    (viaModel_trace_forall _ _ _ c (.inr (.inr rfl))) fun k hk j _ hj hj' => ?_
  have hk' := viaModel_out_eq _ _ _ c hk
  subst hk'
  omega

theorem testModel_empty_root_out (fuel : Nat) (c : Config)
    (h0 : M.rowCount M.nullIndex = 0 ∨ M.columnCount M.nullIndex = 0) :
    (testModel M fuel c).out = .done () := by
  have : (testModel M fuel c).out.completes false := by
    obtain ⟨cm, ct⟩ := c
    unfold testModel
    simp only [CM.bind_apply, CM.ite_apply]
    refine Run.andThen_completes _ _ _ trivial fun _ _ => ?_
    refine Run.andThen_completes _ _ _ trivial fun d hd => ?_
    simp only [CM.read_apply, Outcome.done.injEq] at hd
    subst hd
    cases cm with
    | none => simp [Outcome.completes]
    | some m =>
      simp only [beq_iff_eq, reduceCtorEq, if_false]
      refine forLoop_completes _ _ _ _ _ _ (viaModel_completes _ _ _ _ m rfl)
        fun n hn i _ hi hi' => ?_
      have hn' := viaModel_out_eq _ _ _ _ hn
      subst hn'
      refine forLoop_completes _ _ _ _ _ _ (viaModel_completes _ _ _ _ m rfl)
        fun k hk j _ hj hj' => ?_
      have hk' := viaModel_out_eq _ _ _ _ hk
      subst hk'
      omega
  rw [Outcome.completes_false_iff] at this
  obtain ⟨_, h⟩ := this
  exact h

/-- C23: the root is never checked against the parent/children rule by full
validation.  For every model whose root reports `rowCount() = 0` or
`columnCount() = 0`, in every configuration, `testModel` returns having only
asked the root for its counts: it evaluates no check, asks neither
`hasChildren` nor `canFetchMore`, and logs nothing.  On a model whose in-range
indexes are all valid (`p.child(i, j)` being `index(i, j, p)` for a valid `p`),
every address `testParent` is applied to during `testModel` is valid, so it is
never applied to the invalid root. -/
theorem testModel_skips_root (fuel : Nat) (c : Config) :
    ((M.rowCount M.nullIndex = 0 ∨ M.columnCount M.nullIndex = 0) →
      (testModel M fuel c).out = .done ()
      ∧ (∀ result errorString, Event.test result errorString ∉ (testModel M fuel c).trace)
      ∧ (∀ x, Event.hasChildren x ∉ (testModel M fuel c).trace
          ∧ Event.canFetchMore x ∉ (testModel M fuel c).trace
          ∧ Event.testParent x ∉ (testModel M fuel c).trace)
      ∧ logged (testModel M fuel c).trace = [])
    ∧ ((∀ p i j, 0 ≤ i → i < M.rowCount p → 0 ≤ j → j < M.columnCount p →
          M.isValid (M.index i j p) = true) →
        (∀ p i j, M.isValid p = true → M.child p i j = M.index i j p) →
        (∀ x, Event.testParent x ∈ (testModel M fuel c).trace → M.isValid x = true)
        ∧ (M.isValid M.nullIndex = false →
            Event.testParent M.nullIndex ∉ (testModel M fuel c).trace)) := by
  refine ⟨fun h0 => ?_, fun hvalid hchild => ?_⟩
  · have ht := testModel_empty_root_trace M fuel c h0
    refine ⟨testModel_empty_root_out M fuel c h0, fun r s hmem => ?_, fun x => ⟨fun hmem => ?_,
      fun hmem => ?_, fun hmem => ?_⟩, logged_eq_nil_of_forall _ fun e he s hs => ?_⟩
    · rcases ht _ hmem with h | h | h <;> cases h
    · rcases ht _ hmem with h | h | h <;> cases h
    · rcases ht _ hmem with h | h | h <;> cases h
    · rcases ht _ hmem with h | h | h <;> cases h
    · subst hs
      rcases ht _ he with h | h | h <;> cases h
  · have key : ∀ x, Event.testParent x ∈ (testModel M fuel c).trace → M.isValid x = true := by
      intro x hmem
      have := testModel_trace_forall M (fun e => ∀ x, e = Event.testParent x → M.isValid x = true)
        (fun a => M.isValid a = true) c
        (fun e he x h => by subst h; cases he)
        (fun a ha => ⟨fun _ h => (by cases h), fun y h => (by cases h; exact ha)⟩)
        (fun i j hi hi' hj hj' => hvalid _ i j hi hi' hj hj')
        (fun p _ hp i j hi hi' hj hj' => by
          rw [hchild p i j hp]
          exact hvalid p i j hi hi' hj hj')
        fuel _ hmem
      exact this x rfl
    refine ⟨key, fun hroot hmem => ?_⟩
    rw [key _ hmem] at hroot
    cases hroot

/-- C23 on Scenario E, whose root breaks the parent/children rule: with
`throwOnError`, full validation returns without a single check; and on the
1 x 1 table with one child, `testParent` is not applied to the root. -/
theorem testModel_skips_root_witness :
    scenarioE.rowCount [] = 0
    ∧ logged (testParentChecks scenarioE [] ⟨some 1, false⟩).trace ≠ []
    ∧ (testModel scenarioE 2 ⟨some 1, true⟩).out = .done ()
    ∧ logged (testModel scenarioE 2 ⟨some 1, true⟩).trace = []
    ∧ Event.testParent [] ∉ (testModel (treeModel 1 nested id) 3 ⟨some 1, true⟩).trace :=
  have h := (testModel_skips_root scenarioE 2 ⟨some 1, true⟩).1 (.inl (by decide))
  have h' := (testModel_skips_root (treeModel 1 nested id) 3 ⟨some 1, true⟩).2
    (fun p i j hi hi' hj hj' => by
      simp only [treeModel] at hi' hj' ⊢
      simp [inTable, hi, hi', hj, hj'])
    (fun p i j hp => by cases p <;> simp_all [treeModel])
  ⟨by decide, by decide, h.1, h.2.2.2, h'.2 (by decide)⟩

/-! ## Completion handlers and the pop -/

/-- With `throwOnError`, a completion that fails one of the three checks before
the pop raises and leaves the private state as it was. -/
theorem onItemsInserted_early_raise (fuel : Nat) (vparent : Idx) (orientation : Orientation)
    (start end_ : Int) (d : ctkModelTesterPrivate Idx PIdx) (hT : d.ThrowOnError = true)
    (h : ¬ start ≤ end_ ∨ d.AboutToBeInserted = [] ∨ d.AboutToBeRemoved ≠ []) :
    (∃ msg, (onItemsInserted M fuel vparent orientation start end_ d).out = .raised msg)
      ∧ (onItemsInserted M fuel vparent orientation start end_ d).state = d := by
  obtain ⟨dm, dt, dn, di, dr, dl⟩ := d
  simp only at hT h
  subst hT
  unfold onItemsInserted
  by_cases hse : start ≤ end_ <;> cases di <;> cases dr <;>
    simp [hse, test_mk_throw, Result.andThen, Result.prepend]
  simp [hse] at h

/-- With `throwOnError`, a completion that passes the three checks before the
pop ends, however it ends, with the top record removed. -/
theorem onItemsInserted_popped (fuel : Nat) (vparent : Idx) (orientation : Orientation)
    (start end_ : Int) (d : ctkModelTesterPrivate Idx PIdx) (top : Change Idx PIdx)
    (rest : List (Change Idx PIdx)) (hT : d.ThrowOnError = true) (hse : start ≤ end_)
    (hI : d.AboutToBeInserted = top :: rest) (hR : d.AboutToBeRemoved = []) :
    (onItemsInserted M fuel vparent orientation start end_ d).state
      = { d with AboutToBeInserted := rest } := by
  obtain ⟨dm, dt, dn, di, dr, dl⟩ := d
  simp only at hT hI hR
  subst hT hI hR
  unfold onItemsInserted
  simp only [TM.bind_run, Slot.liftM_run, Slot.monadLift_run, TM.read_run, Result.andThen_done,
    Result.prepend_state, Result.prepend_nil, config_mk, test_mk_throw, TM.modify_run,
    TM.pure_run, apply_ite Run.trace, apply_ite Run.out, Result.andThen_state, TM.ite_run,
    apply_ite Result.state, popAboutToBeInserted]
  repeat' split
  all_goals simp_all

/-- With `throwOnError`, a completion whose popped record differs from the
arguments in parent, start or end (or is not `Vertical`) raises. -/
theorem onItemsInserted_mismatch_raises (fuel : Nat) (vparent : Idx) (orientation : Orientation)
    (start end_ : Int) (d : ctkModelTesterPrivate Idx PIdx) (top : Change Idx PIdx)
    (rest : List (Change Idx PIdx)) (hT : d.ThrowOnError = true) (hse : start ≤ end_)
    (hI : d.AboutToBeInserted = top :: rest) (hR : d.AboutToBeRemoved = [])
    (hmis : top.Parent ≠ vparent ∨ top.Orientation ≠ .Vertical ∨ top.Start ≠ start
      ∨ top.End ≠ end_) :
    ∃ msg, (onItemsInserted M fuel vparent orientation start end_ d).out = .raised msg := by
  obtain ⟨dm, dt, dn, di, dr, dl⟩ := d
  simp only at hT hI hR
  subst hT hI hR
  unfold onItemsInserted
  by_cases h1 : top.Parent = vparent <;> by_cases h2 : top.Orientation = .Vertical <;>
    by_cases h3 : top.Start = start <;> by_cases h4 : top.End = end_ <;>
    simp [hse, h1, h2, h3, h4, test_mk_throw, popAboutToBeInserted, Result.andThen,
      Result.prepend]
  simp [h1, h2, h3, h4] at hmis

/-- With `throwOnError` and a bound model, a completion whose popped record
matches the arguments but not the count raises the count violation. -/
theorem onItemsInserted_count_raises (fuel : Nat) (vparent : Idx) (orientation : Orientation)
    (start end_ : Int) (d : ctkModelTesterPrivate Idx PIdx) (top : Change Idx PIdx)
    (rest : List (Change Idx PIdx)) (m : Nat) (hT : d.ThrowOnError = true)
    (hM : d.Model = some m) (hse : start ≤ end_)
    (hI : d.AboutToBeInserted = top :: rest) (hR : d.AboutToBeRemoved = [])
    (h1 : top.Parent = vparent) (h2 : top.Orientation = .Vertical) (h3 : top.Start = start)
    (h4 : top.End = end_)
    (hc : (if orientation = .Vertical then M.rowCount vparent else M.columnCount vparent)
      - top.Count ≠ end_ - start + 1) :
    (onItemsInserted M fuel vparent orientation start end_ d).out
      = .raised "The new count number can't be lower" := by
  obtain ⟨dm, dt, dn, di, dr, dl⟩ := d
  simp only at hT hM hI hR
  subst hT hM hI hR
  unfold onItemsInserted axisCount
  cases orientation <;>
    simp only [reduceCtorEq, if_true, if_false] at hc ⊢ <;>
    [by_cases hlt : top.Count < M.columnCount vparent;
     by_cases hlt : top.Count < M.rowCount vparent] <;>
    simp [hse, h1, h2, h3, h4, hc, hlt, test_mk_throw, popAboutToBeInserted, Result.andThen,
      Result.prepend, dModel.rowCount, dModel.columnCount]

/-- With `throwOnError`, a completion that fails one of the three checks before
the pop raises and leaves the private state as it was. -/
theorem onItemsRemoved_early_raise (fuel : Nat) (vparent : Idx) (orientation : Orientation)
    (start end_ : Int) (d : ctkModelTesterPrivate Idx PIdx) (hT : d.ThrowOnError = true)
    (h : ¬ start ≤ end_ ∨ d.AboutToBeRemoved = [] ∨ d.AboutToBeInserted ≠ []) :
    (∃ msg, (onItemsRemoved M fuel vparent orientation start end_ d).out = .raised msg)
      ∧ (onItemsRemoved M fuel vparent orientation start end_ d).state = d := by
  obtain ⟨dm, dt, dn, di, dr, dl⟩ := d
  simp only at hT h
  subst hT
  unfold onItemsRemoved
  by_cases hse : start ≤ end_ <;> cases di <;> cases dr <;>
    simp [hse, test_mk_throw, Result.andThen, Result.prepend]
  simp [hse] at h

/-- With `throwOnError`, a completion that passes the three checks before the
pop ends, however it ends, with the top record removed. -/
theorem onItemsRemoved_popped (fuel : Nat) (vparent : Idx) (orientation : Orientation)
    (start end_ : Int) (d : ctkModelTesterPrivate Idx PIdx) (top : Change Idx PIdx)
    (rest : List (Change Idx PIdx)) (hT : d.ThrowOnError = true) (hse : start ≤ end_)
    (hI : d.AboutToBeRemoved = top :: rest) (hR : d.AboutToBeInserted = []) :
    (onItemsRemoved M fuel vparent orientation start end_ d).state
      = { d with AboutToBeRemoved := rest } := by
  obtain ⟨dm, dt, dn, di, dr, dl⟩ := d
  simp only at hT hI hR
  subst hT hI hR
  unfold onItemsRemoved
  simp only [TM.bind_run, Slot.liftM_run, Slot.monadLift_run, TM.read_run, Result.andThen_done,
    Result.prepend_state, Result.prepend_nil, config_mk, test_mk_throw, TM.modify_run,
    TM.pure_run, apply_ite Run.trace, apply_ite Run.out, Result.andThen_state, TM.ite_run,
    apply_ite Result.state, popAboutToBeRemoved]
  repeat' split
  all_goals simp_all

/-- With `throwOnError`, a completion whose popped record differs from the
arguments in parent, start or end (or is not `Vertical`) raises. -/
theorem onItemsRemoved_mismatch_raises (fuel : Nat) (vparent : Idx) (orientation : Orientation)
    (start end_ : Int) (d : ctkModelTesterPrivate Idx PIdx) (top : Change Idx PIdx)
    (rest : List (Change Idx PIdx)) (hT : d.ThrowOnError = true) (hse : start ≤ end_)
    (hI : d.AboutToBeRemoved = top :: rest) (hR : d.AboutToBeInserted = [])
    (hmis : top.Parent ≠ vparent ∨ top.Orientation ≠ .Vertical ∨ top.Start ≠ start
      ∨ top.End ≠ end_) :
    ∃ msg, (onItemsRemoved M fuel vparent orientation start end_ d).out = .raised msg := by
  obtain ⟨dm, dt, dn, di, dr, dl⟩ := d
  simp only at hT hI hR
  subst hT hI hR
  unfold onItemsRemoved
  by_cases h1 : top.Parent = vparent <;> by_cases h2 : top.Orientation = .Vertical <;>
    by_cases h3 : top.Start = start <;> by_cases h4 : top.End = end_ <;>
    simp [hse, h1, h2, h3, h4, test_mk_throw, popAboutToBeRemoved, Result.andThen,
      Result.prepend]
  simp [h1, h2, h3, h4] at hmis

/-- With `throwOnError` and a bound model, a completion whose popped record
matches the arguments but not the count raises the count violation. -/
theorem onItemsRemoved_count_raises (fuel : Nat) (vparent : Idx) (orientation : Orientation)
    (start end_ : Int) (d : ctkModelTesterPrivate Idx PIdx) (top : Change Idx PIdx)
    (rest : List (Change Idx PIdx)) (m : Nat) (hT : d.ThrowOnError = true)
    (hM : d.Model = some m) (hse : start ≤ end_)
    (hI : d.AboutToBeRemoved = top :: rest) (hR : d.AboutToBeInserted = [])
    (h1 : top.Parent = vparent) (h2 : top.Orientation = .Vertical) (h3 : top.Start = start)
    (h4 : top.End = end_)
    (hc : top.Count
      - (if orientation = .Vertical then M.rowCount vparent else M.columnCount vparent)
        ≠ end_ - start + 1) :
    (onItemsRemoved M fuel vparent orientation start end_ d).out
      = .raised "The new count number can't be higher" := by
  obtain ⟨dm, dt, dn, di, dr, dl⟩ := d
  simp only at hT hM hI hR
  subst hT hM hI hR
  unfold onItemsRemoved axisCount
  cases orientation <;>
    simp only [reduceCtorEq, if_true, if_false] at hc ⊢ <;>
    [by_cases hlt : top.Count > M.columnCount vparent;
     by_cases hlt : top.Count > M.rowCount vparent] <;>
    simp [hse, h1, h2, h3, h4, hc, hlt, test_mk_throw, popAboutToBeRemoved, Result.andThen,
      Result.prepend, dModel.rowCount, dModel.columnCount]

/-- C24: completion handlers are not atomic on mismatch.  With `throwOnError`:
when `onItemsInserted` fails one of its first three checks (`start > end`, empty
pending-insert stack, non-empty pending-remove stack) it raises and the private
state, both stacks included, is unchanged; when it passes them, the call ends,
however it ends, with the top record popped, the pending-insert stack exactly
one shorter and the rest of the state unchanged, and it does raise when the
popped record differs from the arguments in parent, start or end (or is not
`Vertical`), or, on a bound model, when the record matches but the count does
not.  Likewise for `onItemsRemoved` and the pending-remove stack. -/
theorem completion_not_atomic (fuel : Nat) (vparent : Idx) (orientation : Orientation)
    (start end_ : Int) (d : ctkModelTesterPrivate Idx PIdx) (hT : d.ThrowOnError = true) :
    ((¬ start ≤ end_ ∨ d.AboutToBeInserted = [] ∨ d.AboutToBeRemoved ≠ [] →
        (∃ msg, (onItemsInserted M fuel vparent orientation start end_ d).out = .raised msg)
          ∧ (onItemsInserted M fuel vparent orientation start end_ d).state = d)
      ∧ ∀ top rest, start ≤ end_ → d.AboutToBeInserted = top :: rest → d.AboutToBeRemoved = [] →
        (onItemsInserted M fuel vparent orientation start end_ d).state
            = { d with AboutToBeInserted := rest }
          ∧ (onItemsInserted M fuel vparent orientation start end_ d).state.AboutToBeInserted.length
              + 1 = d.AboutToBeInserted.length
          ∧ (top.Parent ≠ vparent ∨ top.Orientation ≠ .Vertical ∨ top.Start ≠ start
              ∨ top.End ≠ end_ →
            ∃ msg, (onItemsInserted M fuel vparent orientation start end_ d).out = .raised msg)
          ∧ ∀ m, d.Model = some m → top.Parent = vparent → top.Orientation = .Vertical →
            top.Start = start → top.End = end_ →
            (if orientation = .Vertical then M.rowCount vparent else M.columnCount vparent)
              - top.Count ≠ end_ - start + 1 →
            (onItemsInserted M fuel vparent orientation start end_ d).out
              = .raised "The new count number can't be lower")
    ∧ ((¬ start ≤ end_ ∨ d.AboutToBeRemoved = [] ∨ d.AboutToBeInserted ≠ [] →
        (∃ msg, (onItemsRemoved M fuel vparent orientation start end_ d).out = .raised msg)
          ∧ (onItemsRemoved M fuel vparent orientation start end_ d).state = d)
      ∧ ∀ top rest, start ≤ end_ → d.AboutToBeRemoved = top :: rest → d.AboutToBeInserted = [] →
        (onItemsRemoved M fuel vparent orientation start end_ d).state
            = { d with AboutToBeRemoved := rest }
          ∧ (onItemsRemoved M fuel vparent orientation start end_ d).state.AboutToBeRemoved.length
              + 1 = d.AboutToBeRemoved.length
          ∧ (top.Parent ≠ vparent ∨ top.Orientation ≠ .Vertical ∨ top.Start ≠ start
              ∨ top.End ≠ end_ →
            ∃ msg, (onItemsRemoved M fuel vparent orientation start end_ d).out = .raised msg)
          ∧ ∀ m, d.Model = some m → top.Parent = vparent → top.Orientation = .Vertical →
            top.Start = start → top.End = end_ →
            top.Count
              - (if orientation = .Vertical then M.rowCount vparent else M.columnCount vparent)
                ≠ end_ - start + 1 →
            (onItemsRemoved M fuel vparent orientation start end_ d).out
              = .raised "The new count number can't be higher") := by
  refine ⟨⟨onItemsInserted_early_raise M fuel vparent orientation start end_ d hT,
      fun top rest hse hI hR => ⟨?_, ?_, ?_, ?_⟩⟩,
    ⟨onItemsRemoved_early_raise M fuel vparent orientation start end_ d hT,
      fun top rest hse hI hR => ⟨?_, ?_, ?_, ?_⟩⟩⟩
  · exact onItemsInserted_popped M fuel vparent orientation start end_ d top rest hT hse hI hR
  · rw [onItemsInserted_popped M fuel vparent orientation start end_ d top rest hT hse hI hR, hI]
    rfl
  · exact onItemsInserted_mismatch_raises M fuel vparent orientation start end_ d top rest hT hse
      hI hR
  · intro m hM h1 h2 h3 h4 hc
    exact onItemsInserted_count_raises M fuel vparent orientation start end_ d top rest m hT hM
      hse hI hR h1 h2 h3 h4 hc
  · exact onItemsRemoved_popped M fuel vparent orientation start end_ d top rest hT hse hI hR
  · rw [onItemsRemoved_popped M fuel vparent orientation start end_ d top rest hT hse hI hR, hI]
    rfl
  · exact onItemsRemoved_mismatch_raises M fuel vparent orientation start end_ d top rest hT hse
      hI hR
  · intro m hM h1 h2 h3 h4 hc
    exact onItemsRemoved_count_raises M fuel vparent orientation start end_ d top rest m hT hM
      hse hI hR h1 h2 h3 h4 hc

/-- C24 at concrete inputs: with rows 3..4 pending on a 3 x 1 table,
`rowsInserted(root, 3, 5)` raises "End can't be different" and leaves the
pending-insert stack empty, while `rowsInserted(root, 4, 3)` raises and leaves
it as it was. -/
theorem completion_not_atomic_witness :
    pendingInsert.ThrowOnError = true
    ∧ (onItemsInserted (tableModel 1 5 1 id) 2 [] .Vertical 3 5 pendingInsert).out
        = .raised "End can't be different"
    ∧ (onItemsInserted (tableModel 1 5 1 id) 2 [] .Vertical 3 5 pendingInsert).state
        = { pendingInsert with AboutToBeInserted := [] }
    ∧ (onItemsInserted (tableModel 1 5 1 id) 2 [] .Vertical 4 3 pendingInsert).state
        = pendingInsert :=
  ⟨rfl, by decide,
    ((completion_not_atomic (tableModel 1 5 1 id) 2 [] .Vertical 3 5 pendingInsert rfl).1.2
      appendTwoRows [] (by decide) rfl rfl).1,
    ((completion_not_atomic (tableModel 1 5 1 id) 2 [] .Vertical 4 3 pendingInsert rfl).1.1
      (.inl (by decide))).2⟩

/-! ## The loose count comparison -/

omit [DecidableEq Idx] in
/-- What is observed of a sequence depends on what is observed of its parts. -/
theorem Result.observed_andThen_congr {α β : Type}
    (x : Result (Event Idx PIdx) (ctkModelTesterPrivate Idx PIdx) α)
    (f g : α → ctkModelTesterPrivate Idx PIdx →
      Result (Event Idx PIdx) (ctkModelTesterPrivate Idx PIdx) β)
    (h : ∀ a, x.out = .done a → (f a x.state).observed = (g a x.state).observed) :
    (x.andThen f).observed = (x.andThen g).observed := by
  obtain ⟨xt, xo, xs⟩ := x
  cases xo with
  | done a =>
    have := h a rfl
    simp only [Result.observed, Prod.mk.injEq] at this
    simp [Result.observed, this.1, this.2.1, this.2.2]
  | raised m => rfl
  | undefined => rfl
  | outOfFuel => rfl

omit [DecidableEq Idx] in
/-- With `throwOnError`, a check that is implied by the check that follows it,
with the same message, can be deleted: nothing observable changes. -/
theorem loose_check_redundant {α : Type} (loose strict : Bool) (errorString : String)
    (rest : Slot Idx PIdx α) (d : ctkModelTesterPrivate Idx PIdx)
    (hT : d.ThrowOnError = true) (h : strict = true → loose = true) :
    ((do
        (test loose errorString : Check Idx PIdx Unit)
        (test strict errorString : Check Idx PIdx Unit)
        rest : Slot Idx PIdx α) d).observed
      = ((do
        (test strict errorString : Check Idx PIdx Unit)
        rest : Slot Idx PIdx α) d).observed := by
  obtain ⟨dm, dt, dn, di, dr, dl⟩ := d
  simp only at hT
  subst hT
  cases loose <;> cases strict <;>
    simp [Result.observed, test_mk_throw, Result.andThen, Result.prepend] at h ⊢

omit [DecidableEq Idx] in
theorem Result.observed_bind_lift_congr {α β : Type} (x : Check Idx PIdx α)
    (f g : α → Slot Idx PIdx β) (d : ctkModelTesterPrivate Idx PIdx)
    (h : ∀ a, (x d.config).out = .done a → (f a d).observed = (g a d).observed) :
    (((liftM x : Slot Idx PIdx α) >>= f) d).observed
      = (((liftM x : Slot Idx PIdx α) >>= g) d).observed := by
  rw [TM.bind_run, TM.bind_run]
  exact Result.observed_andThen_congr _ _ _ fun a ha => h a ha

omit [DecidableEq Idx] in
theorem Result.observed_bind_read_congr {β : Type}
    (f g : ctkModelTesterPrivate Idx PIdx → Slot Idx PIdx β) (d : ctkModelTesterPrivate Idx PIdx)
    (h : (f d d).observed = (g d d).observed) :
    (((TM.read : Slot Idx PIdx _) >>= f) d).observed
      = (((TM.read : Slot Idx PIdx _) >>= g) d).observed := by
  rw [TM.bind_run, TM.bind_run]
  exact Result.observed_andThen_congr _ _ _ fun a ha => by
    simp only [TM.read_run, Outcome.done.injEq] at ha
    subst ha
    exact h

/-- Deleting `change.Count < count` from `onItemsInserted` changes nothing observable. -/
theorem onItemsInserted_loose_check (fuel : Nat) (vparent : Idx) (orientation : Orientation)
    (start end_ : Int) (d : ctkModelTesterPrivate Idx PIdx) (hT : d.ThrowOnError = true) :
    (onItemsInserted M fuel vparent orientation start end_ d).observed
      = (onItemsInsertedWithoutLooseCheck M fuel vparent orientation start end_ d).observed := by
  unfold onItemsInserted onItemsInsertedWithoutLooseCheck
  refine Result.observed_bind_lift_congr _ _ _ d fun _ h1 => ?_
  have hse : start ≤ end_ := by
    simpa using (test_out_done_throw _ _ d.config hT).1 h1
  refine Result.observed_bind_read_congr _ _ d ?_
  refine Result.observed_bind_lift_congr _ _ _ d fun _ _ => ?_
  refine Result.observed_bind_read_congr _ _ d ?_
  refine Result.observed_bind_lift_congr _ _ _ d fun _ _ => ?_
  rw [TM.bind_run, TM.bind_run]
  refine Result.observed_andThen_congr _ _ _ fun change hpop => ?_
  have hT' : (popAboutToBeInserted d).state.ThrowOnError = true := by
    unfold popAboutToBeInserted
    split <;> exact hT
  generalize (popAboutToBeInserted d).state = d' at hT' ⊢
  refine Result.observed_bind_lift_congr _ _ _ d' fun _ _ => ?_
  refine Result.observed_bind_lift_congr _ _ _ d' fun _ _ => ?_
  refine Result.observed_bind_lift_congr _ _ _ d' fun _ _ => ?_
  refine Result.observed_bind_lift_congr _ _ _ d' fun _ _ => ?_
  refine Result.observed_bind_lift_congr _ _ _ d' fun count _ => ?_
  refine loose_check_redundant _ _ _ _ d' hT' fun h => ?_
  rw [beq_iff_eq] at h
  exact decide_eq_true (by omega)

/-- Deleting `change.Count > count` from `onItemsRemoved` changes nothing observable. -/
theorem onItemsRemoved_loose_check (fuel : Nat) (vparent : Idx) (orientation : Orientation)
    (start end_ : Int) (d : ctkModelTesterPrivate Idx PIdx) (hT : d.ThrowOnError = true) :
    (onItemsRemoved M fuel vparent orientation start end_ d).observed
      = (onItemsRemovedWithoutLooseCheck M fuel vparent orientation start end_ d).observed := by
  unfold onItemsRemoved onItemsRemovedWithoutLooseCheck
  refine Result.observed_bind_lift_congr _ _ _ d fun _ h1 => ?_
  have hse : start ≤ end_ := by
    simpa using (test_out_done_throw _ _ d.config hT).1 h1
  refine Result.observed_bind_read_congr _ _ d ?_
  refine Result.observed_bind_lift_congr _ _ _ d fun _ _ => ?_
  refine Result.observed_bind_read_congr _ _ d ?_
  refine Result.observed_bind_lift_congr _ _ _ d fun _ _ => ?_
  rw [TM.bind_run, TM.bind_run]
  refine Result.observed_andThen_congr _ _ _ fun change hpop => ?_
  have hT' : (popAboutToBeRemoved d).state.ThrowOnError = true := by
    unfold popAboutToBeRemoved
    split <;> exact hT
  generalize (popAboutToBeRemoved d).state = d' at hT' ⊢
  refine Result.observed_bind_lift_congr _ _ _ d' fun _ _ => ?_
  refine Result.observed_bind_lift_congr _ _ _ d' fun _ _ => ?_
  refine Result.observed_bind_lift_congr _ _ _ d' fun _ _ => ?_
  refine Result.observed_bind_lift_congr _ _ _ d' fun _ _ => ?_
  refine Result.observed_bind_lift_congr _ _ _ d' fun count _ => ?_
  refine loose_check_redundant _ _ _ _ d' hT' fun h => ?_
  rw [beq_iff_eq] at h
  exact decide_eq_true (by omega)

/-- C25: the loose count comparison is redundant under `throwOnError`.  For
every model, state and arguments, with `throwOnError` set, `onItemsInserted`
and its variant without the check `change.Count < count` end the same way (both
return, or both raise the same message, or both stop at the same undefined
step), leave the same private state and write the same lines to `qDebug()`;
likewise `onItemsRemoved` and its variant without `change.Count > count`. -/
theorem loose_count_check_redundant (fuel : Nat) (vparent : Idx) (orientation : Orientation)
    (start end_ : Int) (d : ctkModelTesterPrivate Idx PIdx) (hT : d.ThrowOnError = true) :
    ((onItemsInserted M fuel vparent orientation start end_ d).out
        = (onItemsInsertedWithoutLooseCheck M fuel vparent orientation start end_ d).out
      ∧ (onItemsInserted M fuel vparent orientation start end_ d).state
        = (onItemsInsertedWithoutLooseCheck M fuel vparent orientation start end_ d).state
      ∧ logged (onItemsInserted M fuel vparent orientation start end_ d).trace
        = logged (onItemsInsertedWithoutLooseCheck M fuel vparent orientation start end_ d).trace)
    ∧ ((onItemsRemoved M fuel vparent orientation start end_ d).out
        = (onItemsRemovedWithoutLooseCheck M fuel vparent orientation start end_ d).out
      ∧ (onItemsRemoved M fuel vparent orientation start end_ d).state
        = (onItemsRemovedWithoutLooseCheck M fuel vparent orientation start end_ d).state
      ∧ logged (onItemsRemoved M fuel vparent orientation start end_ d).trace
        = logged (onItemsRemovedWithoutLooseCheck M fuel vparent orientation start end_ d).trace) := by
  have h1 := onItemsInserted_loose_check M fuel vparent orientation start end_ d hT
  have h2 := onItemsRemoved_loose_check M fuel vparent orientation start end_ d hT
  simp only [Result.observed, Prod.mk.injEq] at h1 h2
  exact ⟨h1, h2⟩

/-- C25 at concrete inputs: rows 3..4 are pending on a 3 x 1 table and
`rowsInserted(root, 3, 4)` arrives while the table still has 3 rows, so the
loose check fails; without it the strict check raises the same message, with
the same log and the same state. -/
theorem loose_count_check_redundant_witness :
    pendingInsert.ThrowOnError = true
    ∧ (onItemsInserted (tableModel 1 3 1 id) 2 [] .Vertical 3 4 pendingInsert).out
        = .raised "The new count number can't be lower"
    ∧ (onItemsInsertedWithoutLooseCheck (tableModel 1 3 1 id) 2 [] .Vertical 3 4
        pendingInsert).out = .raised "The new count number can't be lower"
    ∧ logged (onItemsInsertedWithoutLooseCheck (tableModel 1 3 1 id) 2 [] .Vertical 3 4
        pendingInsert).trace = ["The new count number can't be lower"] :=
  have h := (loose_count_check_redundant (tableModel 1 3 1 id) 2 [] .Vertical 3 4
    pendingInsert rfl).1
  ⟨rfl, by decide, h.1.symm.trans (by decide), h.2.2.symm.trans (by decide)⟩

end claims

end ctk
